import Mathlib

/-!
Verification of the Sudoku puzzle generation/validation engine.

This file gives a shallow embedding, in Lean 4, of the generator and
validator functions of the Sudoku repository (classic, consecutive,
even-odd, asterisk, windoku and jigsaw variants), and proves or refutes
the specification claims about them.

Modelling conventions, used uniformly below:
* a board is a total function `Nat → Nat → Option Nat`; the JavaScript
  `null` cell is `none`, and `board.length` is modelled by an explicit
  `size` parameter (always 4, 6 or 9 at call sites);
* in-place mutation (`board[r][c] = v`) becomes the functional update
  `setCell`; the `validateBoard` functions, which temporarily mutate the
  board, are modelled as state-passing functions returning the final
  board together with the result, so that their frame behaviour can be
  stated;
* `Math.random()`-driven choices (the shuffled first row, shuffled
  removal positions, shuffled candidate lists, coin flips for the
  consecutive marks, pattern selection) are modelled by passing the
  outcome of each random choice as an explicit parameter; theorems
  quantify over all outcomes;
* the unbounded recursion of the backtracking solver is modelled with a
  fuel parameter; `size * size + 1` fuel always suffices because every
  recursive call fills one empty cell;
* `throw new Error(...)` is modelled with `Except String`.
-/

/-- A cell of a Sudoku board: `none` models the JavaScript `null`. -/
abbrev Cell := Option Nat

/-- A board, as a total function from (row, column) to cell contents.
Cells outside the `size × size` grid are never read by the embedded code
with meaningful indices. -/
abbrev Board := Nat → Nat → Cell

/-- Functional update of one cell, modelling `board[r][c] = v`. -/
def setCell (b : Board) (r c : Nat) (v : Cell) : Board :=
  fun r' c' => if r' = r ∧ c' = c then v else b r' c'

/-- The board every generator starts from (`createEmptyBoard`): all cells
`null`.  The `size` argument of the source only fixes the extent of the
array, which the functional representation does not need. -/
def emptyBoard : Board := fun _ _ => none

/-- A concrete board given by its rows (used for literal test boards). -/
def ofRows (rows : List (List Nat)) : Board :=
  fun r c => (rows.getD r []).get? c

/-- All grid positions in row-major order, as iterated by the nested
`for (row ...) for (col ...)` loops of the source. -/
def allCells (size : Nat) : List (Nat × Nat) :=
  (List.range size).flatMap (fun r => (List.range size).map (fun c => (r, c)))

/-- First empty cell in row-major order, as found by the scanning loops of
`solveSudoku`. -/
def findEmptyCell (size : Nat) (b : Board) : Option (Nat × Nat) :=
  (allCells size).find? (fun rc => (b rc.1 rc.2).isNone)

/-- Candidate values `1 .. size`, tried in this order by the solvers. -/
def candidateVals (size : Nat) : List Nat := List.range' 1 size

/-- One step of the backtracking loop: try each candidate in order; on a
valid candidate, place it and run the continuation `next` (the recursive
solver call); on failure, undo (the unchanged `b` is reused) and try the
next candidate. -/
def tryCands (next : Board → Option Board) (valid : Board → Nat → Nat → Nat → Bool)
    (b : Board) (r c : Nat) : List Nat → Option Board
  | [] => none
  | n :: rest =>
    if valid b r c n then
      match next (setCell b r c (some n)) with
      | some b' => some b'
      | none => tryCands next valid b r c rest
    else tryCands next valid b r c rest

/-- The generic backtracking solver shared (up to the validity test) by
`solveSudoku` in the classic and even-odd modules: find the first empty
cell, try candidates `1..size`, recurse; `none` models returning `false`
with the board restored.  `fuel` bounds recursion depth. -/
def solveWith (valid : Board → Nat → Nat → Nat → Bool) (size : Nat) :
    Nat → Board → Option Board
  | 0, _ => none
  | fuel + 1, b =>
    match findEmptyCell size b with
    | none => some b
    | some rc => tryCands (solveWith valid size fuel) valid b rc.1 rc.2 (candidateVals size)

/-- Generic state-passing core of the `validateBoard` functions: for each
filled cell, temporarily clear it, re-check its value with the variant's
`isValidMove`, and write the value back (on both result paths, exactly as
in the source). -/
def validateGo (check : Board → Nat → Nat → Nat → Bool) :
    List (Nat × Nat) → Board → Bool × Board
  | [], b => (true, b)
  | rc :: rest, b =>
    match b rc.1 rc.2 with
    | none => validateGo check rest b
    | some temp =>
      let b1 := setCell b rc.1 rc.2 none
      let b2 := setCell b1 rc.1 rc.2 (some temp)
      if check b1 rc.1 rc.2 temp then validateGo check rest b2 else (false, b2)

/-- State-passing `validateBoard` over the whole grid. -/
def validatePass (check : Board → Nat → Nat → Nat → Bool) (size : Nat) (b : Board) :
    Bool × Board :=
  validateGo check (allCells size) b

/-- Number of filled (non-`null`) cells among a list of positions. -/
def countFilledIn (b : Board) (cells : List (Nat × Nat)) : Nat :=
  cells.countP (fun rc => (b rc.1 rc.2).isSome)

/-- Decidable check that every non-empty cell of `p` equals the cell at
the same position of `s` (the "puzzle is a sub-board of its solution"
property). -/
def subBoardB (size : Nat) (p s : Board) : Bool :=
  (allCells size).all fun rc =>
    match p rc.1 rc.2 with
    | some v => s rc.1 rc.2 == some v
    | none => true

/-- Difficulty levels of `generatePuzzle`. -/
inductive Difficulty where
  | easy
  | medium
  | hard

/-- Tenths of cells removed per difficulty (the source multiplies by the
floats 0.4 / 0.5 / 0.6 and floors). -/
def removalTenths : Difficulty → Nat
  | .easy => 4
  | .medium => 5
  | .hard => 6

/-- Number of cells the carver removes: `Math.floor(totalCells * frac)`.
For all total cell counts 16, 36, 81 occurring here, the floating point
products `16 * 0.4`, ..., `81 * 0.6` floor to the same value as the exact
rational, so `size * size * tenths / 10` in `Nat` is a faithful model. -/
def cellsToRemove (size : Nat) (d : Difficulty) : Nat :=
  size * size * removalTenths d / 10

/-- Integer square root by bounded search, modelling `Math.sqrt` at the
perfect-square sizes 4 and 9 where the source's box arithmetic is exact.
(For size 6 the source computes the non-integral 2.449... and broken,
fractional box indices; that float behaviour is not reproduced, and no
theorem below evaluates the box arithmetic at size 6.) -/
def sqrtNat (n : Nat) : Nat :=
  ((List.range (n + 1)).filter fun k => k * k ≤ n).getLastD 0

/-- Clear the listed cells, in order (the carving loop of the simple
variants, which removes unconditionally). -/
def removeCells (b : Board) : List (Nat × Nat) → Board
  | [] => b
  | rc :: rest => removeCells (setCell b rc.1 rc.2 none) rest

namespace ClassicSudoku

/-- Row-block height of a box, per `getBoxCoordinates` / `isValidMove`:
2 for 4×4, 2 for 6×6 (2×3 boxes), 3 otherwise. -/
def boxRowSize (size : Nat) : Nat :=
  if size = 4 then 2 else if size = 6 then 2 else 3

/-- Column-block width of a box: 2 for 4×4, 3 for 6×6, 3 otherwise. -/
def boxColSize (size : Nat) : Nat :=
  if size = 4 then 2 else if size = 6 then 3 else 3

/-- Classic `isValidMove`: `num` occurs in no other cell of the row, the
column, or the box of `(row, col)`. -/
def isValidMove (size : Nat) (board : Board) (row col num : Nat) : Bool :=
  ((List.range size).all fun c => c == col || !(board row c == some num)) &&
  ((List.range size).all fun r => r == row || !(board r col == some num)) &&
  (let brs := boxRowSize size
   let bcs := boxColSize size
   let startRow := row / brs * brs
   let startCol := col / bcs * bcs
   (List.range brs).all fun i => (List.range bcs).all fun j =>
     (startRow + i == row && startCol + j == col)
       || !(board (startRow + i) (startCol + j) == some num))

/-- Classic backtracking solver (`solveSudoku`): `some b` models returning
`true` with the board mutated to `b`; `none` models returning `false` with
the board restored.  The source derives `size` from `board.length`. -/
def solveSudoku (size fuel : Nat) (b : Board) : Option Board :=
  solveWith (fun b' r c n => isValidMove size b' r c n) size fuel b

/-- The board after the first-row seeding loop of `generateCompleteBoard`:
row 0 holds the shuffled numbers (passed here as the shuffle's outcome
`firstRow`), everything else is empty. -/
def initialBoard (size : Nat) (firstRow : List Nat) : Board :=
  fun r c => if r = 0 ∧ c < size then some (firstRow.getD c 0) else none

/-- Classic `generateCompleteBoard`: seed the first row with the shuffled
`1..size` (shuffle outcome = `firstRow`), then fill the rest by
backtracking; if the solver fails the board is returned as seeded. -/
def generateCompleteBoard (size : Nat) (firstRow : List Nat) : Board :=
  let b0 := initialBoard size firstRow
  match solveSudoku size (size * size + 1) b0 with
  | some b => b
  | none => b0

/-- Result record of the classic `generatePuzzle`. -/
structure PuzzleResult where
  puzzle : Board
  solution : Board

/-- Classic `generatePuzzle`: copy the solution and clear the first
`cellsToRemove` of the shuffled positions (shuffle outcome =
`positions`). -/
def generatePuzzle (size : Nat) (d : Difficulty) (firstRow : List Nat)
    (positions : List (Nat × Nat)) : PuzzleResult :=
  let solution := generateCompleteBoard size firstRow
  let puzzle := removeCells solution (positions.take (cellsToRemove size d))
  ⟨puzzle, solution⟩

/-- Classic `validateBoard` together with the board in its final state
(the source mutates the board and restores every cell). -/
def validateBoardPass (size : Nat) (b : Board) : Bool × Board :=
  validatePass (fun b' r c n => isValidMove size b' r c n) size b

/-- Classic `validateBoard` result. -/
def validateBoard (size : Nat) (b : Board) : Bool :=
  (validateBoardPass size b).1

/-- Classic `isBoardComplete`: every cell of the grid is non-`null`. -/
def isBoardComplete (size : Nat) (b : Board) : Bool :=
  (allCells size).all fun rc => (b rc.1 rc.2).isSome

/-- Classic `isBoardSolved`. -/
def isBoardSolved (size : Nat) (b : Board) : Bool :=
  isBoardComplete size b && validateBoard size b

end ClassicSudoku

namespace ConsecutiveSudoku

/-- Consecutive-adjacency marks: `horizontal r c` marks the edge between
`(r, c)` and `(r, c+1)`; `vertical r c` the edge between `(r, c)` and
`(r+1, c)`.  The source stores these as `size × (size-1)` and
`(size-1) × size` boolean arrays; out-of-range positions are unmarked. -/
structure ConsecutiveConstraints where
  horizontal : Nat → Nat → Bool
  vertical : Nat → Nat → Bool

/-- The `Math.abs(a - b) === 1` test of the source. -/
def isConsecutiveB (a b : Nat) : Bool := ((a : Int) - (b : Int)).natAbs == 1

/-- Consecutive `generateConsecutiveConstraints`: an edge is marked iff
its two solution values are consecutive and the 60%-probability coin for
that edge comes up heads.  `hcoin`/`vcoin` are the per-edge outcomes of
`Math.random() < markProbability`.  (The `randomMarkProbability` branch of
the source has an empty body and adds no marks.)  The `as number` casts
coerce `null` to 0, modelled by `Option.getD 0`. -/
def generateConsecutiveConstraints (size : Nat) (solution : Board)
    (hcoin vcoin : Nat → Nat → Bool) : ConsecutiveConstraints where
  horizontal := fun r c =>
    if r < size ∧ c < size - 1 then
      isConsecutiveB ((solution r c).getD 0) ((solution r (c + 1)).getD 0) && hcoin r c
    else false
  vertical := fun r c =>
    if r < size - 1 ∧ c < size then
      isConsecutiveB ((solution r c).getD 0) ((solution (r + 1) c).getD 0) && vcoin r c
    else false

/-- Consecutive `isValidMove`: classic rules, then, for each filled
orthogonal neighbour, the source returns `false` when a mark is present
without consecutive values or when values are consecutive without a mark;
both `if`s together demand `mark == consecutive`. -/
def isValidMove (size : Nat) (board : Board) (row col num : Nat)
    (cs : Option ConsecutiveConstraints) : Bool :=
  ClassicSudoku.isValidMove size board row col num &&
  match cs with
  | none => true
  | some constraints =>
    (if 0 < col then
       match board row (col - 1) with
       | some leftValue => constraints.horizontal row (col - 1) == isConsecutiveB leftValue num
       | none => true
     else true) &&
    (if col < size - 1 then
       match board row (col + 1) with
       | some rightValue => constraints.horizontal row col == isConsecutiveB rightValue num
       | none => true
     else true) &&
    (if 0 < row then
       match board (row - 1) col with
       | some topValue => constraints.vertical (row - 1) col == isConsecutiveB topValue num
       | none => true
     else true) &&
    (if row < size - 1 then
       match board (row + 1) col with
       | some bottomValue => constraints.vertical row col == isConsecutiveB bottomValue num
       | none => true
     else true)

/-- Result record of the consecutive `generatePuzzle`. -/
structure PuzzleResult where
  puzzle : Board
  solution : Board
  constraints : ConsecutiveConstraints

/-- Consecutive `generatePuzzle`: a classic solution, marks generated from
it, then the same carving as the classic variant. -/
def generatePuzzle (size : Nat) (d : Difficulty) (firstRow : List Nat)
    (hcoin vcoin : Nat → Nat → Bool) (positions : List (Nat × Nat)) : PuzzleResult :=
  let solution := ClassicSudoku.generateCompleteBoard size firstRow
  let constraints := generateConsecutiveConstraints size solution hcoin vcoin
  let puzzle := removeCells solution (positions.take (cellsToRemove size d))
  ⟨puzzle, solution, constraints⟩

/-- Consecutive `validateBoard` with the final board state. -/
def validateBoardPass (size : Nat) (b : Board) (cs : Option ConsecutiveConstraints) :
    Bool × Board :=
  validatePass (fun b' r c n => isValidMove size b' r c n cs) size b

/-- Consecutive `validateBoard` result. -/
def validateBoard (size : Nat) (b : Board) (cs : Option ConsecutiveConstraints) : Bool :=
  (validateBoardPass size b cs).1

/-- Consecutive `isBoardComplete`. -/
def isBoardComplete (size : Nat) (b : Board) : Bool :=
  (allCells size).all fun rc => (b rc.1 rc.2).isSome

end ConsecutiveSudoku

namespace EvenOddSudoku

/-- The fixed 9×9 even/odd shading pattern of `getEvenOddPattern`
(`true` = shaded = even numbers only). -/
def evenOddPattern9 : List (List Bool) :=
  [[false, false, false, false, false, true,  false, false, false],
   [false, false, true,  true,  false, false, false, false, true ],
   [false, false, true,  false, true,  false, true,  false, false],
   [true,  false, false, false, false, false, false, false, false],
   [true,  false, false, false, false, true,  false, false, true ],
   [false, false, false, true,  false, false, false, true,  true ],
   [true,  true,  false, false, false, true,  false, false, false],
   [true,  true,  false, false, true,  false, false, false, false],
   [false, false, false, false, true,  true,  true,  false, false]]

/-- The checkerboard 6×6 pattern of `getEvenOddPattern`. -/
def evenOddPattern6 : List (List Bool) :=
  [[false, true,  false, true,  false, true ],
   [true,  false, true,  false, true,  false],
   [false, true,  false, true,  false, true ],
   [true,  false, true,  false, true,  false],
   [false, true,  false, true,  false, true ],
   [true,  false, true,  false, true,  false]]

/-- The checkerboard 4×4 pattern of `getEvenOddPattern`. -/
def evenOddPattern4 : List (List Bool) :=
  [[false, true,  false, true ],
   [true,  false, true,  false],
   [false, true,  false, true ],
   [true,  false, true,  false]]

/-- `getEvenOddPattern`, with the all-`false` fallback for other sizes. -/
def getEvenOddPattern (size : Nat) : Nat → Nat → Bool := fun r c =>
  ((if size = 9 then evenOddPattern9
    else if size = 6 then evenOddPattern6
    else if size = 4 then evenOddPattern4
    else []).getD r []).getD c false

/-- `isShadedCell` (argument order as in the source). -/
def isShadedCell (row col size : Nat) : Bool := getEvenOddPattern size row col

/-- Even-odd `isValidMove`: the parity constraint first (shaded cells take
even numbers, unshaded odd), then row/column/box checks, which the source
duplicates verbatim from the classic module. -/
def isValidMove (size : Nat) (board : Board) (row col num : Nat) : Bool :=
  (let isShaded := isShadedCell row col size
   let isEven := num % 2 == 0
   !(isShaded && !isEven) && !(!isShaded && isEven)) &&
  ClassicSudoku.isValidMove size board row col num

/-- Even-odd `solveSudoku` (same backtracking loop, even-odd validity). -/
def solveSudoku (size fuel : Nat) (b : Board) : Option Board :=
  solveWith (fun b' r c n => isValidMove size b' r c n) size fuel b

/-- Cells of a `boxSize × boxSize` block whose top-left corner is
`(row, col)`, in the row-major order of the `fillBox` loops. -/
def boxCellList (boxSize row col : Nat) : List (Nat × Nat) :=
  (List.range boxSize).flatMap fun i => (List.range boxSize).map fun j => (row + i, col + j)

/-- The candidate `fillBox` places at one cell: the first valid value of
`numbers` scanned cyclically from offset `numIndex`, if any. -/
def tryNumsAt (size : Nat) (board : Board) (r c : Nat) (numbers : List Nat)
    (numIndex : Nat) : Option Nat :=
  ((List.range numbers.length).find? fun a =>
      isValidMove size board r c (numbers.getD ((numIndex + a) % numbers.length) 0)).map
    fun a => numbers.getD ((numIndex + a) % numbers.length) 0

/-- The cell loop of `fillBox`: place the chosen candidate (if any) and
advance `numIndex` only on success, as in the source. -/
def fillBoxGo (size : Nat) (numbers : List Nat) :
    List (Nat × Nat) → Board → Nat → Board
  | [], b, _ => b
  | rc :: rest, b, numIndex =>
    match tryNumsAt size b rc.1 rc.2 numbers numIndex with
    | some n => fillBoxGo size numbers rest (setCell b rc.1 rc.2 (some n)) (numIndex + 1)
    | none => fillBoxGo size numbers rest b numIndex

/-- `fillBox` with the shuffled `numbers` passed as the shuffle outcome. -/
def fillBox (size : Nat) (numbers : List Nat) (b : Board) (row col : Nat) : Board :=
  fillBoxGo size numbers (boxCellList (sqrtNat size) row col) b 0

/-- `fillDiagonalBoxes`: fill the blocks along the main diagonal.  The
source steps `box` by `Math.sqrt(size)`, which is exact for sizes 4 and 9
(the only sizes the accompanying theorems use; for size 6 the source
computes fractional indices). -/
def fillDiagonalBoxes (size : Nat) (numbersStream : Nat → List Nat) (b : Board) : Board :=
  (List.range (size / sqrtNat size)).foldl
    (fun acc k => fillBox size (numbersStream k) acc (k * sqrtNat size) (k * sqrtNat size))
    b

/-- `generateFallbackBoard`: diagonal boxes first, then a solver run; the
board is returned whether or not the solver succeeds. -/
def generateFallbackBoard (size : Nat) (numbersStream : Nat → List Nat) : Board :=
  let b0 := fillDiagonalBoxes size numbersStream emptyBoard
  match solveSudoku size (size * size + 1) b0 with
  | some b => b
  | none => b0

/-- The 50-attempt loop of `generateCompleteBoard`.  Each attempt runs
`fillBoardStrategically`, which shuffles a positions array it never uses
and then calls `solveSudoku` on the empty board, so every attempt is the
same deterministic computation. -/
def attemptLoop (size : Nat) : Nat → Option Board
  | 0 => none
  | k + 1 =>
    match solveSudoku size (size * size + 1) emptyBoard with
    | some b => some b
    | none => attemptLoop size k

/-- Even-odd `generateCompleteBoard`: 50 solver attempts, then the
fallback board. -/
def generateCompleteBoard (size : Nat) (numbersStream : Nat → List Nat) : Board :=
  match attemptLoop size 50 with
  | some b => b
  | none => generateFallbackBoard size numbersStream

/-- Box index as computed in the even-odd `generatePuzzle`
(`floor(row/boxSize)*boxSize + floor(col/boxSize)` with
`boxSize = Math.sqrt(size)`, exact for sizes 4 and 9). -/
def boxIndexOf (size r c : Nat) : Nat :=
  let boxSize := sqrtNat size
  r / boxSize * boxSize + c / boxSize

/-- The per-box clue floor of the even-odd carver:
`Math.max(1, Math.floor(size / 3))`. -/
def minCluesPerBox (size : Nat) : Nat := max 1 (size / 3)

/-- The removal pass of the even-odd `generatePuzzle`: walk the shuffled
positions while fewer than `k` cells are removed; skip any removal that
would leave the cell's box at or below the floor.  `cellValue % 2` on a
`null` cell coerces `null` to 0 in the source, modelled by `getD 0`. -/
def carveGo (size k : Nat) (pattern : Nat → Nat → Bool) :
    List (Nat × Nat) → Board → List Nat → Nat → Board × List Nat
  | [], puzzle, counters, _ => (puzzle, counters)
  | rc :: rest, puzzle, counters, removedCount =>
    if removedCount < k then
      let cellValue := (puzzle rc.1 rc.2).getD 0
      let isShaded := pattern rc.1 rc.2
      let isEven := cellValue % 2 == 0
      let bi := boxIndexOf size rc.1 rc.2
      let wouldLeaveBoxEmpty := counters.getD bi 0 ≤ minCluesPerBox size
      if (isEven && !isShaded) || (!isEven && isShaded) then
        if !wouldLeaveBoxEmpty then
          carveGo size k pattern rest (setCell puzzle rc.1 rc.2 none)
            (counters.set bi (counters.getD bi 0 - 1)) (removedCount + 1)
        else carveGo size k pattern rest puzzle counters removedCount
      else
        if removedCount < k && !wouldLeaveBoxEmpty then
          carveGo size k pattern rest (setCell puzzle rc.1 rc.2 none)
            (counters.set bi (counters.getD bi 0 - 1)) (removedCount + 1)
        else carveGo size k pattern rest puzzle counters removedCount
    else (puzzle, counters)

/-- One step of the restoration pass: if the box's counter is zero,
re-insert the solution value at the first empty cell of the box whose
solution value has the parity its shading demands (`null` again coercing
to 0, hence "even"). -/
def restoreBox (size : Nat) (pattern : Nat → Nat → Bool) (solution : Board)
    (puzzle : Board) (counters : List Nat) (bi : Nat) : Board × List Nat :=
  if counters.getD bi 0 == 0 then
    let boxSize := sqrtNat size
    let boxRow := bi / boxSize * boxSize
    let boxCol := bi % boxSize * boxSize
    match (boxCellList boxSize boxRow boxCol).find? (fun rc =>
        (puzzle rc.1 rc.2).isNone &&
        (let cellValue := (solution rc.1 rc.2).getD 0
         let isEven := cellValue % 2 == 0
         (isEven && pattern rc.1 rc.2) || (!isEven && !pattern rc.1 rc.2))) with
    | some rc =>
      (setCell puzzle rc.1 rc.2 (solution rc.1 rc.2),
       counters.set bi (counters.getD bi 0 + 1))
    | none => (puzzle, counters)
  else (puzzle, counters)

/-- The restoration pass over all box indices. -/
def restorePass (size : Nat) (pattern : Nat → Nat → Bool) (solution : Board)
    (puzzle : Board) (counters : List Nat) : Board × List Nat :=
  (List.range size).foldl
    (fun st bi => restoreBox size pattern solution st.1 st.2 bi)
    (puzzle, counters)

/-- Initial per-box cell counts (`cluesPerBox` after the counting loop). -/
def initialCounters (size : Nat) : List Nat :=
  (List.range size).map fun i =>
    (allCells size).countP fun rc => boxIndexOf size rc.1 rc.2 == i

/-- Even-odd `generatePuzzle`: carve with box tracking, then restore. -/
def generatePuzzle (size : Nat) (d : Difficulty) (numbersStream : Nat → List Nat)
    (positions : List (Nat × Nat)) : ClassicSudoku.PuzzleResult :=
  let solution := generateCompleteBoard size numbersStream
  let pattern := getEvenOddPattern size
  let st := carveGo size (cellsToRemove size d) pattern positions solution
    (initialCounters size) 0
  let st2 := restorePass size pattern solution st.1 st.2
  ⟨st2.1, solution⟩

/-- Even-odd `validateBoard` with the final board state. -/
def validateBoardPass (size : Nat) (b : Board) : Bool × Board :=
  validatePass (fun b' r c n => isValidMove size b' r c n) size b

/-- Even-odd `validateBoard` result. -/
def validateBoard (size : Nat) (b : Board) : Bool :=
  (validateBoardPass size b).1

/-- Even-odd `isBoardComplete`. -/
def isBoardComplete (size : Nat) (b : Board) : Bool :=
  (allCells size).all fun rc => (b rc.1 rc.2).isSome

end EvenOddSudoku

namespace AsteriskSudoku

/-- The nine fixed asterisk positions, as listed in `getAsteriskPattern`. -/
def asteriskPositions : List (Nat × Nat) :=
  [(1, 4), (2, 6), (4, 7), (6, 6), (7, 4), (6, 2), (4, 1), (2, 2), (4, 4)]

/-- `isAsteriskCell`: membership in the asterisk pattern. -/
def isAsteriskCell (row col : Nat) : Bool :=
  asteriskPositions.contains (row, col)

/-- `getAsteriskCells`: the asterisk cells collected in row-major scan
order, as the source builds them from the pattern grid. -/
def getAsteriskCells : List (Nat × Nat) :=
  (allCells 9).filter fun rc => isAsteriskCell rc.1 rc.2

/-- Asterisk `isValidMove`: classic rules (the module is 9×9 only), plus
uniqueness among the asterisk cells when `(row, col)` is one of them. -/
def isValidMove (board : Board) (row col num : Nat) : Bool :=
  ClassicSudoku.isValidMove 9 board row col num &&
  (if isAsteriskCell row col then
     getAsteriskCells.all fun rc =>
       (rc.1 == row && rc.2 == col) || !(board rc.1 rc.2 == some num)
   else true)

/-- The duplicate test done with a `Set` in the source: each value is
compared against the values seen after it; `null` coerces to a value (0
here) distinct from 1..9. -/
def dedupCheck : List Nat → Bool
  | [] => true
  | v :: rest => !(rest.contains v) && dedupCheck rest

/-- `validateAsteriskConstraint`: the nine asterisk values are pairwise
distinct. -/
def validateAsteriskConstraint (board : Board) : Bool :=
  dedupCheck (getAsteriskCells.map fun rc => (board rc.1 rc.2).getD 0)

/-- The retry loop of `generateCompleteBoard`: the first classic board
whose asterisk cells are duplicate-free, among attempts `start`,
`start+1`, ... up to the retry budget. -/
def genAttempts (firstRows : Nat → List Nat) (start : Nat) : Nat → Option Board
  | 0 => none
  | fuel + 1 =>
    let solution := ClassicSudoku.generateCompleteBoard 9 (firstRows start)
    if validateAsteriskConstraint solution then some solution
    else genAttempts firstRows (start + 1) fuel

/-- Asterisk `generateCompleteBoard`: up to 100 checked classic attempts;
if all fail, the last attempt is returned anyway (generation is pure, so
re-computing attempt 100 equals the board the source kept).  Attempt 0 of
the source is overwritten before it is ever checked, so the checked
attempts are 1..100. -/
def generateCompleteBoard (firstRows : Nat → List Nat) : Board :=
  match genAttempts firstRows 1 100 with
  | some b => b
  | none => ClassicSudoku.generateCompleteBoard 9 (firstRows 100)

/-- The carving loop of the asterisk `generatePuzzle`: remove freely, but
at most `maxAst` of the nine asterisk cells. -/
def astCarve (k maxAst : Nat) : List (Nat × Nat) → Board → Nat → Nat → Board × Nat × Nat
  | [], pz, ar, rm => (pz, ar, rm)
  | rc :: rest, pz, ar, rm =>
    if rm < k then
      if isAsteriskCell rc.1 rc.2 then
        if ar < maxAst then
          astCarve k maxAst rest (setCell pz rc.1 rc.2 none) (ar + 1) (rm + 1)
        else astCarve k maxAst rest pz ar rm
      else astCarve k maxAst rest (setCell pz rc.1 rc.2 none) ar (rm + 1)
    else (pz, ar, rm)

/-- Asterisk `generatePuzzle`: throws unless `size = 9`; keeps at least
40% of the asterisk clues (`maxAst = Math.floor(9 * 0.6) = 5`). -/
def generatePuzzle (size : Nat) (d : Difficulty) (firstRows : Nat → List Nat)
    (positions : List (Nat × Nat)) : Except String ClassicSudoku.PuzzleResult :=
  if size ≠ 9 then .error ("Asterisk Sudoku is only available in 9x9 size")
  else
    let solution := generateCompleteBoard firstRows
    let maxAst := getAsteriskCells.length * 6 / 10
    let st := astCarve (cellsToRemove 9 d) maxAst positions solution 0 0
    .ok ⟨st.1, solution⟩

/-- Asterisk `validateBoard`: classic validation (with its temporary
mutations) followed by the read-only asterisk constraint check. -/
def validateBoardPass (b : Board) : Bool × Board :=
  let st := ClassicSudoku.validateBoardPass 9 b
  (st.1 && validateAsteriskConstraint st.2, st.2)

/-- Asterisk `validateBoard` result. -/
def validateBoard (b : Board) : Bool := (validateBoardPass b).1

/-- Asterisk `isBoardComplete`. -/
def isBoardComplete (b : Board) : Bool :=
  (allCells 9).all fun rc => (b rc.1 rc.2).isSome

end AsteriskSudoku

namespace WindokuSudoku

/-- `getWindokuRegions`: the four fixed 3×3 windows. -/
def getWindokuRegions : List (List (Nat × Nat)) :=
  [[(1, 1), (1, 2), (1, 3), (2, 1), (2, 2), (2, 3), (3, 1), (3, 2), (3, 3)],
   [(1, 5), (1, 6), (1, 7), (2, 5), (2, 6), (2, 7), (3, 5), (3, 6), (3, 7)],
   [(5, 1), (5, 2), (5, 3), (6, 1), (6, 2), (6, 3), (7, 1), (7, 2), (7, 3)],
   [(5, 5), (5, 6), (5, 7), (6, 5), (6, 6), (6, 7), (7, 5), (7, 6), (7, 7)]]

/-- `getWindokuRegionIndex`: index of the window containing the cell;
`none` models the `-1` of the source. -/
def windokuRegionIndex (row col : Nat) : Option Nat :=
  (List.range getWindokuRegions.length).find? fun i =>
    (getWindokuRegions.getD i []).any fun rc => rc.1 == row && rc.2 == col

/-- Windoku `isValidMove`: classic rules plus uniqueness inside the
window containing the cell, if any. -/
def isValidMove (board : Board) (row col num : Nat) : Bool :=
  ClassicSudoku.isValidMove 9 board row col num &&
  match windokuRegionIndex row col with
  | some ri =>
    (getWindokuRegions.getD ri []).all fun rc =>
      (rc.1 == row && rc.2 == col) || !(board rc.1 rc.2 == some num)
  | none => true

/-- `validateWindokuConstraint`: every window is duplicate-free. -/
def validateWindokuConstraint (board : Board) : Bool :=
  getWindokuRegions.all fun region =>
    AsteriskSudoku.dedupCheck (region.map fun rc => (board rc.1 rc.2).getD 0)

/-- The retry loop of the windoku `generateCompleteBoard`. -/
def genAttempts (firstRows : Nat → List Nat) (start : Nat) : Nat → Option Board
  | 0 => none
  | fuel + 1 =>
    let solution := ClassicSudoku.generateCompleteBoard 9 (firstRows start)
    if validateWindokuConstraint solution then some solution
    else genAttempts firstRows (start + 1) fuel

/-- Windoku `generateCompleteBoard`: up to 100 checked classic attempts,
then the last attempt unconditionally (as for the asterisk variant). -/
def generateCompleteBoard (firstRows : Nat → List Nat) : Board :=
  match genAttempts firstRows 1 100 with
  | some b => b
  | none => ClassicSudoku.generateCompleteBoard 9 (firstRows 100)

/-- The carving loop of the windoku `generatePuzzle`: remove freely
outside the windows, and at most `maxW = 6` cells per window. -/
def winCarve (k maxW : Nat) : List (Nat × Nat) → Board → List Nat → Nat → Board × List Nat × Nat
  | [], pz, cnt, rm => (pz, cnt, rm)
  | rc :: rest, pz, cnt, rm =>
    if rm < k then
      match windokuRegionIndex rc.1 rc.2 with
      | some ri =>
        if cnt.getD ri 0 < maxW then
          winCarve k maxW rest (setCell pz rc.1 rc.2 none)
            (cnt.set ri (cnt.getD ri 0 + 1)) (rm + 1)
        else winCarve k maxW rest pz cnt rm
      | none => winCarve k maxW rest (setCell pz rc.1 rc.2 none) cnt (rm + 1)
    else (pz, cnt, rm)

/-- Windoku `generatePuzzle`: throws unless `size = 9`; keeps at least 3
clues per window. -/
def generatePuzzle (size : Nat) (d : Difficulty) (firstRows : Nat → List Nat)
    (positions : List (Nat × Nat)) : Except String ClassicSudoku.PuzzleResult :=
  if size ≠ 9 then .error ("Windoku Sudoku is only available in 9x9 size")
  else
    let solution := generateCompleteBoard firstRows
    let st := winCarve (cellsToRemove 9 d) 6 positions solution [0, 0, 0, 0] 0
    .ok ⟨st.1, solution⟩

/-- Windoku `validateBoard`: classic validation then the window check. -/
def validateBoardPass (b : Board) : Bool × Board :=
  let st := ClassicSudoku.validateBoardPass 9 b
  (st.1 && validateWindokuConstraint st.2, st.2)

/-- Windoku `validateBoard` result. -/
def validateBoard (b : Board) : Bool := (validateBoardPass b).1

/-- Windoku `isBoardComplete`. -/
def isBoardComplete (b : Board) : Bool :=
  (allCells 9).all fun rc => (b rc.1 rc.2).isSome

end WindokuSudoku

namespace JigsawSudoku

/-- Jigsaw region data: the label grid and, per label, the list of its
cells (built in row-major scan order as in `createRegionsFromPattern`). -/
structure JigsawRegions where
  regions : List (List Nat)
  regionCells : List (List (Nat × Nat))

/-- The three hand-authored 6×6 patterns of `generate6x6Regions`. -/
def patterns6 : List (List (List Nat)) :=
  [[[0, 0, 1, 1, 2, 2],
    [0, 0, 1, 1, 2, 2],
    [3, 3, 4, 4, 5, 5],
    [3, 3, 4, 4, 5, 5],
    [0, 1, 2, 3, 4, 5],
    [0, 1, 2, 3, 4, 5]],
   [[0, 0, 0, 1, 1, 1],
    [0, 2, 2, 1, 3, 3],
    [2, 2, 4, 4, 3, 3],
    [5, 4, 4, 4, 5, 5],
    [5, 5, 0, 1, 2, 3],
    [4, 5, 0, 1, 2, 3]],
   [[0, 1, 1, 2, 2, 3],
    [0, 0, 1, 2, 3, 3],
    [4, 0, 5, 5, 3, 4],
    [4, 4, 5, 1, 2, 4],
    [0, 1, 2, 3, 4, 5],
    [5, 1, 2, 3, 4, 0]]]

/-- The three hand-authored 9×9 patterns of `generate9x9Regions`. -/
def patterns9 : List (List (List Nat)) :=
  [[[0, 0, 0, 1, 1, 1, 2, 2, 2],
    [0, 3, 3, 1, 4, 4, 2, 5, 5],
    [3, 3, 3, 4, 4, 4, 5, 5, 5],
    [6, 6, 6, 7, 7, 7, 8, 8, 8],
    [6, 0, 0, 7, 1, 1, 8, 2, 2],
    [0, 0, 3, 1, 1, 4, 2, 2, 5],
    [3, 3, 3, 4, 4, 4, 5, 5, 5],
    [6, 6, 7, 7, 8, 8, 6, 7, 8],
    [6, 7, 7, 8, 8, 0, 1, 2, 3]],
   [[0, 0, 1, 1, 1, 2, 2, 2, 3],
    [0, 0, 1, 4, 4, 2, 5, 5, 3],
    [0, 4, 4, 4, 6, 6, 5, 5, 3],
    [7, 7, 7, 6, 6, 6, 8, 8, 8],
    [1, 2, 3, 0, 1, 2, 3, 4, 5],
    [4, 5, 6, 7, 8, 0, 1, 2, 3],
    [7, 8, 0, 1, 2, 3, 4, 5, 6],
    [3, 4, 5, 6, 7, 8, 0, 1, 2],
    [6, 7, 8, 0, 1, 2, 3, 4, 5]],
   [[0, 0, 0, 1, 1, 2, 2, 2, 2],
    [0, 3, 3, 1, 1, 1, 4, 4, 2],
    [3, 3, 3, 5, 5, 4, 4, 4, 6],
    [7, 7, 5, 5, 5, 8, 8, 6, 6],
    [7, 7, 7, 0, 1, 8, 8, 8, 6],
    [0, 1, 2, 3, 4, 5, 6, 7, 8],
    [1, 2, 3, 4, 5, 6, 7, 8, 0],
    [2, 3, 4, 5, 6, 7, 8, 0, 1],
    [3, 4, 5, 6, 7, 8, 0, 1, 2]]]

/-- Region label of a cell under a pattern. -/
def labelAt (pattern : List (List Nat)) (r c : Nat) : Nat :=
  (pattern.getD r []).getD c 0

/-- `createRegionsFromPattern`: keep the grid, and collect each label's
cells in row-major order. -/
def createRegionsFromPattern (pattern : List (List Nat)) (size : Nat) : JigsawRegions :=
  { regions := pattern,
    regionCells := (List.range size).map fun i =>
      (allCells size).filter fun rc => labelAt pattern rc.1 rc.2 == i }

/-- `generate6x6Regions` with the random pattern choice passed as `idx`
(`Math.floor(Math.random() * 3)`). -/
def generate6x6Regions (idx : Nat) : JigsawRegions :=
  createRegionsFromPattern (patterns6.getD (idx % patterns6.length) []) 6

/-- `generate9x9Regions` with the random pattern choice passed as `idx`. -/
def generate9x9Regions (idx : Nat) : JigsawRegions :=
  createRegionsFromPattern (patterns9.getD (idx % patterns9.length) []) 9

/-- `generateJigsawRegions`: dispatch on size, else throw. -/
def generateJigsawRegions (size idx : Nat) : Except String JigsawRegions :=
  if size = 6 then .ok (generate6x6Regions idx)
  else if size = 9 then .ok (generate9x9Regions idx)
  else .error ("Jigsaw Sudoku only supports 6x6 and 9x9 sizes")

/-- Jigsaw `isValidMove`: row and column checks, then uniqueness inside
the cell's labelled region (no geometric box rule). -/
def isValidMove (size : Nat) (board : Board) (row col num : Nat)
    (jr : JigsawRegions) : Bool :=
  ((List.range size).all fun c => c == col || !(board row c == some num)) &&
  ((List.range size).all fun r => r == row || !(board r col == some num)) &&
  (let regionIndex := labelAt jr.regions row col
   (jr.regionCells.getD regionIndex []).all fun rc =>
     (rc.1 == row && rc.2 == col) || !(board rc.1 rc.2 == some num))

/-- The recursive `fillBoardOptimized`, with the per-cell randomized
candidate order passed as `orders idx`. -/
def fillCellsGo (size : Nat) (jr : JigsawRegions) (orders : Nat → List Nat) :
    List (Nat × Nat) → Nat → Board → Option Board
  | [], _, b => some b
  | rc :: rest, idx, b =>
    tryCands (fun b' => fillCellsGo size jr orders rest (idx + 1) b')
      (fun b' r c n => isValidMove size b' r c n jr) b rc.1 rc.2 (orders idx)

/-- The 10-attempt loop of the jigsaw `generateCompleteBoard`; attempt
`i` uses the candidate orders `ordersAtt i`. -/
def jigsawAttempts (size : Nat) (jr : JigsawRegions) (ordersAtt : Nat → Nat → List Nat)
    (cellOrder : List (Nat × Nat)) (i : Nat) : Nat → Option Board
  | 0 => none
  | fuel + 1 =>
    match fillCellsGo size jr (ordersAtt i) cellOrder 0 emptyBoard with
    | some b => some b
    | none => jigsawAttempts size jr ordersAtt cellOrder (i + 1) fuel

/-- Jigsaw `generateCompleteBoard`: region-major cell order, 10 attempts,
then the classic fallback. -/
def generateCompleteBoard (size : Nat) (jr : JigsawRegions)
    (ordersAtt : Nat → Nat → List Nat) (fallbackFirstRow : List Nat) : Board :=
  let cellOrder := jr.regionCells.flatten
  match jigsawAttempts size jr ordersAtt cellOrder 0 10 with
  | some b => b
  | none => ClassicSudoku.generateCompleteBoard size fallbackFirstRow

/-- The carving loop of the jigsaw `generatePuzzle`: remove only while the
cell's region stays strictly above the clue floor. -/
def jigsawCarve (minClues k : Nat) (regionOf : Nat → Nat → Nat) :
    List (Nat × Nat) → Board → List Nat → Nat → Board × List Nat
  | [], pz, cnt, _ => (pz, cnt)
  | rc :: rest, pz, cnt, rm =>
    if rm < k then
      let ri := regionOf rc.1 rc.2
      if minClues < cnt.getD ri 0 then
        jigsawCarve minClues k regionOf rest (setCell pz rc.1 rc.2 none)
          (cnt.set ri (cnt.getD ri 0 - 1)) (rm + 1)
      else jigsawCarve minClues k regionOf rest pz cnt rm
    else (pz, cnt)

/-- Result record of the jigsaw `generatePuzzle`. -/
structure JigsawResult where
  puzzle : Board
  solution : Board
  jigsawRegions : JigsawRegions

/-- Jigsaw `generatePuzzle`: throws unless the size is 6 or 9; carves with
the per-region floor `max(1, floor(size / 3))`. -/
def generatePuzzle (size : Nat) (d : Difficulty) (idx : Nat)
    (ordersAtt : Nat → Nat → List Nat) (fallbackFirstRow : List Nat)
    (positions : List (Nat × Nat)) : Except String JigsawResult :=
  if size ≠ 6 ∧ size ≠ 9 then
    .error ("Jigsaw Sudoku only supports 6x6 and 9x9 sizes")
  else
    match generateJigsawRegions size idx with
    | .error e => .error e
    | .ok jr =>
      let solution := generateCompleteBoard size jr ordersAtt fallbackFirstRow
      let minClues := max 1 (size / 3)
      let cnt0 := (List.range size).map fun i =>
        (allCells size).countP fun rc => labelAt jr.regions rc.1 rc.2 == i
      let st := jigsawCarve minClues (cellsToRemove size d)
        (fun r c => labelAt jr.regions r c) positions solution cnt0 0
      .ok ⟨st.1, solution, jr⟩

/-- Jigsaw `validateBoard` with the final board state. -/
def validateBoardPass (size : Nat) (b : Board) (jr : JigsawRegions) : Bool × Board :=
  validatePass (fun b' r c n => isValidMove size b' r c n jr) size b

/-- Jigsaw `validateBoard` result. -/
def validateBoard (size : Nat) (b : Board) (jr : JigsawRegions) : Bool :=
  (validateBoardPass size b jr).1

/-- Jigsaw `isBoardComplete`. -/
def isBoardComplete (size : Nat) (b : Board) : Bool :=
  (allCells size).all fun rc => (b rc.1 rc.2).isSome

end JigsawSudoku

/-!
Specification-side definitions used to state and prove the claims.
-/

/-- `b'` agrees with `b` on every cell `b` fills (the solver only adds
values). -/
def Extends (b b' : Board) : Prop :=
  ∀ r c v, b r c = some v → b' r c = some v

/-- Every cell of the `size × size` grid is filled. -/
def CompleteOn (size : Nat) (b : Board) : Prop :=
  ∀ r < size, ∀ c < size, (b r c).isSome

/-- The value relabelling induced by a shuffled first row: value `v`
becomes the `(v-1)`-th entry of the shuffle outcome. -/
def relabelOf (xs : List Nat) : Nat → Nat :=
  fun v => xs.getD (v - 1) 0

/-- No value repeats within a row (stated so that it is decidable on
concrete boards). -/
def RowOk (size : Nat) (b : Board) : Prop :=
  ∀ r < size, ∀ c < size, ∀ c' < size, c ≠ c' → b r c = none ∨ b r c ≠ b r c'

/-- No value repeats within a column. -/
def ColOk (size : Nat) (b : Board) : Prop :=
  ∀ c < size, ∀ r < size, ∀ r' < size, r ≠ r' → b r c = none ∨ b r c ≠ b r' c

/-- No value repeats within a `boxRowSize × boxColSize` box (cells are in
the same box iff their row quotients and column quotients agree). -/
def BoxOk (size : Nat) (b : Board) : Prop :=
  ∀ r < size, ∀ c < size, ∀ r' < size, ∀ c' < size,
    (r, c) ≠ (r', c') →
    r / ClassicSudoku.boxRowSize size = r' / ClassicSudoku.boxRowSize size →
    c / ClassicSudoku.boxColSize size = c' / ClassicSudoku.boxColSize size →
    b r c = none ∨ b r c ≠ b r' c'

/-- All filled cells hold values in `1..size`. -/
def RangeOk (size : Nat) (b : Board) : Prop :=
  ∀ r < size, ∀ c < size,
    b r c ≠ none → 1 ≤ (b r c).getD 0 ∧ (b r c).getD 0 ≤ size

/-- A board with no classic rule violation and in-range values. -/
def GoodBoard (size : Nat) (b : Board) : Prop :=
  RowOk size b ∧ ColOk size b ∧ BoxOk size b ∧ RangeOk size b

/-- All filled cells respect the even-odd shading (shaded ↔ even). -/
def EvenOddParityOk (size : Nat) (b : Board) : Prop :=
  ∀ r < size, ∀ c < size,
    b r c ≠ none →
      ((b r c).getD 0 % 2 == 0) = EvenOddSudoku.isShadedCell r c size

/-- Executable check for `RowOk`. -/
def rowOkB (size : Nat) (b : Board) : Bool :=
  (List.range size).all fun r => (List.range size).all fun c =>
    (List.range size).all fun c' =>
      (c == c') || (b r c == none) || !(b r c == b r c')

/-- Executable check for `ColOk`. -/
def colOkB (size : Nat) (b : Board) : Bool :=
  (List.range size).all fun c => (List.range size).all fun r =>
    (List.range size).all fun r' =>
      (r == r') || (b r c == none) || !(b r c == b r' c)

/-- Executable check for `BoxOk`. -/
def boxOkB (size : Nat) (b : Board) : Bool :=
  (List.range size).all fun r => (List.range size).all fun c =>
    (List.range size).all fun r' => (List.range size).all fun c' =>
      ((r, c) == (r', c')) ||
      !(r / ClassicSudoku.boxRowSize size == r' / ClassicSudoku.boxRowSize size) ||
      !(c / ClassicSudoku.boxColSize size == c' / ClassicSudoku.boxColSize size) ||
      (b r c == none) || !(b r c == b r' c')

/-- Executable check for `RangeOk`. -/
def rangeOkB (size : Nat) (b : Board) : Bool :=
  (List.range size).all fun r => (List.range size).all fun c =>
    (b r c == none) || (decide (1 ≤ (b r c).getD 0) && decide ((b r c).getD 0 ≤ size))

/-- Executable check for `GoodBoard`. -/
def goodBoardB (size : Nat) (b : Board) : Bool :=
  rowOkB size b && colOkB size b && boxOkB size b && rangeOkB size b

/-- Executable check for `EvenOddParityOk`. -/
def parityOkB (size : Nat) (b : Board) : Bool :=
  (List.range size).all fun r => (List.range size).all fun c =>
    (b r c == none) ||
    (((b r c).getD 0 % 2 == 0) == EvenOddSudoku.isShadedCell r c size)

/-- Number of empty cells among a list of positions. -/
def emptyCountIn (b : Board) (cells : List (Nat × Nat)) : Nat :=
  cells.countP fun rc => (b rc.1 rc.2).isNone

/-- Relabel the values of a board. -/
def mapBoard (f : Nat → Nat) (b : Board) : Board :=
  fun r c => (b r c).map f

/-- A concrete complete valid classic 4×4 board with first row 1..4. -/
def base4 : Board := ofRows
  [[1, 2, 3, 4], [3, 4, 1, 2], [2, 1, 4, 3], [4, 3, 2, 1]]

/-- A concrete complete valid classic 6×6 board with first row 1..6. -/
def base6 : Board := ofRows
  [[1, 2, 3, 4, 5, 6], [4, 5, 6, 1, 2, 3], [2, 3, 1, 5, 6, 4],
   [5, 6, 4, 2, 3, 1], [3, 1, 2, 6, 4, 5], [6, 4, 5, 3, 1, 2]]

/-- A concrete complete valid classic 9×9 board with first row 1..9. -/
def base9 : Board := ofRows
  [[1, 2, 3, 4, 5, 6, 7, 8, 9], [4, 5, 6, 7, 8, 9, 1, 2, 3],
   [7, 8, 9, 1, 2, 3, 4, 5, 6], [2, 3, 1, 5, 6, 4, 8, 9, 7],
   [5, 6, 4, 8, 9, 7, 2, 3, 1], [8, 9, 7, 2, 3, 1, 5, 6, 4],
   [3, 1, 2, 6, 4, 5, 9, 7, 8], [6, 4, 5, 9, 7, 8, 3, 1, 2],
   [9, 7, 8, 3, 1, 2, 6, 4, 5]]

/-- A concrete complete 4×4 board satisfying the even-odd pattern. -/
def evenOdd4 : Board := ofRows
  [[1, 2, 3, 4], [4, 3, 2, 1], [3, 4, 1, 2], [2, 1, 4, 3]]

/-- The classic base board for each supported size. -/
def baseFor (size : Nat) : Board :=
  if size = 4 then base4 else if size = 6 then base6 else base9

/-- Constantly-false coin stream (a random outcome in which no mark coin
comes up heads). -/
def coinsFalse : Nat → Nat → Bool := fun _ _ => false

/-- Constantly-true coin stream (a random outcome in which every mark
coin comes up heads). -/
def coinsTrue : Nat → Nat → Bool := fun _ _ => true

/-- The board of the consecutive two-sided-rule scenario: only
`board[0][0] = 3` is filled. -/
def c7Board : Board := fun r c => if r = 0 ∧ c = 0 then some 3 else none

/-- Scenario constraints: a single horizontal mark between (0,0) and
(0,1). -/
def c7Marked : ConsecutiveSudoku.ConsecutiveConstraints :=
  ⟨fun r c => r == 0 && c == 0, fun _ _ => false⟩

/-- Scenario constraints: no marks at all. -/
def c7Unmarked : ConsecutiveSudoku.ConsecutiveConstraints :=
  ⟨fun _ _ => false, fun _ _ => false⟩

/-- A concrete removal-position order (a possible shuffle outcome) that
drives the even-odd 4×4 carver into taking box 0 down to a single clue. -/
def c5Positions : List (Nat × Nat) :=
  [(0, 0), (0, 1), (1, 0), (1, 1), (0, 2), (0, 3), (1, 2), (1, 3),
   (2, 0), (2, 1), (2, 2), (2, 3), (3, 0), (3, 1), (3, 2), (3, 3)]

/-- The cells of even-odd box `i` (as tracked by `boxIndexOf`). -/
def evenOddBoxCells (size i : Nat) : List (Nat × Nat) :=
  (allCells size).filter fun rc => EvenOddSudoku.boxIndexOf size rc.1 rc.2 == i

/-- Payload of an `Except`-returning generator, with a default for the
error case (used to state properties of the returned record without an
extra success hypothesis). -/
def okOr {α : Type} (dflt : α) : Except String α → α
  | .ok a => a
  | .error _ => dflt

/-- Default result record for the simple `{puzzle, solution}` shape. -/
def pzDefault : ClassicSudoku.PuzzleResult := ⟨emptyBoard, emptyBoard⟩

/-- Default result record for the jigsaw generator. -/
def jigsawDefault : JigsawSudoku.JigsawResult := ⟨emptyBoard, emptyBoard, ⟨[], []⟩⟩

/-- Boolean "returned without throwing" view of a generator result. -/
def exceptIsOk {α : Type} : Except String α → Bool
  | .ok _ => true
  | .error _ => false

/-- The cells of jigsaw region `i` under a label grid. -/
def jigsawRegionCells (pattern : List (List Nat)) (size i : Nat) : List (Nat × Nat) :=
  (allCells size).filter fun rc => JigsawSudoku.labelAt pattern rc.1 rc.2 == i

/-- No value repeats within a labelled jigsaw region. -/
def RegionOkP (pattern : List (List Nat)) (size : Nat) (b : Board) : Prop :=
  ∀ r < size, ∀ c < size, ∀ r' < size, ∀ c' < size, (r, c) ≠ (r', c') →
    JigsawSudoku.labelAt pattern r c = JigsawSudoku.labelAt pattern r' c' →
    b r c = none ∨ b r c ≠ b r' c'

/-- A board with no jigsaw rule violation (rows, columns, labelled
regions) and in-range values. -/
def JigGood (pattern : List (List Nat)) (size : Nat) (b : Board) : Prop :=
  RowOk size b ∧ ColOk size b ∧ RegionOkP pattern size b ∧ RangeOk size b

/-- Executable check for `RegionOkP`. -/
def regionOkPB (pattern : List (List Nat)) (size : Nat) (b : Board) : Bool :=
  (List.range size).all fun r => (List.range size).all fun c =>
    (List.range size).all fun r' => (List.range size).all fun c' =>
      ((r, c) == (r', c')) ||
      !(JigsawSudoku.labelAt pattern r c == JigsawSudoku.labelAt pattern r' c') ||
      (b r c == none) || !(b r c == b r' c')

/-- A concrete complete board satisfying rows, columns and the regions of
the first 6×6 jigsaw pattern. -/
def jig6p0 : Board := ofRows
  [[1, 2, 3, 4, 5, 6], [6, 4, 5, 2, 3, 1], [2, 3, 1, 5, 6, 4],
   [4, 5, 6, 3, 1, 2], [3, 1, 2, 6, 4, 5], [5, 6, 4, 1, 2, 3]]

/-- A concrete complete 6×6 board satisfying the classic 2×3-box rules
and the even-odd checkerboard shading. -/
def evenOdd6 : Board := ofRows
  [[1, 2, 3, 4, 5, 6], [4, 5, 6, 1, 2, 3], [3, 4, 5, 6, 1, 2],
   [6, 1, 2, 3, 4, 5], [5, 6, 1, 2, 3, 4], [2, 3, 4, 5, 6, 1]]

/-!
Basic lemmas about cells, grids and counting.
-/

theorem setCell_same (b : Board) (r c : Nat) (v : Cell) : setCell b r c v r c = v := by
  simp [setCell]

theorem setCell_ne (b : Board) (r c : Nat) (v : Cell) {r' c' : Nat}
    (h : (r', c') ≠ (r, c)) : setCell b r c v r' c' = b r' c' := by
  simp only [setCell]
  rw [if_neg]
  rintro ⟨rfl, rfl⟩
  exact h rfl

theorem setCell_restore {b : Board} {r c t : _} (h : b r c = some t) :
    setCell (setCell b r c none) r c (some t) = b := by
  funext r' c'
  by_cases hrc : r' = r ∧ c' = c
  · obtain ⟨rfl, rfl⟩ := hrc
    simp [setCell, h]
  · simp only [setCell, if_neg hrc]

theorem mem_allCells {size : Nat} {rc : Nat × Nat} :
    rc ∈ allCells size ↔ rc.1 < size ∧ rc.2 < size := by
  cases rc with
  | mk r c =>
    simp only [allCells, List.mem_flatMap, List.mem_map, List.mem_range]
    constructor
    · rintro ⟨a, ha, b, hb, h⟩
      cases h
      exact ⟨ha, hb⟩
    · rintro ⟨hr, hc⟩
      exact ⟨r, hr, c, hc, rfl⟩

theorem allCells_nodup (size : Nat) : (allCells size).Nodup := by
  have h : allCells size = (List.range size) ×ˢ (List.range size) := rfl
  rw [h]
  exact List.Nodup.product (List.nodup_range size) (List.nodup_range size)

theorem findEmptyCell_none_iff {size : Nat} {b : Board} :
    findEmptyCell size b = none ↔ ∀ r c, r < size → c < size → (b r c).isSome := by
  simp only [findEmptyCell, List.find?_eq_none]
  constructor
  · intro h r c hr hc
    have := h (r, c) (mem_allCells.2 ⟨hr, hc⟩)
    simpa [Option.isNone_iff_eq_none, Option.isSome_iff_ne_none] using this
  · intro h rc hm
    have := h rc.1 rc.2 (mem_allCells.1 hm).1 (mem_allCells.1 hm).2
    simpa [Option.isNone_iff_eq_none, Option.isSome_iff_ne_none] using this

theorem findEmptyCell_some {size : Nat} {b : Board} {rc : Nat × Nat}
    (h : findEmptyCell size b = some rc) :
    rc.1 < size ∧ rc.2 < size ∧ b rc.1 rc.2 = none := by
  have hm := List.mem_of_find?_eq_some h
  have hp := List.find?_some h
  rw [mem_allCells] at hm
  refine ⟨hm.1, hm.2, ?_⟩
  simpa [Option.isNone_iff_eq_none] using hp

theorem countFilledIn_set_not_mem {b : Board} {cells : List (Nat × Nat)} {r c : Nat}
    {v : Cell} (h : (r, c) ∉ cells) :
    countFilledIn (setCell b r c v) cells = countFilledIn b cells := by
  unfold countFilledIn
  apply List.countP_congr
  intro rc hrc
  rw [setCell_ne]
  intro heq
  apply h
  rw [← heq]
  exact hrc

theorem countFilledIn_set_none {b : Board} {cells : List (Nat × Nat)} {r c : Nat}
    (hm : (r, c) ∈ cells) (hnd : cells.Nodup) (hs : (b r c).isSome) :
    countFilledIn (setCell b r c none) cells + 1 = countFilledIn b cells := by
  induction cells with
  | nil => cases hm
  | cons x xs ih =>
    have hnd' := hnd.of_cons
    rcases List.mem_cons.1 hm with hx | hx
    · subst hx
      have hxs : (r, c) ∉ xs := (List.nodup_cons.1 hnd).1
      unfold countFilledIn
      rw [List.countP_cons, List.countP_cons]
      have h1 : (setCell b r c none r c).isSome = false := by
        rw [setCell_same]
        rfl
      have h2 : (List.countP (fun rc => (setCell b r c none rc.1 rc.2).isSome) xs)
          = List.countP (fun rc => (b rc.1 rc.2).isSome) xs := by
        apply List.countP_congr
        intro rc hrc
        rw [setCell_ne]
        intro heq
        apply hxs
        rw [← heq]
        exact hrc
      simp only [h1, h2, hs]
      simp
    · have hx' : x ≠ (r, c) := by
        intro he
        subst he
        exact (List.nodup_cons.1 hnd).1 hx
      unfold countFilledIn
      rw [List.countP_cons, List.countP_cons]
      have h1 : (setCell b r c none x.1 x.2).isSome = (b x.1 x.2).isSome := by
        rw [setCell_ne]
        intro he
        apply hx'
        cases x
        simpa using he
      rw [h1]
      have := ih hx hnd'
      unfold countFilledIn at this
      omega

theorem emptyCountIn_set_some {b : Board} {cells : List (Nat × Nat)} {r c v : _}
    (hm : (r, c) ∈ cells) (hnd : cells.Nodup) (he : b r c = none) :
    emptyCountIn (setCell b r c (some v)) cells + 1 = emptyCountIn b cells := by
  induction cells with
  | nil => cases hm
  | cons x xs ih =>
    have hnd' := hnd.of_cons
    rcases List.mem_cons.1 hm with hx | hx
    · subst hx
      have hxs : (r, c) ∉ xs := (List.nodup_cons.1 hnd).1
      unfold emptyCountIn
      rw [List.countP_cons, List.countP_cons]
      have h1 : (setCell b r c (some v) r c).isNone = false := by
        rw [setCell_same]
        rfl
      have h2 : (List.countP (fun rc => (setCell b r c (some v) rc.1 rc.2).isNone) xs)
          = List.countP (fun rc => (b rc.1 rc.2).isNone) xs := by
        apply List.countP_congr
        intro rc hrc
        rw [setCell_ne]
        intro heq
        apply hxs
        rw [← heq]
        exact hrc
      simp only [h1, h2, he]
      simp
    · have hx' : x ≠ (r, c) := by
        intro hmm
        subst hmm
        exact (List.nodup_cons.1 hnd).1 hx
      unfold emptyCountIn
      rw [List.countP_cons, List.countP_cons]
      have h1 : (setCell b r c (some v) x.1 x.2).isNone = (b x.1 x.2).isNone := by
        rw [setCell_ne]
        intro hmm
        apply hx'
        cases x
        simpa using hmm
      rw [h1]
      have := ih hx hnd'
      unfold emptyCountIn at this
      omega

theorem emptyCountIn_pos {b : Board} {cells : List (Nat × Nat)} {rc : Nat × Nat}
    (hm : rc ∈ cells) (he : b rc.1 rc.2 = none) : 0 < emptyCountIn b cells := by
  unfold emptyCountIn
  rw [List.countP_pos_iff]
  exact ⟨rc, hm, by simp [he]⟩

/-!
Lemmas about the generic backtracking solver.
-/

theorem exists_of_tryCands_some {next : Board → Option Board}
    {valid : Board → Nat → Nat → Nat → Bool} {b : Board} {r c : Nat} :
    ∀ {l : List Nat} {b' : Board}, tryCands next valid b r c l = some b' →
      ∃ n, n ∈ l ∧ valid b r c n = true ∧ next (setCell b r c (some n)) = some b' := by
  intro l
  induction l with
  | nil => intro b' h; simp [tryCands] at h
  | cons n rest ih =>
    intro b' h
    unfold tryCands at h
    by_cases hv : valid b r c n = true
    · rw [if_pos hv] at h
      cases hnext : next (setCell b r c (some n)) with
      | some bb =>
        rw [hnext] at h
        cases h
        exact ⟨n, List.mem_cons_self n rest, hv, hnext⟩
      | none =>
        rw [hnext] at h
        obtain ⟨m, hm, h1, h2⟩ := ih h
        exact ⟨m, List.mem_cons_of_mem n hm, h1, h2⟩
    · rw [if_neg hv] at h
      obtain ⟨m, hm, h1, h2⟩ := ih h
      exact ⟨m, List.mem_cons_of_mem n hm, h1, h2⟩

theorem tryCands_isSome {next : Board → Option Board}
    {valid : Board → Nat → Nat → Nat → Bool} {b : Board} {r c : Nat} :
    ∀ {l : List Nat},
      (∃ n, n ∈ l ∧ valid b r c n = true ∧ (next (setCell b r c (some n))).isSome) →
      (tryCands next valid b r c l).isSome := by
  intro l
  induction l with
  | nil => rintro ⟨n, hn, -, -⟩; cases hn
  | cons m rest ih =>
    rintro ⟨n, hn, hv, hsome⟩
    unfold tryCands
    rcases List.mem_cons.1 hn with rfl | hn'
    · rw [if_pos hv]
      cases hnext : next (setCell b r c (some n)) with
      | some bb => simp
      | none => rw [hnext] at hsome; cases hsome
    · by_cases hvm : valid b r c m = true
      · rw [if_pos hvm]
        cases hnext : next (setCell b r c (some m)) with
        | some bb => simp
        | none => exact ih ⟨n, hn', hv, hsome⟩
      · rw [if_neg hvm]
        exact ih ⟨n, hn', hv, hsome⟩

theorem solveWith_sound {valid : Board → Nat → Nat → Nat → Bool} {size : Nat}
    (Inv : Board → Prop)
    (hpres : ∀ b r c n, Inv b → r < size → c < size → b r c = none →
        n ∈ candidateVals size → valid b r c n = true → Inv (setCell b r c (some n))) :
    ∀ fuel b b', Inv b → solveWith valid size fuel b = some b' →
      Inv b' ∧ CompleteOn size b' ∧ Extends b b' := by
  intro fuel
  induction fuel with
  | zero => intro b b' _ h; simp [solveWith] at h
  | succ fuel ih =>
    intro b b' hinv h
    unfold solveWith at h
    cases hfind : findEmptyCell size b with
    | none =>
      rw [hfind] at h
      cases h
      refine ⟨hinv, ?_, fun r c v hv => hv⟩
      intro r hr c hc
      exact (findEmptyCell_none_iff.1 hfind) r c hr hc
    | some rc =>
      rw [hfind] at h
      obtain ⟨hr, hc, hnone⟩ := findEmptyCell_some hfind
      obtain ⟨n, hn, hv, hnext⟩ := exists_of_tryCands_some h
      have hinv2 := hpres b rc.1 rc.2 n hinv hr hc hnone hn hv
      obtain ⟨h1, h2, h3⟩ := ih _ _ hinv2 hnext
      refine ⟨h1, h2, ?_⟩
      intro r c v hv'
      apply h3
      rw [setCell_ne]
      · exact hv'
      · intro heq
        have hr' : r = rc.1 := congrArg Prod.fst heq
        have hc' : c = rc.2 := congrArg Prod.snd heq
        rw [hr', hc', hnone] at hv'
        cases hv'

theorem solveWith_complete {valid : Board → Nat → Nat → Nat → Bool} {size : Nat}
    (C : Board) (hComp : CompleteOn size C)
    (hrange : ∀ r c, r < size → c < size → (C r c).getD 0 ∈ candidateVals size)
    (hvalid : ∀ b, Extends b C → ∀ r c, r < size → c < size → b r c = none →
        valid b r c ((C r c).getD 0) = true) :
    ∀ fuel b, Extends b C → emptyCountIn b (allCells size) < fuel →
      (solveWith valid size fuel b).isSome := by
  intro fuel
  induction fuel with
  | zero => intro b _ h; omega
  | succ fuel ih =>
    intro b hext hcount
    unfold solveWith
    cases hfind : findEmptyCell size b with
    | none => simp
    | some rc =>
      obtain ⟨hr, hc, hnone⟩ := findEmptyCell_some hfind
      have hCsome : C rc.1 rc.2 = some ((C rc.1 rc.2).getD 0) := by
        obtain ⟨w, hw⟩ := Option.isSome_iff_exists.1 (hComp rc.1 hr rc.2 hc)
        rw [hw]
        rfl
      apply tryCands_isSome
      refine ⟨(C rc.1 rc.2).getD 0, hrange rc.1 rc.2 hr hc,
        hvalid b hext rc.1 rc.2 hr hc hnone, ?_⟩
      apply ih
      · intro r' c' w hw
        by_cases hrc : (r', c') = (rc.1, rc.2)
        · have hr' : r' = rc.1 := congrArg Prod.fst hrc
          have hc' : c' = rc.2 := congrArg Prod.snd hrc
          subst hr'
          subst hc'
          rw [setCell_same] at hw
          rw [← hw]
          exact hCsome.symm ▸ hCsome
        · rw [setCell_ne _ _ _ _ hrc] at hw
          exact hext r' c' w hw
      · have := emptyCountIn_set_some (v := (C rc.1 rc.2).getD 0)
          (mem_allCells.2 ⟨hr, hc⟩) (allCells_nodup size) hnone
        omega

/-!
Lemmas about the state-passing board validators.
-/

theorem validateGo_snd (check : Board → Nat → Nat → Nat → Bool) :
    ∀ (l : List (Nat × Nat)) (b : Board), (validateGo check l b).2 = b := by
  intro l
  induction l with
  | nil => intro b; rfl
  | cons rc rest ih =>
    intro b
    unfold validateGo
    cases hcell : b rc.1 rc.2 with
    | none => exact ih b
    | some temp =>
      have hb2 : setCell (setCell b rc.1 rc.2 none) rc.1 rc.2 (some temp) = b :=
        setCell_restore hcell
      simp only [hb2]
      split
      · exact ih b
      · rfl

theorem validateGo_eq_of (check : Board → Nat → Nat → Nat → Bool) :
    ∀ (l : List (Nat × Nat)) (b : Board),
      (∀ rc ∈ l, ∀ temp, b rc.1 rc.2 = some temp →
        check (setCell b rc.1 rc.2 none) rc.1 rc.2 temp = true) →
      validateGo check l b = (true, b) := by
  intro l
  induction l with
  | nil => intro b _; rfl
  | cons rc rest ih =>
    intro b h
    unfold validateGo
    cases hcell : b rc.1 rc.2 with
    | none =>
      exact ih b (fun rc' h' temp ht => h rc' (List.mem_cons_of_mem rc h') temp ht)
    | some temp =>
      have hb2 : setCell (setCell b rc.1 rc.2 none) rc.1 rc.2 (some temp) = b :=
        setCell_restore hcell
      simp only [hb2]
      rw [if_pos (h rc (List.mem_cons_self rc rest) temp hcell)]
      exact ih b (fun rc' h' temp' ht => h rc' (List.mem_cons_of_mem rc h') temp' ht)

/-!
Bridges between the executable board checks and their propositional
counterparts, and facts about the concrete base boards.
-/

theorem rowOk_of_B {size : Nat} {b : Board} (h : rowOkB size b = true) : RowOk size b := by
  simp only [rowOkB, List.all_eq_true, List.mem_range] at h
  intro r hr c hc c' hc' hne
  have h' := h r hr c hc c' hc'
  simp only [Bool.or_eq_true, beq_iff_eq, Bool.not_eq_true', beq_eq_false_iff_ne] at h'
  rcases h' with (h1 | h2) | h3
  · exact absurd h1 hne
  · exact Or.inl h2
  · exact Or.inr h3

theorem colOk_of_B {size : Nat} {b : Board} (h : colOkB size b = true) : ColOk size b := by
  simp only [colOkB, List.all_eq_true, List.mem_range] at h
  intro c hc r hr r' hr' hne
  have h' := h c hc r hr r' hr'
  simp only [Bool.or_eq_true, beq_iff_eq, Bool.not_eq_true', beq_eq_false_iff_ne] at h'
  rcases h' with (h1 | h2) | h3
  · exact absurd h1 hne
  · exact Or.inl h2
  · exact Or.inr h3

theorem boxOk_of_B {size : Nat} {b : Board} (h : boxOkB size b = true) : BoxOk size b := by
  simp only [boxOkB, List.all_eq_true, List.mem_range] at h
  intro r hr c hc r' hr' c' hc' hne hdr hdc
  have h' := h r hr c hc r' hr' c' hc'
  simp only [Bool.or_eq_true, beq_iff_eq, Bool.not_eq_true', beq_eq_false_iff_ne] at h'
  rcases h' with ((((h1 | h2) | h3) | h4) | h5)
  · exact absurd h1 hne
  · exact absurd hdr h2
  · exact absurd hdc h3
  · exact Or.inl h4
  · exact Or.inr h5

theorem rangeOk_of_B {size : Nat} {b : Board} (h : rangeOkB size b = true) : RangeOk size b := by
  simp only [rangeOkB, List.all_eq_true, List.mem_range] at h
  intro r hr c hc hne
  have h' := h r hr c hc
  simp only [Bool.or_eq_true, beq_iff_eq, Bool.and_eq_true, decide_eq_true_eq] at h'
  rcases h' with h1 | h2
  · exact absurd h1 hne
  · exact h2

theorem goodBoard_of_B {size : Nat} {b : Board} (h : goodBoardB size b = true) :
    GoodBoard size b := by
  simp only [goodBoardB, Bool.and_eq_true] at h
  exact ⟨rowOk_of_B h.1.1.1, colOk_of_B h.1.1.2, boxOk_of_B h.1.2, rangeOk_of_B h.2⟩

theorem parityOk_of_B {size : Nat} {b : Board} (h : parityOkB size b = true) :
    EvenOddParityOk size b := by
  simp only [parityOkB, List.all_eq_true, List.mem_range] at h
  intro r hr c hc hne
  have h' := h r hr c hc
  simp only [Bool.or_eq_true, beq_iff_eq] at h'
  rcases h' with h1 | h2
  · exact absurd h1 hne
  · exact h2

theorem isBoardComplete_iff {size : Nat} {b : Board} :
    ClassicSudoku.isBoardComplete size b = true ↔ CompleteOn size b := by
  simp only [ClassicSudoku.isBoardComplete, List.all_eq_true]
  constructor
  · intro h r hr c hc
    exact h (r, c) (mem_allCells.2 ⟨hr, hc⟩)
  · intro h rc hm
    exact h rc.1 (mem_allCells.1 hm).1 rc.2 (mem_allCells.1 hm).2

/-!
Classic-rule lemmas: the Bool-level `isValidMove` versus the
`GoodBoard` invariant, and box geometry.
-/

theorem mem_candidateVals {size n : Nat} :
    n ∈ candidateVals size ↔ 1 ≤ n ∧ n ≤ size := by
  simp only [candidateVals, List.mem_range'_1]
  omega

theorem boxRowSize_pos (size : Nat) : 0 < ClassicSudoku.boxRowSize size := by
  unfold ClassicSudoku.boxRowSize
  split
  · omega
  · split <;> omega

theorem boxColSize_pos (size : Nat) : 0 < ClassicSudoku.boxColSize size := by
  unfold ClassicSudoku.boxColSize
  split
  · omega
  · split <;> omega

theorem div_quot_iff {k : Nat} (hk : 0 < k) {r r' : Nat} :
    r' / k = r / k ↔ ∃ i, i < k ∧ r' = r / k * k + i := by
  constructor
  · intro he
    refine ⟨r' % k, Nat.mod_lt _ hk, ?_⟩
    have hd := Nat.div_add_mod r' k
    calc r' = k * (r' / k) + r' % k := hd.symm
    _ = r' / k * k + r' % k := by ring
    _ = r / k * k + r' % k := by rw [he]
  · rintro ⟨i, hi, rfl⟩
    rw [Nat.mul_comm (r / k) k, Nat.mul_add_div hk, Nat.div_eq_of_lt hi, Nat.add_zero]

theorem boxRow_lt {size r i : Nat} (hsz : size = 4 ∨ size = 6 ∨ size = 9)
    (hr : r < size) (hi : i < ClassicSudoku.boxRowSize size) :
    r / ClassicSudoku.boxRowSize size * ClassicSudoku.boxRowSize size + i < size := by
  rcases hsz with rfl | rfl | rfl
  · have hb : ClassicSudoku.boxRowSize 4 = 2 := rfl
    rw [hb] at hi ⊢
    omega
  · have hb : ClassicSudoku.boxRowSize 6 = 2 := rfl
    rw [hb] at hi ⊢
    omega
  · have hb : ClassicSudoku.boxRowSize 9 = 3 := rfl
    rw [hb] at hi ⊢
    omega

theorem boxCol_lt {size c j : Nat} (hsz : size = 4 ∨ size = 6 ∨ size = 9)
    (hc : c < size) (hj : j < ClassicSudoku.boxColSize size) :
    c / ClassicSudoku.boxColSize size * ClassicSudoku.boxColSize size + j < size := by
  rcases hsz with rfl | rfl | rfl
  · have hb : ClassicSudoku.boxColSize 4 = 2 := rfl
    rw [hb] at hj ⊢
    omega
  · have hb : ClassicSudoku.boxColSize 6 = 3 := rfl
    rw [hb] at hj ⊢
    omega
  · have hb : ClassicSudoku.boxColSize 9 = 3 := rfl
    rw [hb] at hj ⊢
    omega

theorem classic_isValidMove_iff {size : Nat} {b : Board} {row col num : Nat} :
    ClassicSudoku.isValidMove size b row col num = true ↔
      ((∀ c < size, c = col ∨ b row c ≠ some num) ∧
       (∀ r < size, r = row ∨ b r col ≠ some num)) ∧
      ∀ i < ClassicSudoku.boxRowSize size, ∀ j < ClassicSudoku.boxColSize size,
        (row / ClassicSudoku.boxRowSize size * ClassicSudoku.boxRowSize size + i = row ∧
         col / ClassicSudoku.boxColSize size * ClassicSudoku.boxColSize size + j = col) ∨
        b (row / ClassicSudoku.boxRowSize size * ClassicSudoku.boxRowSize size + i)
          (col / ClassicSudoku.boxColSize size * ClassicSudoku.boxColSize size + j) ≠ some num := by
  simp only [ClassicSudoku.isValidMove, Bool.and_eq_true, List.all_eq_true, List.mem_range,
    Bool.or_eq_true, beq_iff_eq, Bool.not_eq_true', beq_eq_false_iff_ne]

/-!
Permutation and relabelling lemmas for the shuffled first row.
-/

theorem perm_length {size : Nat} {xs : List Nat}
    (hperm : xs.Perm (List.range' 1 size)) : xs.length = size := by
  rw [hperm.length_eq, List.length_range']

theorem perm_getD_range {size : Nat} {xs : List Nat}
    (hperm : xs.Perm (List.range' 1 size)) {i : Nat} (hi : i < size) :
    1 ≤ xs.getD i 0 ∧ xs.getD i 0 ≤ size := by
  have hlen : xs.length = size := perm_length hperm
  have hi' : i < xs.length := by omega
  have hmem : xs.getD i 0 ∈ xs := by
    rw [List.getD_eq_getElem xs 0 hi']
    exact List.getElem_mem hi'
  have := hperm.subset hmem
  rw [List.mem_range'_1] at this
  omega

theorem perm_getD_inj {size : Nat} {xs : List Nat}
    (hperm : xs.Perm (List.range' 1 size)) {i j : Nat} (hi : i < size) (hj : j < size)
    (he : xs.getD i 0 = xs.getD j 0) : i = j := by
  have hlen : xs.length = size := perm_length hperm
  have hnd : xs.Nodup := (List.Perm.nodup_iff hperm).2 (List.nodup_range' 1 size)
  have hi' : i < xs.length := by omega
  have hj' : j < xs.length := by omega
  rw [List.getD_eq_getElem xs 0 hi', List.getD_eq_getElem xs 0 hj'] at he
  exact (List.Nodup.getElem_inj_iff hnd).1 he

theorem relabelOf_range {size : Nat} {xs : List Nat}
    (hperm : xs.Perm (List.range' 1 size)) :
    ∀ v, 1 ≤ v → v ≤ size → 1 ≤ relabelOf xs v ∧ relabelOf xs v ≤ size := by
  intro v h1 h2
  exact perm_getD_range hperm (by omega : v - 1 < size)

theorem relabelOf_inj {size : Nat} {xs : List Nat}
    (hperm : xs.Perm (List.range' 1 size)) :
    ∀ v w, 1 ≤ v → v ≤ size → 1 ≤ w → w ≤ size →
      relabelOf xs v = relabelOf xs w → v = w := by
  intro v w hv1 hv2 hw1 hw2 he
  have := perm_getD_inj hperm (by omega : v - 1 < size) (by omega : w - 1 < size) he
  omega

theorem baseFor_good {size : Nat} (hsz : size = 4 ∨ size = 6 ∨ size = 9) :
    GoodBoard size (baseFor size) ∧ CompleteOn size (baseFor size) ∧
      ∀ c < size, baseFor size 0 c = some (c + 1) := by
  rcases hsz with rfl | rfl | rfl
  · exact ⟨goodBoard_of_B (by decide), isBoardComplete_iff.1 (by decide), by decide⟩
  · exact ⟨goodBoard_of_B (by decide), isBoardComplete_iff.1 (by decide), by decide⟩
  · exact ⟨goodBoard_of_B (by decide), isBoardComplete_iff.1 (by decide), by decide⟩

theorem allCells_length (size : Nat) : (allCells size).length = size * size := by
  have h : allCells size = (List.range size) ×ˢ (List.range size) := rfl
  rw [h, List.length_product, List.length_range]

/-!
Placement preserves the classic invariant; valid placements can be read
off a good complete extension.
-/

theorem goodBoard_setCell {size : Nat} {b : Board} {r c n : Nat}
    (hg : GoodBoard size b) (hn1 : 1 ≤ n) (hn2 : n ≤ size)
    (hv : ClassicSudoku.isValidMove size b r c n = true) :
    GoodBoard size (setCell b r c (some n)) := by
  obtain ⟨hrow, hcol, hbox, hrange⟩ := hg
  rw [classic_isValidMove_iff] at hv
  obtain ⟨⟨hv1, hv2⟩, hv3⟩ := hv
  refine ⟨?_, ?_, ?_, ?_⟩
  · -- rows
    intro r0 hr0 c0 hc0 c1 hc1 hne
    by_cases h00 : (r0, c0) = (r, c)
    · have hr0e : r0 = r := congrArg Prod.fst h00
      have hc0e : c0 = c := congrArg Prod.snd h00
      have hnec : c ≠ c1 := by rw [← hc0e]; exact hne
      rw [hr0e, hc0e]
      have h01 : (r, c1) ≠ (r, c) := fun hq => hnec (congrArg Prod.snd hq).symm
      right
      rw [setCell_same, setCell_ne _ _ _ _ h01]
      rcases hv1 c1 hc1 with he1 | he1
      · exact absurd he1.symm hnec
      · exact fun hq => he1 hq.symm
    · by_cases h01 : (r0, c1) = (r, c)
      · have hr0e : r0 = r := congrArg Prod.fst h01
        have hc1e : c1 = c := congrArg Prod.snd h01
        rw [hr0e, hc1e]
        have h00' : (r, c0) ≠ (r, c) := fun hq => h00 (by rw [hr0e]; exact hq)
        rw [setCell_ne _ _ _ _ h00', setCell_same]
        by_cases hbc : b r c0 = none
        · exact Or.inl hbc
        · right
          rcases hv1 c0 hc0 with he1 | he1
          · exact absurd (by rw [he1] : (r, c0) = (r, c)) h00'
          · exact fun hq => he1 hq
      · rw [setCell_ne _ _ _ _ h00, setCell_ne _ _ _ _ h01]
        exact hrow r0 hr0 c0 hc0 c1 hc1 hne
  · -- columns
    intro c0 hc0 r0 hr0 r1 hr1 hne
    by_cases h00 : (r0, c0) = (r, c)
    · have hr0e : r0 = r := congrArg Prod.fst h00
      have hc0e : c0 = c := congrArg Prod.snd h00
      have hner : r ≠ r1 := by rw [← hr0e]; exact hne
      rw [hr0e, hc0e]
      have h01 : (r1, c) ≠ (r, c) := fun hq => hner (congrArg Prod.fst hq).symm
      right
      rw [setCell_same, setCell_ne _ _ _ _ h01]
      rcases hv2 r1 hr1 with he1 | he1
      · exact absurd he1.symm hner
      · exact fun hq => he1 hq.symm
    · by_cases h01 : (r1, c0) = (r, c)
      · have hr1e : r1 = r := congrArg Prod.fst h01
        have hc0e : c0 = c := congrArg Prod.snd h01
        rw [hr1e, hc0e]
        have h00' : (r0, c) ≠ (r, c) := fun hq => h00 (by rw [hc0e]; exact hq)
        rw [setCell_ne _ _ _ _ h00', setCell_same]
        by_cases hbc : b r0 c = none
        · exact Or.inl hbc
        · right
          rcases hv2 r0 hr0 with he1 | he1
          · exact absurd (by rw [he1] : (r0, c) = (r, c)) h00'
          · exact fun hq => he1 hq
      · rw [setCell_ne _ _ _ _ h00, setCell_ne _ _ _ _ h01]
        exact hcol c0 hc0 r0 hr0 r1 hr1 hne
  · -- boxes
    intro r0 hr0 c0 hc0 r1 hr1 c1 hc1 hne hdr hdc
    by_cases h00 : (r0, c0) = (r, c)
    · have hr0e : r0 = r := congrArg Prod.fst h00
      have hc0e : c0 = c := congrArg Prod.snd h00
      have hne' : (r, c) ≠ (r1, c1) := by rw [← hr0e, ← hc0e]; exact hne
      have hdr' : r / ClassicSudoku.boxRowSize size = r1 / ClassicSudoku.boxRowSize size := by
        rw [← hr0e]; exact hdr
      have hdc' : c / ClassicSudoku.boxColSize size = c1 / ClassicSudoku.boxColSize size := by
        rw [← hc0e]; exact hdc
      rw [hr0e, hc0e]
      right
      rw [setCell_same, setCell_ne _ _ _ _ (Ne.symm hne')]
      obtain ⟨i, hi, hieq⟩ := (div_quot_iff (boxRowSize_pos size)).1 hdr'.symm
      obtain ⟨j, hj, hjeq⟩ := (div_quot_iff (boxColSize_pos size)).1 hdc'.symm
      rcases hv3 i hi j hj with he1 | he1
      · exfalso
        apply hne'
        rw [Prod.mk.injEq]
        exact ⟨by rw [hieq, he1.1], by rw [hjeq, he1.2]⟩
      · intro hq
        apply he1
        rw [← hieq, ← hjeq]
        exact hq.symm
    · by_cases h01 : (r1, c1) = (r, c)
      · have hr1e : r1 = r := congrArg Prod.fst h01
        have hc1e : c1 = c := congrArg Prod.snd h01
        have hdr' : r0 / ClassicSudoku.boxRowSize size = r / ClassicSudoku.boxRowSize size := by
          rw [← hr1e]; exact hdr
        have hdc' : c0 / ClassicSudoku.boxColSize size = c / ClassicSudoku.boxColSize size := by
          rw [← hc1e]; exact hdc
        rw [hr1e, hc1e]
        rw [setCell_ne _ _ _ _ h00, setCell_same]
        by_cases hbc : b r0 c0 = none
        · exact Or.inl hbc
        · right
          obtain ⟨i, hi, hieq⟩ := (div_quot_iff (boxRowSize_pos size)).1 hdr'
          obtain ⟨j, hj, hjeq⟩ := (div_quot_iff (boxColSize_pos size)).1 hdc'
          rcases hv3 i hi j hj with he1 | he1
          · exfalso
            apply h00
            rw [Prod.mk.injEq]
            exact ⟨by rw [hieq, he1.1], by rw [hjeq, he1.2]⟩
          · rw [hieq, hjeq]
            exact he1
      · rw [setCell_ne _ _ _ _ h00, setCell_ne _ _ _ _ h01]
        exact hbox r0 hr0 c0 hc0 r1 hr1 c1 hc1 hne hdr hdc
  · -- range
    intro r0 hr0 c0 hc0 hne0
    by_cases h00 : (r0, c0) = (r, c)
    · have hr0e : r0 = r := congrArg Prod.fst h00
      have hc0e : c0 = c := congrArg Prod.snd h00
      rw [hr0e, hc0e] at hne0 ⊢
      rw [setCell_same]
      exact ⟨hn1, hn2⟩
    · rw [setCell_ne _ _ _ _ h00] at hne0 ⊢
      exact hrange r0 hr0 c0 hc0 hne0

theorem classic_isValidMove_of_extends {size : Nat}
    (hsz : size = 4 ∨ size = 6 ∨ size = 9) {C b : Board} {r c v : Nat}
    (hg : GoodBoard size C) (hext : Extends b C) (hr : r < size) (hc : c < size)
    (hbe : b r c = none) (hCv : C r c = some v) :
    ClassicSudoku.isValidMove size b r c v = true := by
  obtain ⟨hrow, hcol, hbox, hrange⟩ := hg
  rw [classic_isValidMove_iff]
  refine ⟨⟨?_, ?_⟩, ?_⟩
  · intro c0 hc0
    by_cases hcc : c0 = c
    · exact Or.inl hcc
    · right
      intro hb0
      have hC0 : C r c0 = some v := hext r c0 v hb0
      rcases hrow r hr c hc c0 hc0 (fun h => hcc h.symm) with h1 | h1
      · rw [hCv] at h1
        cases h1
      · apply h1
        rw [hCv, hC0]
  · intro r0 hr0
    by_cases hrr : r0 = r
    · exact Or.inl hrr
    · right
      intro hb0
      have hC0 : C r0 c = some v := hext r0 c v hb0
      rcases hcol c hc r hr r0 hr0 (fun h => hrr h.symm) with h1 | h1
      · rw [hCv] at h1
        cases h1
      · apply h1
        rw [hCv, hC0]
  · intro i hi j hj
    by_cases hcell :
        r / ClassicSudoku.boxRowSize size * ClassicSudoku.boxRowSize size + i = r ∧
        c / ClassicSudoku.boxColSize size * ClassicSudoku.boxColSize size + j = c
    · exact Or.inl hcell
    · right
      intro hb0
      have hC0 := hext _ _ v hb0
      have hr1 := boxRow_lt hsz hr hi
      have hc1 := boxCol_lt hsz hc hj
      have hdr : r / ClassicSudoku.boxRowSize size =
          (r / ClassicSudoku.boxRowSize size * ClassicSudoku.boxRowSize size + i) /
            ClassicSudoku.boxRowSize size :=
        ((div_quot_iff (boxRowSize_pos size)).2 ⟨i, hi, rfl⟩).symm
      have hdc : c / ClassicSudoku.boxColSize size =
          (c / ClassicSudoku.boxColSize size * ClassicSudoku.boxColSize size + j) /
            ClassicSudoku.boxColSize size :=
        ((div_quot_iff (boxColSize_pos size)).2 ⟨j, hj, rfl⟩).symm
      have hne : (r, c) ≠
          (r / ClassicSudoku.boxRowSize size * ClassicSudoku.boxRowSize size + i,
           c / ClassicSudoku.boxColSize size * ClassicSudoku.boxColSize size + j) := by
        intro hq
        exact hcell ⟨(congrArg Prod.fst hq).symm, (congrArg Prod.snd hq).symm⟩
      rcases hbox r hr c hc _ hr1 _ hc1 hne hdr hdc with h1 | h1
      · rw [hCv] at h1
        cases h1
      · apply h1
        rw [hCv, hC0]

theorem classic_validateBoard_of_good {size : Nat}
    (hsz : size = 4 ∨ size = 6 ∨ size = 9) {b : Board} (hg : GoodBoard size b) :
    ClassicSudoku.validateBoard size b = true := by
  unfold ClassicSudoku.validateBoard ClassicSudoku.validateBoardPass validatePass
  have h := validateGo_eq_of (fun b' r c n => ClassicSudoku.isValidMove size b' r c n)
    (allCells size) b ?_
  · rw [h]
  · intro rc hm temp htemp
    obtain ⟨hr, hc⟩ := mem_allCells.1 hm
    apply classic_isValidMove_of_extends hsz hg (C := b)
    · intro r' c' w hw
      by_cases hq : (r', c') = (rc.1, rc.2)
      · have h1 : r' = rc.1 := congrArg Prod.fst hq
        have h2 : c' = rc.2 := congrArg Prod.snd hq
        rw [h1, h2, setCell_same] at hw
        cases hw
      · rw [setCell_ne _ _ _ _ hq] at hw
        exact hw
    · exact hr
    · exact hc
    · exact setCell_same b rc.1 rc.2 none
    · exact htemp

theorem goodBoard_mapBoard {size : Nat} {b : Board} {f : Nat → Nat}
    (hg : GoodBoard size b)
    (hinj : ∀ v w, 1 ≤ v → v ≤ size → 1 ≤ w → w ≤ size → f v = f w → v = w)
    (hrangef : ∀ v, 1 ≤ v → v ≤ size → 1 ≤ f v ∧ f v ≤ size) :
    GoodBoard size (mapBoard f b) := by
  obtain ⟨hrow, hcol, hbox, hrange⟩ := hg
  have hval : ∀ r c, r < size → c < size → ∀ v, b r c = some v →
      1 ≤ v ∧ v ≤ size := by
    intro r c hr hc v hv
    have := hrange r hr c hc (by rw [hv]; exact fun h => Option.noConfusion h)
    rw [hv] at this
    exact this
  have key : ∀ r c r' c', r < size → c < size → r' < size → c' < size →
      (b r c = none ∨ b r c ≠ b r' c') →
      mapBoard f b r c = none ∨ mapBoard f b r c ≠ mapBoard f b r' c' := by
    intro r c r' c' hr hc hr' hc' hd
    cases hbc : b r c with
    | none => left; simp [mapBoard, hbc]
    | some v =>
      rcases hd with h1 | h1
      · rw [hbc] at h1
        cases h1
      · right
        cases hbc' : b r' c' with
        | none => simp [mapBoard, hbc, hbc']
        | some w =>
          simp only [mapBoard, hbc, hbc', Option.map_some', ne_eq, Option.some.injEq]
          intro hfeq
          obtain ⟨hv1, hv2⟩ := hval r c hr hc v hbc
          obtain ⟨hw1, hw2⟩ := hval r' c' hr' hc' w hbc'
          apply h1
          rw [hbc, hbc', hinj v w hv1 hv2 hw1 hw2 hfeq]
  refine ⟨?_, ?_, ?_, ?_⟩
  · intro r hr c hc c' hc' hne
    exact key r c r c' hr hc hr hc' (hrow r hr c hc c' hc' hne)
  · intro c hc r hr r' hr' hne
    exact key r c r' c hr hc hr' hc (hcol c hc r hr r' hr' hne)
  · intro r hr c hc r' hr' c' hc' hne hdr hdc
    exact key r c r' c' hr hc hr' hc' (hbox r hr c hc r' hr' c' hc' hne hdr hdc)
  · intro r hr c hc hne
    cases hbc : b r c with
    | none => exfalso; apply hne; simp [mapBoard, hbc]
    | some v =>
      obtain ⟨hv1, hv2⟩ := hval r c hr hc v hbc
      have : mapBoard f b r c = some (f v) := by simp [mapBoard, hbc]
      rw [this]
      exact hrangef v hv1 hv2

theorem completeOn_mapBoard {size : Nat} {b : Board} {f : Nat → Nat}
    (h : CompleteOn size b) : CompleteOn size (mapBoard f b) := by
  intro r hr c hc
  have := h r hr c hc
  cases hbc : b r c with
  | none => rw [hbc] at this; cases this
  | some v => simp [mapBoard, hbc]

theorem initialBoard_vals {size : Nat} {xs : List Nat} {c : Nat} (hc : c < size) :
    ClassicSudoku.initialBoard size xs 0 c = some (xs.getD c 0) := by
  simp [ClassicSudoku.initialBoard, hc]

theorem initialBoard_none {size : Nat} {xs : List Nat} {r c : Nat} (hr : r ≠ 0) :
    ClassicSudoku.initialBoard size xs r c = none := by
  simp [ClassicSudoku.initialBoard, hr]

theorem initialBoard_good {size : Nat} {xs : List Nat}
    (hperm : xs.Perm (List.range' 1 size)) :
    GoodBoard size (ClassicSudoku.initialBoard size xs) := by
  have hdistinct : ∀ c c', c < size → c' < size → c ≠ c' →
      ClassicSudoku.initialBoard size xs 0 c ≠ ClassicSudoku.initialBoard size xs 0 c' := by
    intro c c' hc hc' hne
    rw [initialBoard_vals hc, initialBoard_vals hc']
    intro hq
    exact hne (perm_getD_inj hperm hc hc' (Option.some.inj hq))
  refine ⟨?_, ?_, ?_, ?_⟩
  · intro r hr c hc c' hc' hne
    by_cases hr0 : r = 0
    · subst hr0
      exact Or.inr (hdistinct c c' hc hc' hne)
    · exact Or.inl (initialBoard_none hr0)
  · intro c hc r hr r' hr' hne
    by_cases hr0 : r = 0
    · subst hr0
      have hr'0 : r' ≠ 0 := fun h => hne h.symm
      right
      rw [initialBoard_vals hc, initialBoard_none hr'0]
      exact fun h => Option.noConfusion h
    · exact Or.inl (initialBoard_none hr0)
  · intro r hr c hc r' hr' c' hc' hne hdr hdc
    by_cases hr0 : r = 0
    · subst hr0
      by_cases hr'0 : r' = 0
      · subst hr'0
        have hcc : c ≠ c' := by
          intro h
          apply hne
          rw [h]
        exact Or.inr (hdistinct c c' hc hc' hcc)
      · right
        rw [initialBoard_vals hc, initialBoard_none hr'0]
        exact fun h => Option.noConfusion h
    · exact Or.inl (initialBoard_none hr0)
  · intro r hr c hc hne
    by_cases hr0 : r = 0
    · subst hr0
      rw [initialBoard_vals hc]
      exact perm_getD_range hperm hc
    · exact absurd (initialBoard_none hr0) hne

theorem classic_generateCompleteBoard_spec {size : Nat}
    (hsz : size = 4 ∨ size = 6 ∨ size = 9) {firstRow : List Nat}
    (hperm : firstRow.Perm (List.range' 1 size)) :
    GoodBoard size (ClassicSudoku.generateCompleteBoard size firstRow) ∧
      CompleteOn size (ClassicSudoku.generateCompleteBoard size firstRow) := by
  obtain ⟨hgB, hcB, hfB⟩ := baseFor_good hsz
  have hpos : 0 < size := by rcases hsz with rfl | rfl | rfl <;> omega
  have hCg : GoodBoard size (mapBoard (relabelOf firstRow) (baseFor size)) :=
    goodBoard_mapBoard hgB (relabelOf_inj hperm) (relabelOf_range hperm)
  have hCc : CompleteOn size (mapBoard (relabelOf firstRow) (baseFor size)) :=
    completeOn_mapBoard hcB
  have hCfirst : ∀ c, c < size →
      mapBoard (relabelOf firstRow) (baseFor size) 0 c = some (firstRow.getD c 0) := by
    intro c hc
    have h0 := hfB c hc
    simp [mapBoard, h0, relabelOf]
  have hext : Extends (ClassicSudoku.initialBoard size firstRow)
      (mapBoard (relabelOf firstRow) (baseFor size)) := by
    intro r c v hv
    unfold ClassicSudoku.initialBoard at hv
    by_cases hcond : r = 0 ∧ c < size
    · rw [if_pos hcond] at hv
      obtain ⟨hr0, hc⟩ := hcond
      rw [hr0, hCfirst c hc, Option.some.inj hv]
    · rw [if_neg hcond] at hv
      cases hv
  have hrangeC : ∀ r c, r < size → c < size →
      ((mapBoard (relabelOf firstRow) (baseFor size)) r c).getD 0 ∈ candidateVals size := by
    intro r c hr hc
    rw [mem_candidateVals]
    apply hCg.2.2.2 r hr c hc
    have := hCc r hr c hc
    intro hq
    rw [hq] at this
    cases this
  have hvalidC : ∀ bb, Extends bb (mapBoard (relabelOf firstRow) (baseFor size)) →
      ∀ r c, r < size → c < size → bb r c = none →
      ClassicSudoku.isValidMove size bb r c
        ((mapBoard (relabelOf firstRow) (baseFor size) r c).getD 0) = true := by
    intro bb hbext r c hr hc hbe
    have hsomeC : mapBoard (relabelOf firstRow) (baseFor size) r c =
        some ((mapBoard (relabelOf firstRow) (baseFor size) r c).getD 0) := by
      obtain ⟨w, hw⟩ := Option.isSome_iff_exists.1 (hCc r hr c hc)
      rw [hw]
      rfl
    exact classic_isValidMove_of_extends hsz hCg hbext hr hc hbe hsomeC
  have hcount : emptyCountIn (ClassicSudoku.initialBoard size firstRow) (allCells size) <
      size * size + 1 := by
    have hle := List.countP_le_length
      (p := fun rc : Nat × Nat =>
        ((ClassicSudoku.initialBoard size firstRow) rc.1 rc.2).isNone)
      (l := allCells size)
    rw [allCells_length] at hle
    unfold emptyCountIn
    omega
  have hsolve := solveWith_complete (mapBoard (relabelOf firstRow) (baseFor size))
    hCc hrangeC hvalidC (size * size + 1) (ClassicSudoku.initialBoard size firstRow) hext hcount
  have hb0good : GoodBoard size (ClassicSudoku.initialBoard size firstRow) :=
    initialBoard_good hperm
  unfold ClassicSudoku.generateCompleteBoard
  cases hmatch : ClassicSudoku.solveSudoku size (size * size + 1)
      (ClassicSudoku.initialBoard size firstRow) with
  | none =>
    unfold ClassicSudoku.solveSudoku at hmatch
    rw [hmatch] at hsolve
    cases hsolve
  | some b' =>
    have hmatch' : solveWith (fun b' r c n => ClassicSudoku.isValidMove size b' r c n) size
        (size * size + 1) (ClassicSudoku.initialBoard size firstRow) = some b' := hmatch
    have hs := solveWith_sound (GoodBoard size)
      (fun b r c n hInv _ _ _ hn hv =>
        goodBoard_setCell hInv (mem_candidateVals.1 hn).1
          (mem_candidateVals.1 hn).2 hv)
      (size * size + 1) (ClassicSudoku.initialBoard size firstRow) b' hb0good hmatch'
    simp only [hmatch]
    exact ⟨hs.1, hs.2.1⟩

/-!
Consecutive-variant lemmas.
-/

theorem completeOn_some {size : Nat} {b : Board} {r c : Nat}
    (h : CompleteOn size b) (hr : r < size) (hc : c < size) :
    b r c = some ((b r c).getD 0) := by
  obtain ⟨w, hw⟩ := Option.isSome_iff_exists.1 (h r hr c hc)
  rw [hw]
  rfl

theorem isConsecutiveB_comm (a b : Nat) :
    ConsecutiveSudoku.isConsecutiveB a b = ConsecutiveSudoku.isConsecutiveB b a := by
  unfold ConsecutiveSudoku.isConsecutiveB
  congr 1
  omega

theorem consecutive_validate_full {size : Nat} (hsz : size = 4 ∨ size = 6 ∨ size = 9)
    {b : Board} (hg : GoodBoard size b) (hcomp : CompleteOn size b) :
    ConsecutiveSudoku.validateBoard size b
      (some (ConsecutiveSudoku.generateConsecutiveConstraints size b coinsTrue coinsTrue)) =
      true := by
  unfold ConsecutiveSudoku.validateBoard ConsecutiveSudoku.validateBoardPass validatePass
  have h := validateGo_eq_of
    (fun b' r c n => ConsecutiveSudoku.isValidMove size b' r c n
      (some (ConsecutiveSudoku.generateConsecutiveConstraints size b coinsTrue coinsTrue)))
    (allCells size) b ?_
  · rw [h]
  intro rc hm temp htemp
  obtain ⟨hr, hc⟩ := mem_allCells.1 hm
  obtain ⟨r, c⟩ := rc
  simp only at hr hc htemp ⊢
  have hext : Extends (setCell b r c none) b := by
    intro r' c' w hw
    by_cases hq : (r', c') = (r, c)
    · have h1 : r' = r := congrArg Prod.fst hq
      have h2 : c' = c := congrArg Prod.snd hq
      rw [h1, h2, setCell_same] at hw
      cases hw
    · rw [setCell_ne _ _ _ _ hq] at hw
      exact hw
  unfold ConsecutiveSudoku.isValidMove
  rw [Bool.and_eq_true]
  constructor
  · exact classic_isValidMove_of_extends hsz hg hext hr hc
      (setCell_same b r c none) htemp
  simp only [Bool.and_eq_true]
  refine ⟨⟨⟨?_, ?_⟩, ?_⟩, ?_⟩
  · -- left neighbour
    by_cases h0c : 0 < c
    · rw [if_pos h0c]
      have hne : (r, c - 1) ≠ (r, c) := by
        intro hq
        have := congrArg Prod.snd hq
        omega
      have hb' : setCell b r c none r (c - 1) = b r (c - 1) := setCell_ne _ _ _ _ hne
      have hv := completeOn_some hcomp hr (show c - 1 < size by omega)
      rw [hb', hv]
      have hH : (ConsecutiveSudoku.generateConsecutiveConstraints size b coinsTrue
          coinsTrue).horizontal r (c - 1) =
          ConsecutiveSudoku.isConsecutiveB ((b r (c - 1)).getD 0) temp := by
        unfold ConsecutiveSudoku.generateConsecutiveConstraints
        simp only
        rw [if_pos ⟨hr, by omega⟩]
        have hcc : c - 1 + 1 = c := by omega
        rw [hcc, htemp]
        simp [coinsTrue]
      rw [hH]
      simp
    · rw [if_neg h0c]
  · -- right neighbour
    by_cases hcs : c < size - 1
    · rw [if_pos hcs]
      have hne : (r, c + 1) ≠ (r, c) := by
        intro hq
        have := congrArg Prod.snd hq
        omega
      have hb' : setCell b r c none r (c + 1) = b r (c + 1) := setCell_ne _ _ _ _ hne
      have hv := completeOn_some hcomp hr (show c + 1 < size by omega)
      rw [hb', hv]
      have hH : (ConsecutiveSudoku.generateConsecutiveConstraints size b coinsTrue
          coinsTrue).horizontal r c =
          ConsecutiveSudoku.isConsecutiveB temp ((b r (c + 1)).getD 0) := by
        unfold ConsecutiveSudoku.generateConsecutiveConstraints
        simp only
        rw [if_pos ⟨hr, hcs⟩, htemp]
        simp [coinsTrue]
      rw [hH, isConsecutiveB_comm]
      simp
    · rw [if_neg hcs]
  · -- top neighbour
    by_cases h0r : 0 < r
    · rw [if_pos h0r]
      have hne : (r - 1, c) ≠ (r, c) := by
        intro hq
        have := congrArg Prod.fst hq
        omega
      have hb' : setCell b r c none (r - 1) c = b (r - 1) c := setCell_ne _ _ _ _ hne
      have hv := completeOn_some hcomp (show r - 1 < size by omega) hc
      rw [hb', hv]
      have hH : (ConsecutiveSudoku.generateConsecutiveConstraints size b coinsTrue
          coinsTrue).vertical (r - 1) c =
          ConsecutiveSudoku.isConsecutiveB ((b (r - 1) c).getD 0) temp := by
        unfold ConsecutiveSudoku.generateConsecutiveConstraints
        simp only
        rw [if_pos ⟨by omega, hc⟩]
        have hrr : r - 1 + 1 = r := by omega
        rw [hrr, htemp]
        simp [coinsTrue]
      rw [hH]
      simp
    · rw [if_neg h0r]
  · -- bottom neighbour
    by_cases hrs : r < size - 1
    · rw [if_pos hrs]
      have hne : (r + 1, c) ≠ (r, c) := by
        intro hq
        have := congrArg Prod.fst hq
        omega
      have hb' : setCell b r c none (r + 1) c = b (r + 1) c := setCell_ne _ _ _ _ hne
      have hv := completeOn_some hcomp (show r + 1 < size by omega) hc
      rw [hb', hv]
      have hH : (ConsecutiveSudoku.generateConsecutiveConstraints size b coinsTrue
          coinsTrue).vertical r c =
          ConsecutiveSudoku.isConsecutiveB temp ((b (r + 1) c).getD 0) := by
        unfold ConsecutiveSudoku.generateConsecutiveConstraints
        simp only
        rw [if_pos ⟨hrs, hc⟩, htemp]
        simp [coinsTrue]
      rw [hH, isConsecutiveB_comm]
      simp
    · rw [if_neg hrs]

/-!
Even-odd-variant lemmas.
-/

theorem evenOdd_isValidMove_parts {size : Nat} {b : Board} {r c n : Nat}
    (h : EvenOddSudoku.isValidMove size b r c n = true) :
    ((n % 2 == 0) = EvenOddSudoku.isShadedCell r c size) ∧
      ClassicSudoku.isValidMove size b r c n = true := by
  unfold EvenOddSudoku.isValidMove at h
  rw [Bool.and_eq_true] at h
  refine ⟨?_, h.2⟩
  have h1 := h.1
  cases hs : EvenOddSudoku.isShadedCell r c size <;>
    cases he : (n % 2 == 0) <;> simp [hs, he] at h1 ⊢

theorem evenOddInv_setCell {size : Nat} {b : Board} {r c n : Nat}
    (hg : GoodBoard size b) (hp : EvenOddParityOk size b)
    (hn1 : 1 ≤ n) (hn2 : n ≤ size)
    (hv : EvenOddSudoku.isValidMove size b r c n = true) :
    GoodBoard size (setCell b r c (some n)) ∧
      EvenOddParityOk size (setCell b r c (some n)) := by
  obtain ⟨hpar, hcl⟩ := evenOdd_isValidMove_parts hv
  refine ⟨goodBoard_setCell hg hn1 hn2 hcl, ?_⟩
  intro r0 hr0 c0 hc0 hne
  by_cases h00 : (r0, c0) = (r, c)
  · have hr0e : r0 = r := congrArg Prod.fst h00
    have hc0e : c0 = c := congrArg Prod.snd h00
    rw [hr0e, hc0e, setCell_same]
    exact hpar
  · rw [setCell_ne _ _ _ _ h00] at hne ⊢
    exact hp r0 hr0 c0 hc0 hne

theorem tryNumsAt_some {size : Nat} {b : Board} {r c : Nat} {numbers : List Nat}
    {numIndex n : Nat} (h : EvenOddSudoku.tryNumsAt size b r c numbers numIndex = some n) :
    EvenOddSudoku.isValidMove size b r c n = true ∧ n ∈ numbers := by
  unfold EvenOddSudoku.tryNumsAt at h
  cases hfind : (List.range numbers.length).find? (fun a =>
      EvenOddSudoku.isValidMove size b r c
        (numbers.getD ((numIndex + a) % numbers.length) 0)) with
  | none => rw [hfind] at h; cases h
  | some a =>
    rw [hfind] at h
    have hval := List.find?_some hfind
    have hmem := List.mem_of_find?_eq_some hfind
    rw [List.mem_range] at hmem
    have hlenpos : 0 < numbers.length := by omega
    have hlt : (numIndex + a) % numbers.length < numbers.length := Nat.mod_lt _ hlenpos
    have hn : n = numbers.getD ((numIndex + a) % numbers.length) 0 := by
      simpa using h.symm
    constructor
    · rw [hn]
      exact hval
    · rw [hn, List.getD_eq_getElem numbers 0 hlt]
      exact List.getElem_mem hlt

theorem fillBoxGo_inv {size : Nat} {numbers : List Nat}
    (hnums : ∀ n ∈ numbers, 1 ≤ n ∧ n ≤ size) :
    ∀ (cells : List (Nat × Nat)) (b : Board) (numIndex : Nat),
      GoodBoard size b → EvenOddParityOk size b →
      GoodBoard size (EvenOddSudoku.fillBoxGo size numbers cells b numIndex) ∧
        EvenOddParityOk size (EvenOddSudoku.fillBoxGo size numbers cells b numIndex) := by
  intro cells
  induction cells with
  | nil => intro b numIndex hg hp; exact ⟨hg, hp⟩
  | cons rc rest ih =>
    intro b numIndex hg hp
    unfold EvenOddSudoku.fillBoxGo
    cases htry : EvenOddSudoku.tryNumsAt size b rc.1 rc.2 numbers numIndex with
    | none => exact ih b numIndex hg hp
    | some n =>
      obtain ⟨hv, hmem⟩ := tryNumsAt_some htry
      obtain ⟨hn1, hn2⟩ := hnums n hmem
      obtain ⟨hg2, hp2⟩ := evenOddInv_setCell hg hp hn1 hn2 hv
      exact ih _ _ hg2 hp2

theorem fillBoxGo_other {size : Nat} {numbers : List Nat} :
    ∀ (cells : List (Nat × Nat)) (b : Board) (numIndex : Nat) (r c : Nat),
      (r, c) ∉ cells →
      EvenOddSudoku.fillBoxGo size numbers cells b numIndex r c = b r c := by
  intro cells
  induction cells with
  | nil => intro b numIndex r c _; rfl
  | cons rc rest ih =>
    intro b numIndex r c hmem
    have hne : (r, c) ≠ rc := fun h => hmem (h ▸ List.mem_cons_self rc rest)
    have hrest : (r, c) ∉ rest := fun h => hmem (List.mem_cons_of_mem rc h)
    unfold EvenOddSudoku.fillBoxGo
    cases htry : EvenOddSudoku.tryNumsAt size b rc.1 rc.2 numbers numIndex with
    | none => exact ih b numIndex r c hrest
    | some n =>
      show EvenOddSudoku.fillBoxGo size numbers rest (setCell b rc.1 rc.2 (some n))
        (numIndex + 1) r c = b r c
      rw [ih _ _ r c hrest, setCell_ne]
      intro hq
      apply hne
      rw [hq]

theorem emptyBoard_inv (size : Nat) :
    GoodBoard size emptyBoard ∧ EvenOddParityOk size emptyBoard := by
  refine ⟨⟨?_, ?_, ?_, ?_⟩, ?_⟩
  · intro r _ c _ c' _ _
    exact Or.inl rfl
  · intro c _ r _ r' _ _
    exact Or.inl rfl
  · intro r _ c _ r' _ c' _ _ _ _
    exact Or.inl rfl
  · intro r _ c _ hne
    exact absurd rfl hne
  · intro r _ c _ hne
    exact absurd rfl hne

theorem evenOdd9_infeasible {b : Board} (hcomp : CompleteOn 9 b) (hrow : RowOk 9 b)
    (hrange : RangeOk 9 b) (hpar : EvenOddParityOk 9 b) : False := by
  have hcols_lt : ∀ k : Fin 8, (![0, 1, 2, 3, 4, 6, 7, 8] : Fin 8 → Nat) k < 9 := by decide
  have hcols_unshaded : ∀ k : Fin 8,
      EvenOddSudoku.isShadedCell 0 ((![0, 1, 2, 3, 4, 6, 7, 8] : Fin 8 → Nat) k) 9 =
        false := by decide
  have hcols_inj : ∀ j k : Fin 8,
      (![0, 1, 2, 3, 4, 6, 7, 8] : Fin 8 → Nat) j =
        (![0, 1, 2, 3, 4, 6, 7, 8] : Fin 8 → Nat) k → j = k := by decide
  have hsome : ∀ k : Fin 8,
      b 0 ((![0, 1, 2, 3, 4, 6, 7, 8] : Fin 8 → Nat) k) =
        some ((b 0 ((![0, 1, 2, 3, 4, 6, 7, 8] : Fin 8 → Nat) k)).getD 0) :=
    fun k => completeOn_some hcomp (by omega) (hcols_lt k)
  have hne_none : ∀ k : Fin 8,
      b 0 ((![0, 1, 2, 3, 4, 6, 7, 8] : Fin 8 → Nat) k) ≠ none := by
    intro k hq
    have h := hsome k
    rw [hq] at h
    cases h
  have hodd : ∀ k : Fin 8,
      (b 0 ((![0, 1, 2, 3, 4, 6, 7, 8] : Fin 8 → Nat) k)).getD 0 % 2 = 1 := by
    intro k
    have hp := hpar 0 (by omega) _ (hcols_lt k) (hne_none k)
    rw [hcols_unshaded k] at hp
    simp only [beq_eq_false_iff_ne] at hp
    omega
  have hrangeg : ∀ k : Fin 8,
      1 ≤ (b 0 ((![0, 1, 2, 3, 4, 6, 7, 8] : Fin 8 → Nat) k)).getD 0 ∧
        (b 0 ((![0, 1, 2, 3, 4, 6, 7, 8] : Fin 8 → Nat) k)).getD 0 ≤ 9 :=
    fun k => hrange 0 (by omega) _ (hcols_lt k) (hne_none k)
  have hmem : ∀ k : Fin 8,
      (b 0 ((![0, 1, 2, 3, 4, 6, 7, 8] : Fin 8 → Nat) k)).getD 0 ∈
        ({1, 3, 5, 7, 9} : Finset ℕ) := by
    intro k
    have h1 := hodd k
    have h2 := hrangeg k
    have h3 : (b 0 ((![0, 1, 2, 3, 4, 6, 7, 8] : Fin 8 → Nat) k)).getD 0 = 1 ∨
        (b 0 ((![0, 1, 2, 3, 4, 6, 7, 8] : Fin 8 → Nat) k)).getD 0 = 3 ∨
        (b 0 ((![0, 1, 2, 3, 4, 6, 7, 8] : Fin 8 → Nat) k)).getD 0 = 5 ∨
        (b 0 ((![0, 1, 2, 3, 4, 6, 7, 8] : Fin 8 → Nat) k)).getD 0 = 7 ∨
        (b 0 ((![0, 1, 2, 3, 4, 6, 7, 8] : Fin 8 → Nat) k)).getD 0 = 9 := by omega
    rcases h3 with h | h | h | h | h <;> simp [h]
  have hinj : Function.Injective
      (fun k : Fin 8 => (b 0 ((![0, 1, 2, 3, 4, 6, 7, 8] : Fin 8 → Nat) k)).getD 0) := by
    intro j k hjk
    simp only at hjk
    by_contra hne
    have hcne : (![0, 1, 2, 3, 4, 6, 7, 8] : Fin 8 → Nat) j ≠
        (![0, 1, 2, 3, 4, 6, 7, 8] : Fin 8 → Nat) k :=
      fun h => hne (hcols_inj j k h)
    rcases hrow 0 (by omega) _ (hcols_lt j) _ (hcols_lt k) hcne with h1 | h1
    · exact hne_none j h1
    · apply h1
      rw [hsome j, hsome k, hjk]
  have hcard := Finset.card_le_card_of_injOn (s := (Finset.univ : Finset (Fin 8)))
    (fun k : Fin 8 => (b 0 ((![0, 1, 2, 3, 4, 6, 7, 8] : Fin 8 → Nat) k)).getD 0)
    (fun k _ => hmem k) (hinj.injOn)
  have h8 : (Finset.univ : Finset (Fin 8)).card = 8 := by simp
  have h5 : ({1, 3, 5, 7, 9} : Finset ℕ).card = 5 := rfl
  omega

theorem evenOdd9_solveSudoku_none {b : Board} (hg : GoodBoard 9 b)
    (hp : EvenOddParityOk 9 b) (fuel : Nat) :
    EvenOddSudoku.solveSudoku 9 fuel b = none := by
  cases hmatch : EvenOddSudoku.solveSudoku 9 fuel b with
  | none => rfl
  | some b' =>
    exfalso
    have hmatch' : solveWith (fun b' r c n => EvenOddSudoku.isValidMove 9 b' r c n) 9 fuel b =
        some b' := hmatch
    have hs := solveWith_sound
      (fun bb => GoodBoard 9 bb ∧ EvenOddParityOk 9 bb)
      (fun bb r c n hInv _ _ _ hn hv =>
        evenOddInv_setCell hInv.1 hInv.2 (mem_candidateVals.1 hn).1
          (mem_candidateVals.1 hn).2 hv)
      fuel b b' ⟨hg, hp⟩ hmatch'
    exact evenOdd9_infeasible hs.2.1 hs.1.1.1 hs.1.1.2.2.2 hs.1.2

theorem evenOdd_attemptLoop9_none (k : Nat) : EvenOddSudoku.attemptLoop 9 k = none := by
  induction k with
  | zero => rfl
  | succ k ih =>
    unfold EvenOddSudoku.attemptLoop
    rw [evenOdd9_solveSudoku_none (emptyBoard_inv 9).1 (emptyBoard_inv 9).2]
    exact ih

theorem isBoardComplete_false_of_none {size : Nat} {b : Board} {r c : Nat}
    (hr : r < size) (hc : c < size) (h : b r c = none) :
    ClassicSudoku.isBoardComplete size b = false := by
  cases hq : ClassicSudoku.isBoardComplete size b
  · rfl
  · exfalso
    have := isBoardComplete_iff.1 hq r hr c hc
    rw [h] at this
    cases this

theorem evenOdd9_fillDiagonal_spec {ns : Nat → List Nat}
    (hnums : ∀ i, ∀ n ∈ ns i, 1 ≤ n ∧ n ≤ 9) :
    (GoodBoard 9 (EvenOddSudoku.fillDiagonalBoxes 9 ns emptyBoard) ∧
      EvenOddParityOk 9 (EvenOddSudoku.fillDiagonalBoxes 9 ns emptyBoard)) ∧
      EvenOddSudoku.fillDiagonalBoxes 9 ns emptyBoard 0 3 = none := by
  have hexp : EvenOddSudoku.fillDiagonalBoxes 9 ns emptyBoard =
      EvenOddSudoku.fillBox 9 (ns 2)
        (EvenOddSudoku.fillBox 9 (ns 1)
          (EvenOddSudoku.fillBox 9 (ns 0) emptyBoard 0 0) 3 3) 6 6 := rfl
  rw [hexp]
  unfold EvenOddSudoku.fillBox
  constructor
  · have h0 := fillBoxGo_inv (hnums 0) (EvenOddSudoku.boxCellList (sqrtNat 9) 0 0)
      emptyBoard 0 (emptyBoard_inv 9).1 (emptyBoard_inv 9).2
    have h1 := fillBoxGo_inv (hnums 1) (EvenOddSudoku.boxCellList (sqrtNat 9) 3 3)
      _ 0 h0.1 h0.2
    exact fillBoxGo_inv (hnums 2) (EvenOddSudoku.boxCellList (sqrtNat 9) 6 6) _ 0 h1.1 h1.2
  · rw [fillBoxGo_other _ _ _ 0 3 (by decide),
      fillBoxGo_other _ _ _ 0 3 (by decide),
      fillBoxGo_other _ _ _ 0 3 (by decide)]
    rfl

theorem evenOdd9_generateCompleteBoard_incomplete {ns : Nat → List Nat}
    (hnums : ∀ i, ∀ n ∈ ns i, 1 ≤ n ∧ n ≤ 9) :
    EvenOddSudoku.generateCompleteBoard 9 ns 0 3 = none := by
  obtain ⟨⟨hg, hp⟩, h03⟩ := evenOdd9_fillDiagonal_spec hnums
  unfold EvenOddSudoku.generateCompleteBoard
  rw [evenOdd_attemptLoop9_none 50]
  show EvenOddSudoku.generateFallbackBoard 9 ns 0 3 = none
  unfold EvenOddSudoku.generateFallbackBoard
  rw [evenOdd9_solveSudoku_none hg hp]
  exact h03

/-!
Carving lemmas: every generator's puzzle is a sub-board of its solution,
and clue-count bounds.
-/

theorem extends_refl (b : Board) : Extends b b := fun _ _ _ h => h

theorem extends_trans {a b c : Board} (h1 : Extends a b) (h2 : Extends b c) :
    Extends a c := fun r cc v hv => h2 r cc v (h1 r cc v hv)

theorem extends_setCell_none {b : Board} {r c : Nat} : Extends (setCell b r c none) b := by
  intro r' c' v hv
  by_cases hq : (r', c') = (r, c)
  · have h1 : r' = r := congrArg Prod.fst hq
    have h2 : c' = c := congrArg Prod.snd hq
    rw [h1, h2, setCell_same] at hv
    cases hv
  · rw [setCell_ne _ _ _ _ hq] at hv
    exact hv

theorem removeCells_extends : ∀ (l : List (Nat × Nat)) (b : Board),
    Extends (removeCells b l) b := by
  intro l
  induction l with
  | nil => intro b; exact extends_refl b
  | cons rc rest ih =>
    intro b
    exact extends_trans (ih (setCell b rc.1 rc.2 none)) extends_setCell_none

theorem subBoardB_of_extends {size : Nat} {p s : Board} (h : Extends p s) :
    subBoardB size p s = true := by
  unfold subBoardB
  rw [List.all_eq_true]
  intro rc _
  cases hp : p rc.1 rc.2 with
  | none => simp
  | some v => simp [h rc.1 rc.2 v hp]

theorem countFilledIn_set_none_of_none {b : Board} {cells : List (Nat × Nat)} {r c : Nat}
    (h : b r c = none) :
    countFilledIn (setCell b r c none) cells = countFilledIn b cells := by
  unfold countFilledIn
  apply List.countP_congr
  intro rc _
  by_cases hq : (rc.1, rc.2) = (r, c)
  · have h1 : rc.1 = r := congrArg Prod.fst hq
    have h2 : rc.2 = c := congrArg Prod.snd hq
    rw [h1, h2, setCell_same, h]
  · rw [setCell_ne _ _ _ _ hq]

theorem countFilledIn_set_none_ge {b : Board} {cells : List (Nat × Nat)} {r c : Nat}
    (hnd : cells.Nodup) :
    countFilledIn b cells ≤ countFilledIn (setCell b r c none) cells + 1 := by
  by_cases hmem : (r, c) ∈ cells
  · cases hb : b r c with
    | none => rw [countFilledIn_set_none_of_none hb]; omega
    | some v =>
      have := countFilledIn_set_none hmem hnd
        (show (b r c).isSome by rw [hb]; rfl)
      omega
  · rw [countFilledIn_set_not_mem hmem]
    omega

theorem countFilledIn_complete {size : Nat} {b : Board} (hc : CompleteOn size b)
    {cells : List (Nat × Nat)} (hsub : ∀ rc ∈ cells, rc ∈ allCells size) :
    countFilledIn b cells = cells.length := by
  unfold countFilledIn
  rw [List.countP_eq_length]
  intro rc hm
  obtain ⟨hr, hcc⟩ := mem_allCells.1 (hsub rc hm)
  exact hc rc.1 hr rc.2 hcc

theorem removeCells_count {size : Nat} :
    ∀ (l : List (Nat × Nat)) (b : Board), l.Nodup →
      (∀ rc ∈ l, rc ∈ allCells size) → (∀ rc ∈ l, (b rc.1 rc.2).isSome) →
      countFilledIn (removeCells b l) (allCells size) + l.length =
        countFilledIn b (allCells size) := by
  intro l
  induction l with
  | nil => intro b _ _ _; rfl
  | cons rc rest ih =>
    intro b hnd hsub hfill
    have hstep := countFilledIn_set_none (hsub rc (List.mem_cons_self rc rest))
      (allCells_nodup size) (hfill rc (List.mem_cons_self rc rest))
    have hrest_fill : ∀ rc' ∈ rest, ((setCell b rc.1 rc.2 none) rc'.1 rc'.2).isSome := by
      intro rc' hm
      have hne : (rc'.1, rc'.2) ≠ (rc.1, rc.2) := by
        intro hq
        have : rc' = rc := by
          cases rc'
          cases rc
          simpa using hq
        rw [this] at hm
        exact (List.nodup_cons.1 hnd).1 hm
      rw [setCell_ne _ _ _ _ hne]
      exact hfill rc' (List.mem_cons_of_mem rc hm)
    have := ih (setCell b rc.1 rc.2 none) hnd.of_cons
      (fun rc' hm => hsub rc' (List.mem_cons_of_mem rc hm)) hrest_fill
    unfold removeCells
    simp only [List.length_cons]
    omega

theorem astCarve_extends {k m : Nat} :
    ∀ (l : List (Nat × Nat)) (pz : Board) (ar rm : Nat),
      Extends (AsteriskSudoku.astCarve k m l pz ar rm).1 pz := by
  intro l
  induction l with
  | nil => intro pz ar rm; exact extends_refl pz
  | cons rc rest ih =>
    intro pz ar rm
    unfold AsteriskSudoku.astCarve
    by_cases h1 : rm < k
    · rw [if_pos h1]
      by_cases h2 : AsteriskSudoku.isAsteriskCell rc.1 rc.2
      · rw [if_pos h2]
        by_cases h3 : ar < m
        · rw [if_pos h3]
          exact extends_trans (ih _ _ _) extends_setCell_none
        · rw [if_neg h3]
          exact ih _ _ _
      · rw [if_neg h2]
        exact extends_trans (ih _ _ _) extends_setCell_none
    · rw [if_neg h1]
      exact extends_refl pz

theorem winCarve_extends {k m : Nat} :
    ∀ (l : List (Nat × Nat)) (pz : Board) (cnt : List Nat) (rm : Nat),
      Extends (WindokuSudoku.winCarve k m l pz cnt rm).1 pz := by
  intro l
  induction l with
  | nil => intro pz cnt rm; exact extends_refl pz
  | cons rc rest ih =>
    intro pz cnt rm
    unfold WindokuSudoku.winCarve
    by_cases h1 : rm < k
    · rw [if_pos h1]
      cases hri : WindokuSudoku.windokuRegionIndex rc.1 rc.2 with
      | some ri =>
        show Extends ((if cnt.getD ri 0 < m then
            WindokuSudoku.winCarve k m rest (setCell pz rc.1 rc.2 none)
              (cnt.set ri (cnt.getD ri 0 + 1)) (rm + 1)
          else WindokuSudoku.winCarve k m rest pz cnt rm).1) pz
        by_cases h3 : cnt.getD ri 0 < m
        · rw [if_pos h3]
          exact extends_trans (ih _ _ _) extends_setCell_none
        · rw [if_neg h3]
          exact ih _ _ _
      | none => exact extends_trans (ih _ _ _) extends_setCell_none
    · rw [if_neg h1]
      exact extends_refl pz

theorem jigsawCarve_extends {minClues k : Nat} {regionOf : Nat → Nat → Nat} :
    ∀ (l : List (Nat × Nat)) (pz : Board) (cnt : List Nat) (rm : Nat),
      Extends (JigsawSudoku.jigsawCarve minClues k regionOf l pz cnt rm).1 pz := by
  intro l
  induction l with
  | nil => intro pz cnt rm; exact extends_refl pz
  | cons rc rest ih =>
    intro pz cnt rm
    unfold JigsawSudoku.jigsawCarve
    by_cases h1 : rm < k
    · rw [if_pos h1]
      by_cases h2 : minClues < cnt.getD (regionOf rc.1 rc.2) 0
      · rw [if_pos h2]
        exact extends_trans (ih _ _ _) extends_setCell_none
      · rw [if_neg h2]
        exact ih _ _ _
    · rw [if_neg h1]
      exact extends_refl pz

theorem carveGo_extends {size k : Nat} {pattern : Nat → Nat → Bool} :
    ∀ (l : List (Nat × Nat)) (pz : Board) (cnt : List Nat) (rm : Nat),
      Extends (EvenOddSudoku.carveGo size k pattern l pz cnt rm).1 pz := by
  intro l
  induction l with
  | nil => intro pz cnt rm; exact extends_refl pz
  | cons rc rest ih =>
    intro pz cnt rm
    unfold EvenOddSudoku.carveGo
    by_cases h1 : rm < k
    · rw [if_pos h1]
      simp only
      split
      · split
        · exact extends_trans (ih _ _ _) extends_setCell_none
        · exact ih _ _ _
      · split
        · exact extends_trans (ih _ _ _) extends_setCell_none
        · exact ih _ _ _
    · rw [if_neg h1]
      exact extends_refl pz

theorem restoreBox_sub {size : Nat} {pattern : Nat → Nat → Bool}
    {solution pz : Board} {cnt : List Nat} {bi : Nat}
    (h : Extends pz solution) :
    Extends (EvenOddSudoku.restoreBox size pattern solution pz cnt bi).1 solution := by
  unfold EvenOddSudoku.restoreBox
  by_cases h1 : cnt.getD bi 0 == 0
  · rw [if_pos h1]
    simp only
    cases hfind : (EvenOddSudoku.boxCellList (sqrtNat size)
        (bi / sqrtNat size * sqrtNat size) (bi % sqrtNat size * sqrtNat size)).find?
        (fun rc => (pz rc.1 rc.2).isNone &&
          (((solution rc.1 rc.2).getD 0 % 2 == 0) && pattern rc.1 rc.2 ||
            !((solution rc.1 rc.2).getD 0 % 2 == 0) && !pattern rc.1 rc.2)) with
    | none => exact h
    | some rc =>
      show Extends (setCell pz rc.1 rc.2 (solution rc.1 rc.2)) solution
      intro r' c' v hv
      by_cases hq : (r', c') = (rc.1, rc.2)
      · have h1' : r' = rc.1 := congrArg Prod.fst hq
        have h2' : c' = rc.2 := congrArg Prod.snd hq
        rw [h1', h2', setCell_same] at hv
        rw [h1', h2']
        exact hv
      · rw [setCell_ne _ _ _ _ hq] at hv
        exact h r' c' v hv
  · rw [if_neg h1]
    exact h

theorem restorePass_sub {size : Nat} {pattern : Nat → Nat → Bool}
    {solution : Board} :
    ∀ (l : List Nat) (pz : Board) (cnt : List Nat), Extends pz solution →
      Extends (l.foldl (fun st bi =>
        EvenOddSudoku.restoreBox size pattern solution st.1 st.2 bi) (pz, cnt)).1
        solution := by
  intro l
  induction l with
  | nil => intro pz cnt h; exact h
  | cons bi rest ih =>
    intro pz cnt h
    rw [List.foldl_cons]
    have hstep := @restoreBox_sub size pattern solution pz cnt bi h
    exact ih _ _ hstep

theorem astCells_nodup : AsteriskSudoku.getAsteriskCells.Nodup := by decide

theorem astCarve_count {k m : Nat} :
    ∀ (l : List (Nat × Nat)) (pz : Board) (ar rm : Nat), ar ≤ m →
      countFilledIn pz AsteriskSudoku.getAsteriskCells + ar ≤
        countFilledIn (AsteriskSudoku.astCarve k m l pz ar rm).1
          AsteriskSudoku.getAsteriskCells + m := by
  intro l
  induction l with
  | nil =>
    intro pz ar rm h
    show countFilledIn pz AsteriskSudoku.getAsteriskCells + ar ≤
      countFilledIn pz AsteriskSudoku.getAsteriskCells + m
    omega
  | cons rc rest ih =>
    intro pz ar rm har
    unfold AsteriskSudoku.astCarve
    by_cases h1 : rm < k
    · rw [if_pos h1]
      by_cases h2 : AsteriskSudoku.isAsteriskCell rc.1 rc.2
      · rw [if_pos h2]
        by_cases h3 : ar < m
        · rw [if_pos h3]
          have hge := countFilledIn_set_none_ge (b := pz) (r := rc.1) (c := rc.2)
            astCells_nodup
          have hih := ih (setCell pz rc.1 rc.2 none) (ar + 1) (rm + 1) (by omega)
          omega
        · rw [if_neg h3]
          exact ih pz ar rm har
      · rw [if_neg h2]
        have hnm : (rc.1, rc.2) ∉ AsteriskSudoku.getAsteriskCells := by
          intro hmem
          have h4 := (List.mem_filter.1 hmem).2
          exact h2 h4
        have hcnt := countFilledIn_set_not_mem (b := pz) (v := none) hnm
        have hih := ih (setCell pz rc.1 rc.2 none) ar (rm + 1) har
        omega
    · rw [if_neg h1]
      show countFilledIn pz AsteriskSudoku.getAsteriskCells + ar ≤
        countFilledIn pz AsteriskSudoku.getAsteriskCells + m
      omega

theorem listGetD_set_self {l : List Nat} {i x : Nat} (hi : i < l.length) :
    (l.set i x).getD i 0 = x := by
  rw [List.getD_eq_getElem?_getD, List.getElem?_set_self hi]
  rfl

theorem listGetD_set_ne {l : List Nat} {i j x : Nat} (h : i ≠ j) :
    (l.set i x).getD j 0 = l.getD j 0 := by
  rw [List.getD_eq_getElem?_getD, List.getElem?_set_ne h, ← List.getD_eq_getElem?_getD]

theorem winW_nodup : ∀ i : Nat, (WindokuSudoku.getWindokuRegions.getD i []).Nodup
  | 0 => by decide
  | 1 => by decide
  | 2 => by decide
  | 3 => by decide
  | _ + 4 => List.nodup_nil

theorem winDisjointB :
    ((List.range 4).all fun i => (List.range 4).all fun j =>
      decide (i = j) || ((WindokuSudoku.getWindokuRegions.getD i []).all fun rc =>
        decide (rc ∉ WindokuSudoku.getWindokuRegions.getD j []))) = true := by decide

theorem winDisjoint : ∀ i, i < 4 → ∀ j, j < 4 → i ≠ j →
    ∀ rc ∈ WindokuSudoku.getWindokuRegions.getD i [],
      rc ∉ WindokuSudoku.getWindokuRegions.getD j [] := by
  intro i hi j hj hne rc hmem hmem'
  have h1 := List.all_eq_true.1 winDisjointB i (List.mem_range.2 hi)
  have h2 := List.all_eq_true.1 h1 j (List.mem_range.2 hj)
  rw [Bool.or_eq_true] at h2
  cases h2 with
  | inl h => exact hne (of_decide_eq_true h)
  | inr h =>
    have h3 := List.all_eq_true.1 h rc hmem
    exact of_decide_eq_true h3 hmem'

theorem windokuRegionIndex_mem {r c ri : Nat}
    (h : WindokuSudoku.windokuRegionIndex r c = some ri) :
    ri < 4 ∧ (r, c) ∈ WindokuSudoku.getWindokuRegions.getD ri [] := by
  unfold WindokuSudoku.windokuRegionIndex at h
  have h1 := List.find?_some h
  have h2 := List.mem_of_find?_eq_some h
  refine ⟨List.mem_range.1 h2, ?_⟩
  rw [List.any_eq_true] at h1
  obtain ⟨rc, hmem, hpred⟩ := h1
  rw [Bool.and_eq_true, beq_iff_eq, beq_iff_eq] at hpred
  have heq : rc = (r, c) := by
    cases rc
    simp only [Prod.mk.injEq]
    exact hpred
  rwa [heq] at hmem

theorem windokuRegionIndex_none {r c : Nat}
    (h : WindokuSudoku.windokuRegionIndex r c = none) :
    ∀ i, (r, c) ∉ WindokuSudoku.getWindokuRegions.getD i [] := by
  intro i hmem
  by_cases hi : i < 4
  · unfold WindokuSudoku.windokuRegionIndex at h
    rw [List.find?_eq_none] at h
    have h2 := h i (List.mem_range.2 hi)
    apply h2
    rw [List.any_eq_true]
    exact ⟨(r, c), hmem, by simp⟩
  · have hempty : WindokuSudoku.getWindokuRegions.getD i [] = [] := by
      match i, hi with
      | n + 4, _ => rfl
    rw [hempty] at hmem
    exact List.not_mem_nil _ hmem


theorem winCarve_count {k m : Nat} :
    ∀ (l : List (Nat × Nat)) (pz : Board) (cnt : List Nat) (rm : Nat),
      cnt.length = 4 → (∀ j, j < 4 → cnt.getD j 0 ≤ m) →
      ∀ i, i < 4 →
        countFilledIn pz (WindokuSudoku.getWindokuRegions.getD i []) + cnt.getD i 0 ≤
          countFilledIn (WindokuSudoku.winCarve k m l pz cnt rm).1
            (WindokuSudoku.getWindokuRegions.getD i []) + m := by
  intro l
  induction l with
  | nil =>
    intro pz cnt rm hlen hcnt i hi
    show countFilledIn pz _ + _ ≤ countFilledIn pz _ + m
    have := hcnt i hi
    omega
  | cons rc rest ih =>
    intro pz cnt rm hlen hcnt i hi
    unfold WindokuSudoku.winCarve
    by_cases h1 : rm < k
    · rw [if_pos h1]
      cases hri : WindokuSudoku.windokuRegionIndex rc.1 rc.2 with
      | some rj =>
        show countFilledIn pz _ + _ ≤
          countFilledIn ((if cnt.getD rj 0 < m then
              WindokuSudoku.winCarve k m rest (setCell pz rc.1 rc.2 none)
                (cnt.set rj (cnt.getD rj 0 + 1)) (rm + 1)
            else WindokuSudoku.winCarve k m rest pz cnt rm).1) _ + m
        obtain ⟨hrj4, hrjmem⟩ := windokuRegionIndex_mem hri
        by_cases h3 : cnt.getD rj 0 < m
        · rw [if_pos h3]
          have hlen' : (cnt.set rj (cnt.getD rj 0 + 1)).length = 4 := by
            rw [List.length_set]
            exact hlen
          have hcnt' : ∀ j, j < 4 → (cnt.set rj (cnt.getD rj 0 + 1)).getD j 0 ≤ m := by
            intro j hj
            by_cases hjr : rj = j
            · rw [← hjr, listGetD_set_self (by rw [hlen]; exact hrj4)]
              omega
            · rw [listGetD_set_ne hjr]
              exact hcnt j hj
          have hih := ih (setCell pz rc.1 rc.2 none)
            (cnt.set rj (cnt.getD rj 0 + 1)) (rm + 1) hlen' hcnt' i hi
          by_cases hjr : rj = i
          · rw [← hjr] at hih hi ⊢
            rw [listGetD_set_self (by rw [hlen]; exact hrj4)] at hih
            have hge := countFilledIn_set_none_ge (b := pz) (r := rc.1) (c := rc.2)
              (winW_nodup rj)
            omega
          · rw [listGetD_set_ne hjr] at hih
            have hnm : (rc.1, rc.2) ∉ WindokuSudoku.getWindokuRegions.getD i [] :=
              winDisjoint rj hrj4 i hi hjr _ hrjmem
            rw [countFilledIn_set_not_mem hnm] at hih
            omega
        · rw [if_neg h3]
          exact ih pz cnt rm hlen hcnt i hi
      | none =>
        have hnm := windokuRegionIndex_none hri i
        have hih := ih (setCell pz rc.1 rc.2 none) cnt (rm + 1) hlen hcnt i hi
        rw [countFilledIn_set_not_mem hnm] at hih
        show countFilledIn pz _ + _ ≤
          countFilledIn (WindokuSudoku.winCarve k m rest
            (setCell pz rc.1 rc.2 none) cnt (rm + 1)).1 _ + m
        exact hih
    · rw [if_neg h1]
      show countFilledIn pz _ + _ ≤ countFilledIn pz _ + m
      have := hcnt i hi
      omega

theorem listGetD_of_le {l : List Nat} {i : Nat} (h : l.length ≤ i) : l.getD i 0 = 0 := by
  rw [List.getD_eq_getElem?_getD, List.getElem?_eq_none h]
  rfl

theorem jigsawCarve_count {minClues k size : Nat} {regionOf : Nat → Nat → Nat}
    {R : Nat → List (Nat × Nat)}
    (hmin : 1 ≤ minClues)
    (hRnd : ∀ i, (R i).Nodup)
    (hmem : ∀ i, ∀ rc : Nat × Nat, rc ∈ R i → regionOf rc.1 rc.2 = i) :
    ∀ (l : List (Nat × Nat)) (pz : Board) (cnt : List Nat) (rm : Nat),
      (∀ j, j < size → minClues ≤ cnt.getD j 0 ∧
        cnt.getD j 0 ≤ countFilledIn pz (R j)) →
      ∀ i, i < size →
        minClues ≤ (JigsawSudoku.jigsawCarve minClues k regionOf l pz cnt rm).2.getD i 0 ∧
          (JigsawSudoku.jigsawCarve minClues k regionOf l pz cnt rm).2.getD i 0 ≤
            countFilledIn (JigsawSudoku.jigsawCarve minClues k regionOf l pz cnt rm).1
              (R i) := by
  intro l
  induction l with
  | nil =>
    intro pz cnt rm hinv i hi
    exact hinv i hi
  | cons rc rest ih =>
    intro pz cnt rm hinv i hi
    unfold JigsawSudoku.jigsawCarve
    by_cases h1 : rm < k
    · rw [if_pos h1]
      by_cases h2 : minClues < cnt.getD (regionOf rc.1 rc.2) 0
      · rw [if_pos h2]
        by_cases hbl : cnt.length ≤ regionOf rc.1 rc.2
        · exfalso
          rw [listGetD_of_le hbl] at h2
          omega
        · have hlt : regionOf rc.1 rc.2 < cnt.length := Nat.lt_of_not_le hbl
          have hinv' : ∀ j, j < size →
              minClues ≤ (cnt.set (regionOf rc.1 rc.2)
                  (cnt.getD (regionOf rc.1 rc.2) 0 - 1)).getD j 0 ∧
                (cnt.set (regionOf rc.1 rc.2)
                  (cnt.getD (regionOf rc.1 rc.2) 0 - 1)).getD j 0 ≤
                  countFilledIn (setCell pz rc.1 rc.2 none) (R j) := by
            intro j hj
            by_cases hbj : regionOf rc.1 rc.2 = j
            · refine ⟨?_, ?_⟩
              · rw [← hbj, listGetD_set_self hlt]
                omega
              · rw [← hbj, listGetD_set_self hlt]
                have hge := countFilledIn_set_none_ge (b := pz) (r := rc.1) (c := rc.2)
                  (hRnd (regionOf rc.1 rc.2))
                have h3 := (hinv (regionOf rc.1 rc.2)
                  (show regionOf rc.1 rc.2 < size by rw [hbj]; exact hj)).2
                omega
            · refine ⟨?_, ?_⟩
              · rw [listGetD_set_ne hbj]
                exact (hinv j hj).1
              · rw [listGetD_set_ne hbj]
                have hnm : (rc.1, rc.2) ∉ R j := fun hm => hbj (hmem j (rc.1, rc.2) hm)
                rw [countFilledIn_set_not_mem hnm]
                exact (hinv j hj).2
          exact ih _ _ _ hinv' i hi
      · rw [if_neg h2]
        exact ih pz cnt rm hinv i hi
    · rw [if_neg h1]
      exact hinv i hi

theorem carveGo_count_invstep {size : Nat} {R : Nat → List (Nat × Nat)}
    (hRnd : ∀ i, (R i).Nodup)
    (hmem : ∀ i, ∀ rc : Nat × Nat, rc ∈ R i →
      EvenOddSudoku.boxIndexOf size rc.1 rc.2 = i)
    {pz : Board} {cnt : List Nat} {rc : Nat × Nat}
    (hlt : EvenOddSudoku.boxIndexOf size rc.1 rc.2 < cnt.length)
    (hgt : EvenOddSudoku.minCluesPerBox size <
      cnt.getD (EvenOddSudoku.boxIndexOf size rc.1 rc.2) 0)
    (hinv : ∀ j, j < size → EvenOddSudoku.minCluesPerBox size ≤ cnt.getD j 0 ∧
      cnt.getD j 0 ≤ countFilledIn pz (R j)) :
    ∀ j, j < size →
      EvenOddSudoku.minCluesPerBox size ≤
          (cnt.set (EvenOddSudoku.boxIndexOf size rc.1 rc.2)
            (cnt.getD (EvenOddSudoku.boxIndexOf size rc.1 rc.2) 0 - 1)).getD j 0 ∧
        (cnt.set (EvenOddSudoku.boxIndexOf size rc.1 rc.2)
            (cnt.getD (EvenOddSudoku.boxIndexOf size rc.1 rc.2) 0 - 1)).getD j 0 ≤
          countFilledIn (setCell pz rc.1 rc.2 none) (R j) := by
  intro j hj
  by_cases hbj : EvenOddSudoku.boxIndexOf size rc.1 rc.2 = j
  · refine ⟨?_, ?_⟩
    · rw [← hbj, listGetD_set_self hlt]
      omega
    · rw [← hbj, listGetD_set_self hlt]
      have hge := countFilledIn_set_none_ge (b := pz) (r := rc.1) (c := rc.2)
        (hRnd (EvenOddSudoku.boxIndexOf size rc.1 rc.2))
      have h3 := (hinv (EvenOddSudoku.boxIndexOf size rc.1 rc.2)
        (show EvenOddSudoku.boxIndexOf size rc.1 rc.2 < size by rw [hbj]; exact hj)).2
      omega
  · refine ⟨?_, ?_⟩
    · rw [listGetD_set_ne hbj]
      exact (hinv j hj).1
    · rw [listGetD_set_ne hbj]
      have hnm : (rc.1, rc.2) ∉ R j := fun hm => hbj (hmem j (rc.1, rc.2) hm)
      rw [countFilledIn_set_not_mem hnm]
      exact (hinv j hj).2

theorem carveGo_count {size k : Nat} {pattern : Nat → Nat → Bool}
    {R : Nat → List (Nat × Nat)}
    (hRnd : ∀ i, (R i).Nodup)
    (hmem : ∀ i, ∀ rc : Nat × Nat, rc ∈ R i →
      EvenOddSudoku.boxIndexOf size rc.1 rc.2 = i) :
    ∀ (l : List (Nat × Nat)) (pz : Board) (cnt : List Nat) (rm : Nat),
      (∀ j, j < size → EvenOddSudoku.minCluesPerBox size ≤ cnt.getD j 0 ∧
        cnt.getD j 0 ≤ countFilledIn pz (R j)) →
      ∀ i, i < size →
        EvenOddSudoku.minCluesPerBox size ≤
            (EvenOddSudoku.carveGo size k pattern l pz cnt rm).2.getD i 0 ∧
          (EvenOddSudoku.carveGo size k pattern l pz cnt rm).2.getD i 0 ≤
            countFilledIn (EvenOddSudoku.carveGo size k pattern l pz cnt rm).1 (R i) := by
  intro l
  induction l with
  | nil =>
    intro pz cnt rm hinv i hi
    exact hinv i hi
  | cons rc rest ih =>
    intro pz cnt rm hinv i hi
    unfold EvenOddSudoku.carveGo
    by_cases h1 : rm < k
    · rw [if_pos h1]
      simp only
      split
      · split
        · next h2 =>
            have hgt : EvenOddSudoku.minCluesPerBox size <
                cnt.getD (EvenOddSudoku.boxIndexOf size rc.1 rc.2) 0 :=
              Nat.lt_of_not_le (by simpa using h2)
            by_cases hbl : cnt.length ≤ EvenOddSudoku.boxIndexOf size rc.1 rc.2
            · exfalso
              rw [listGetD_of_le hbl] at hgt
              exact Nat.not_lt_zero _ hgt
            · exact ih _ _ _
                (carveGo_count_invstep hRnd hmem (Nat.lt_of_not_le hbl) hgt hinv) i hi
        · exact ih pz cnt rm hinv i hi
      · split
        · next h2 =>
            have h2' : rm < k ∧
                ¬(cnt.getD (EvenOddSudoku.boxIndexOf size rc.1 rc.2) 0 ≤
                  EvenOddSudoku.minCluesPerBox size) := by simpa using h2
            have hgt := Nat.lt_of_not_le h2'.2
            by_cases hbl : cnt.length ≤ EvenOddSudoku.boxIndexOf size rc.1 rc.2
            · exfalso
              rw [listGetD_of_le hbl] at hgt
              exact Nat.not_lt_zero _ hgt
            · exact ih _ _ _
                (carveGo_count_invstep hRnd hmem (Nat.lt_of_not_le hbl) hgt hinv) i hi
        · exact ih pz cnt rm hinv i hi
    · rw [if_neg h1]
      exact hinv i hi

theorem restoreBox_eq {size : Nat} {pattern : Nat → Nat → Bool} {solution pz : Board}
    {cnt : List Nat} {bi : Nat} (h : cnt.getD bi 0 ≠ 0) :
    EvenOddSudoku.restoreBox size pattern solution pz cnt bi = (pz, cnt) := by
  unfold EvenOddSudoku.restoreBox
  rw [if_neg (by simpa using h)]

theorem restorePass_go_eq {size : Nat} {pattern : Nat → Nat → Bool} {solution : Board} :
    ∀ (l : List Nat) (pz : Board) (cnt : List Nat),
      (∀ bi ∈ l, cnt.getD bi 0 ≠ 0) →
      l.foldl (fun st bi => EvenOddSudoku.restoreBox size pattern solution st.1 st.2 bi)
        (pz, cnt) = (pz, cnt) := by
  intro l
  induction l with
  | nil =>
    intro pz cnt h
    rfl
  | cons bi rest ih =>
    intro pz cnt h
    rw [List.foldl_cons]
    show rest.foldl _ (EvenOddSudoku.restoreBox size pattern solution pz cnt bi) = (pz, cnt)
    rw [restoreBox_eq (h bi (List.mem_cons_self bi rest))]
    exact ih pz cnt fun b hb => h b (List.mem_cons_of_mem bi hb)

theorem restorePass_eq {size : Nat} {pattern : Nat → Nat → Bool} {solution : Board}
    {pz : Board} {cnt : List Nat} (h : ∀ bi, bi < size → cnt.getD bi 0 ≠ 0) :
    EvenOddSudoku.restorePass size pattern solution pz cnt = (pz, cnt) := by
  unfold EvenOddSudoku.restorePass
  exact restorePass_go_eq (List.range size) pz cnt
    fun bi hbi => h bi (List.mem_range.1 hbi)

theorem evenOdd_isValidMove_intro {size : Nat} {b : Board} {r c n : Nat}
    (hp : (n % 2 == 0) = EvenOddSudoku.isShadedCell r c size)
    (hcl : ClassicSudoku.isValidMove size b r c n = true) :
    EvenOddSudoku.isValidMove size b r c n = true := by
  unfold EvenOddSudoku.isValidMove
  rw [Bool.and_eq_true]
  refine ⟨?_, hcl⟩
  show (!(EvenOddSudoku.isShadedCell r c size && !(n % 2 == 0)) &&
    !(!EvenOddSudoku.isShadedCell r c size && (n % 2 == 0))) = true
  rw [← hp]
  cases he : (n % 2 == 0) <;> rfl

theorem evenOdd4_gen_spec (ns : Nat → List Nat) :
    GoodBoard 4 (EvenOddSudoku.generateCompleteBoard 4 ns) ∧
      EvenOddParityOk 4 (EvenOddSudoku.generateCompleteBoard 4 ns) ∧
      CompleteOn 4 (EvenOddSudoku.generateCompleteBoard 4 ns) := by
  have hE4good : GoodBoard 4 evenOdd4 := goodBoard_of_B (by decide)
  have hE4comp : CompleteOn 4 evenOdd4 := isBoardComplete_iff.1 (by decide)
  have hE4par : EvenOddParityOk 4 evenOdd4 := parityOk_of_B (by decide)
  have hrangeE : ∀ r c, r < 4 → c < 4 → (evenOdd4 r c).getD 0 ∈ candidateVals 4 := by
    have hd : ∀ r ∈ List.range 4, ∀ c ∈ List.range 4,
        (evenOdd4 r c).getD 0 ∈ candidateVals 4 := by decide
    intro r c hr hc
    exact hd r (List.mem_range.2 hr) c (List.mem_range.2 hc)
  have hvalidE : ∀ bb, Extends bb evenOdd4 → ∀ r c, r < 4 → c < 4 → bb r c = none →
      EvenOddSudoku.isValidMove 4 bb r c ((evenOdd4 r c).getD 0) = true := by
    intro bb hext r c hr hc hbe
    have hsome : evenOdd4 r c = some ((evenOdd4 r c).getD 0) :=
      completeOn_some hE4comp hr hc
    apply evenOdd_isValidMove_intro
    · apply hE4par r hr c hc
      rw [hsome]
      exact fun h => Option.noConfusion h
    · exact classic_isValidMove_of_extends (Or.inl rfl) hE4good hext hr hc hbe hsome
  have hext0 : Extends emptyBoard evenOdd4 := fun _ _ _ hv => Option.noConfusion hv
  have hcount : emptyCountIn emptyBoard (allCells 4) < 17 := by decide
  have hsolve := solveWith_complete evenOdd4 hE4comp hrangeE hvalidE 17 emptyBoard
    hext0 hcount
  obtain ⟨b', hb'⟩ := Option.isSome_iff_exists.1 hsolve
  have hloop : EvenOddSudoku.attemptLoop 4 50 = some b' := by
    show (match EvenOddSudoku.solveSudoku 4 (4 * 4 + 1) emptyBoard with
      | some b => some b
      | none => EvenOddSudoku.attemptLoop 4 49) = some b'
    rw [show EvenOddSudoku.solveSudoku 4 (4 * 4 + 1) emptyBoard = some b' from hb']
  have hsound := solveWith_sound (fun bb => GoodBoard 4 bb ∧ EvenOddParityOk 4 bb)
    (fun b r c n hInv _ _ _ hn hv =>
      evenOddInv_setCell hInv.1 hInv.2 (mem_candidateVals.1 hn).1
        (mem_candidateVals.1 hn).2 hv)
    17 emptyBoard b' (emptyBoard_inv 4) hb'
  unfold EvenOddSudoku.generateCompleteBoard
  rw [hloop]
  exact ⟨hsound.1.1, hsound.1.2, hsound.2.1⟩

theorem fillCellsGo_mono {size : Nat} {jr : JigsawSudoku.JigsawRegions}
    {orders : Nat → List Nat} :
    ∀ (l : List (Nat × Nat)) (idx : Nat) (b b' : Board),
      JigsawSudoku.fillCellsGo size jr orders l idx b = some b' →
      ∀ r c, (b r c).isSome → (b' r c).isSome := by
  intro l
  induction l with
  | nil =>
    intro idx b b' h r c hs
    cases h
    exact hs
  | cons rc rest ih =>
    intro idx b b' h r c hs
    obtain ⟨n, _, _, hnext⟩ := exists_of_tryCands_some h
    apply ih (idx + 1) _ b' hnext
    by_cases hq : (r, c) = (rc.1, rc.2)
    · have h1 : r = rc.1 := congrArg Prod.fst hq
      have h2 : c = rc.2 := congrArg Prod.snd hq
      rw [h1, h2, setCell_same]
      rfl
    · rw [setCell_ne _ _ _ _ hq]
      exact hs

theorem fillCellsGo_filled {size : Nat} {jr : JigsawSudoku.JigsawRegions}
    {orders : Nat → List Nat} :
    ∀ (l : List (Nat × Nat)) (idx : Nat) (b b' : Board),
      JigsawSudoku.fillCellsGo size jr orders l idx b = some b' →
      ∀ rc ∈ l, (b' rc.1 rc.2).isSome := by
  intro l
  induction l with
  | nil =>
    intro idx b b' _ rc hm
    cases hm
  | cons rc0 rest ih =>
    intro idx b b' h rc hm
    obtain ⟨n, _, _, hnext⟩ := exists_of_tryCands_some h
    rcases List.mem_cons.1 hm with rfl | hm'
    · apply fillCellsGo_mono rest (idx + 1) _ b' hnext
      rw [setCell_same]
      rfl
    · exact ih (idx + 1) _ b' hnext rc hm'

theorem jigsawAttempts_some {size : Nat} {jr : JigsawSudoku.JigsawRegions}
    {ordersAtt : Nat → Nat → List Nat} {cellOrder : List (Nat × Nat)} :
    ∀ (fuel i : Nat) (b : Board),
      JigsawSudoku.jigsawAttempts size jr ordersAtt cellOrder i fuel = some b →
      ∃ j, JigsawSudoku.fillCellsGo size jr (ordersAtt j) cellOrder 0 emptyBoard =
        some b := by
  intro fuel
  induction fuel with
  | zero =>
    intro i b h
    cases h
  | succ fuel ih =>
    intro i b h
    unfold JigsawSudoku.jigsawAttempts at h
    cases hfill : JigsawSudoku.fillCellsGo size jr (ordersAtt i) cellOrder 0 emptyBoard with
    | some bb =>
      rw [hfill] at h
      cases h
      exact ⟨i, hfill⟩
    | none =>
      rw [hfill] at h
      exact ih (i + 1) b h

theorem jigsaw_gen_complete {size : Nat} (hsz : size = 4 ∨ size = 6 ∨ size = 9)
    {jr : JigsawSudoku.JigsawRegions}
    (hcover : ∀ rc ∈ allCells size, rc ∈ jr.regionCells.flatten)
    {ordersAtt : Nat → Nat → List Nat} {fallbackFirstRow : List Nat}
    (hperm : fallbackFirstRow.Perm (List.range' 1 size)) :
    CompleteOn size
      (JigsawSudoku.generateCompleteBoard size jr ordersAtt fallbackFirstRow) := by
  unfold JigsawSudoku.generateCompleteBoard
  show CompleteOn size (match JigsawSudoku.jigsawAttempts size jr ordersAtt
      jr.regionCells.flatten 0 10 with
    | some b => b
    | none => ClassicSudoku.generateCompleteBoard size fallbackFirstRow)
  cases hmatch : JigsawSudoku.jigsawAttempts size jr ordersAtt
      jr.regionCells.flatten 0 10 with
  | some b =>
    obtain ⟨j, hfill⟩ := jigsawAttempts_some 10 0 b hmatch
    intro r hr c hc
    exact fillCellsGo_filled jr.regionCells.flatten 0 emptyBoard b hfill (r, c)
      (hcover (r, c) (mem_allCells.2 ⟨hr, hc⟩))
  | none =>
    exact (classic_generateCompleteBoard_spec hsz hperm).2

theorem listGetD_map_range {f : Nat → Nat} {n i : Nat} (hi : i < n) :
    ((List.range n).map f).getD i 0 = f i := by
  rw [List.getD_eq_getElem?_getD, List.getElem?_map, List.getElem?_range hi]
  rfl

theorem listGetD_map_range_list {α : Type} {f : Nat → List α} {n i : Nat} (hi : i < n) :
    ((List.range n).map f).getD i [] = f i := by
  rw [List.getD_eq_getElem?_getD, List.getElem?_map, List.getElem?_range hi]
  rfl

theorem regionCells_getD {pattern : List (List Nat)} {size i : Nat} (hi : i < size) :
    (JigsawSudoku.createRegionsFromPattern pattern size).regionCells.getD i [] =
      jigsawRegionCells pattern size i :=
  listGetD_map_range_list hi

theorem astGenAttempts_classic {firstRows : Nat → List Nat} :
    ∀ (fuel start : Nat) (b : Board),
      AsteriskSudoku.genAttempts firstRows start fuel = some b →
      ∃ i, b = ClassicSudoku.generateCompleteBoard 9 (firstRows i) ∧
        AsteriskSudoku.validateAsteriskConstraint b = true := by
  intro fuel
  induction fuel with
  | zero =>
    intro start b h
    cases h
  | succ fuel ih =>
    intro start b h
    have h' : (if AsteriskSudoku.validateAsteriskConstraint
          (ClassicSudoku.generateCompleteBoard 9 (firstRows start)) = true then
        some (ClassicSudoku.generateCompleteBoard 9 (firstRows start))
      else AsteriskSudoku.genAttempts firstRows (start + 1) fuel) = some b := h
    by_cases hv : AsteriskSudoku.validateAsteriskConstraint
        (ClassicSudoku.generateCompleteBoard 9 (firstRows start)) = true
    · rw [if_pos hv] at h'
      cases h'
      exact ⟨start, rfl, hv⟩
    · rw [if_neg hv] at h'
      exact ih (start + 1) b h'

theorem winGenAttempts_classic {firstRows : Nat → List Nat} :
    ∀ (fuel start : Nat) (b : Board),
      WindokuSudoku.genAttempts firstRows start fuel = some b →
      ∃ i, b = ClassicSudoku.generateCompleteBoard 9 (firstRows i) ∧
        WindokuSudoku.validateWindokuConstraint b = true := by
  intro fuel
  induction fuel with
  | zero =>
    intro start b h
    cases h
  | succ fuel ih =>
    intro start b h
    have h' : (if WindokuSudoku.validateWindokuConstraint
          (ClassicSudoku.generateCompleteBoard 9 (firstRows start)) = true then
        some (ClassicSudoku.generateCompleteBoard 9 (firstRows start))
      else WindokuSudoku.genAttempts firstRows (start + 1) fuel) = some b := h
    by_cases hv : WindokuSudoku.validateWindokuConstraint
        (ClassicSudoku.generateCompleteBoard 9 (firstRows start)) = true
    · rw [if_pos hv] at h'
      cases h'
      exact ⟨start, rfl, hv⟩
    · rw [if_neg hv] at h'
      exact ih (start + 1) b h'

theorem ast_gen_spec {firstRows : Nat → List Nat}
    (hperm : ∀ i, (firstRows i).Perm (List.range' 1 9)) :
    GoodBoard 9 (AsteriskSudoku.generateCompleteBoard firstRows) ∧
      CompleteOn 9 (AsteriskSudoku.generateCompleteBoard firstRows) := by
  unfold AsteriskSudoku.generateCompleteBoard
  cases hmatch : AsteriskSudoku.genAttempts firstRows 1 100 with
  | some b =>
    obtain ⟨i, hb, _⟩ := astGenAttempts_classic 100 1 b hmatch
    rw [hb]
    exact classic_generateCompleteBoard_spec (Or.inr (Or.inr rfl)) (hperm i)
  | none =>
    exact classic_generateCompleteBoard_spec (Or.inr (Or.inr rfl)) (hperm 100)

theorem win_gen_spec {firstRows : Nat → List Nat}
    (hperm : ∀ i, (firstRows i).Perm (List.range' 1 9)) :
    GoodBoard 9 (WindokuSudoku.generateCompleteBoard firstRows) ∧
      CompleteOn 9 (WindokuSudoku.generateCompleteBoard firstRows) := by
  unfold WindokuSudoku.generateCompleteBoard
  cases hmatch : WindokuSudoku.genAttempts firstRows 1 100 with
  | some b =>
    obtain ⟨i, hb, _⟩ := winGenAttempts_classic 100 1 b hmatch
    rw [hb]
    exact classic_generateCompleteBoard_spec (Or.inr (Or.inr rfl)) (hperm i)
  | none =>
    exact classic_generateCompleteBoard_spec (Or.inr (Or.inr rfl)) (hperm 100)

theorem evenOdd_validateBoard_of {size : Nat} (hsz : size = 4 ∨ size = 6 ∨ size = 9)
    {b : Board} (hg : GoodBoard size b) (hp : EvenOddParityOk size b) :
    EvenOddSudoku.validateBoard size b = true := by
  unfold EvenOddSudoku.validateBoard EvenOddSudoku.validateBoardPass validatePass
  have h := validateGo_eq_of (fun b' r c n => EvenOddSudoku.isValidMove size b' r c n)
    (allCells size) b ?_
  · rw [h]
  · intro rc hm temp htemp
    obtain ⟨hr, hc⟩ := mem_allCells.1 hm
    apply evenOdd_isValidMove_intro
    · have hpar := hp rc.1 hr rc.2 hc (by rw [htemp]; exact fun h => Option.noConfusion h)
      rw [htemp] at hpar
      exact hpar
    · apply classic_isValidMove_of_extends hsz hg (C := b)
      · intro r' c' w hw
        by_cases hq : (r', c') = (rc.1, rc.2)
        · have h1 : r' = rc.1 := congrArg Prod.fst hq
          have h2 : c' = rc.2 := congrArg Prod.snd hq
          rw [h1, h2, setCell_same] at hw
          cases hw
        · rw [setCell_ne _ _ _ _ hq] at hw
          exact hw
      · exact hr
      · exact hc
      · exact setCell_same b rc.1 rc.2 none
      · exact htemp

theorem jigsawCarve_floor {size k : Nat} {pattern : List (List Nat)}
    (hfloor : ∀ i ∈ List.range size,
      max 1 (size / 3) ≤ (jigsawRegionCells pattern size i).length)
    {solution : Board} (hcomp : CompleteOn size solution)
    (positions : List (Nat × Nat)) :
    ∀ i, i < size →
      max 1 (size / 3) ≤ countFilledIn
        (JigsawSudoku.jigsawCarve (max 1 (size / 3)) k
          (fun r c => JigsawSudoku.labelAt pattern r c) positions solution
          ((List.range size).map fun i =>
            (allCells size).countP fun rc =>
              JigsawSudoku.labelAt pattern rc.1 rc.2 == i) 0).1
        (jigsawRegionCells pattern size i) := by
  intro i hi
  have hRnd : ∀ j, (jigsawRegionCells pattern size j).Nodup :=
    fun j => (allCells_nodup size).filter _
  have hmem : ∀ j, ∀ rc : Nat × Nat, rc ∈ jigsawRegionCells pattern size j →
      (fun r c => JigsawSudoku.labelAt pattern r c) rc.1 rc.2 = j := by
    intro j rc hm
    exact eq_of_beq (List.mem_filter.1 hm).2
  have hinv0 : ∀ j, j < size →
      max 1 (size / 3) ≤ ((List.range size).map fun i =>
          (allCells size).countP fun rc =>
            JigsawSudoku.labelAt pattern rc.1 rc.2 == i).getD j 0 ∧
        ((List.range size).map fun i =>
          (allCells size).countP fun rc =>
            JigsawSudoku.labelAt pattern rc.1 rc.2 == i).getD j 0 ≤
          countFilledIn solution (jigsawRegionCells pattern size j) := by
    intro j hj
    have hc0 : ((List.range size).map fun i =>
        (allCells size).countP fun rc =>
          JigsawSudoku.labelAt pattern rc.1 rc.2 == i).getD j 0 =
        (allCells size).countP fun rc =>
          JigsawSudoku.labelAt pattern rc.1 rc.2 == j := listGetD_map_range hj
    have hlen : ((allCells size).countP fun rc =>
        JigsawSudoku.labelAt pattern rc.1 rc.2 == j) =
        (jigsawRegionCells pattern size j).length := List.countP_eq_length_filter _ _
    have hcf : countFilledIn solution (jigsawRegionCells pattern size j) =
        (jigsawRegionCells pattern size j).length :=
      countFilledIn_complete hcomp fun rc hm => List.mem_of_mem_filter hm
    constructor
    · rw [hc0, hlen]
      exact hfloor j (List.mem_range.2 hj)
    · rw [hc0, hlen, hcf]
  have h := jigsawCarve_count (k := k) (Nat.le_max_left 1 (size / 3)) hRnd hmem positions solution
    ((List.range size).map fun i =>
      (allCells size).countP fun rc =>
        JigsawSudoku.labelAt pattern rc.1 rc.2 == i) 0 hinv0 i hi
  exact le_trans h.1 h.2

theorem okOr_ok {α : Type} (dflt a : α) : okOr dflt (.ok a) = a := rfl

theorem jigsawResult_puzzle (p s : Board) (jr : JigsawSudoku.JigsawRegions) :
    (JigsawSudoku.JigsawResult.mk p s jr).puzzle = p := rfl

theorem jigsawResult_regions (p s : Board) (jr : JigsawSudoku.JigsawRegions) :
    (JigsawSudoku.JigsawResult.mk p s jr).jigsawRegions = jr := rfl

theorem puzzleResult_puzzle (p s : Board) :
    (ClassicSudoku.PuzzleResult.mk p s).puzzle = p := rfl

theorem jigsaw_generatePuzzle_floor {size : Nat} (hsz : size = 6 ∨ size = 9)
    {pattern : List (List Nat)} {d : Difficulty} {idx : Nat}
    {ordersAtt : Nat → Nat → List Nat} {fb : List Nat} {positions : List (Nat × Nat)}
    (hpat : JigsawSudoku.generateJigsawRegions size idx =
      .ok (JigsawSudoku.createRegionsFromPattern pattern size))
    (hcover : ∀ rc ∈ allCells size,
      rc ∈ (JigsawSudoku.createRegionsFromPattern pattern size).regionCells.flatten)
    (hfloor : ∀ i ∈ List.range size,
      max 1 (size / 3) ≤ (jigsawRegionCells pattern size i).length)
    (hperm : fb.Perm (List.range' 1 size)) :
    ∀ i, i < size →
      max 1 (size / 3) ≤ countFilledIn
        (okOr jigsawDefault
          (JigsawSudoku.generatePuzzle size d idx ordersAtt fb positions)).puzzle
        ((okOr jigsawDefault
            (JigsawSudoku.generatePuzzle size d idx ordersAtt
              fb positions)).jigsawRegions.regionCells.getD i []) := by
  intro i hi
  have hne : ¬(size ≠ 6 ∧ size ≠ 9) := by
    rcases hsz with rfl | rfl <;> simp
  have hsz' : size = 4 ∨ size = 6 ∨ size = 9 := by
    rcases hsz with rfl | rfl
    · exact Or.inr (Or.inl rfl)
    · exact Or.inr (Or.inr rfl)
  have hgp : JigsawSudoku.generatePuzzle size d idx ordersAtt fb positions =
      .ok ⟨(JigsawSudoku.jigsawCarve (max 1 (size / 3)) (cellsToRemove size d)
          (fun r c => JigsawSudoku.labelAt
            (JigsawSudoku.createRegionsFromPattern pattern size).regions r c) positions
          (JigsawSudoku.generateCompleteBoard size
            (JigsawSudoku.createRegionsFromPattern pattern size) ordersAtt fb)
          ((List.range size).map fun i =>
            (allCells size).countP fun rc =>
              JigsawSudoku.labelAt
                (JigsawSudoku.createRegionsFromPattern pattern size).regions
                rc.1 rc.2 == i) 0).1,
        JigsawSudoku.generateCompleteBoard size
          (JigsawSudoku.createRegionsFromPattern pattern size) ordersAtt fb,
        JigsawSudoku.createRegionsFromPattern pattern size⟩ := by
    unfold JigsawSudoku.generatePuzzle
    rw [if_neg hne, hpat]
  rw [hgp, okOr_ok, jigsawResult_puzzle, jigsawResult_regions, regionCells_getD hi]
  exact jigsawCarve_floor hfloor (jigsaw_gen_complete hsz' hcover hperm) positions i hi

theorem winW_facts : ∀ i ∈ List.range 4,
    (WindokuSudoku.getWindokuRegions.getD i []).length = 9 ∧
      ∀ rc ∈ WindokuSudoku.getWindokuRegions.getD i [], rc ∈ allCells 9 := by decide

theorem cnt4_getD (j : Nat) : ([0, 0, 0, 0] : List Nat).getD j 0 = 0 := by
  match j with
  | 0 => rfl
  | 1 => rfl
  | 2 => rfl
  | 3 => rfl
  | n + 4 => rfl

theorem ast_generatePuzzle_floor {d : Difficulty} {firstRows : Nat → List Nat}
    {positions : List (Nat × Nat)}
    (hperm : ∀ i, (firstRows i).Perm (List.range' 1 9)) :
    4 ≤ countFilledIn
      (okOr pzDefault (AsteriskSudoku.generatePuzzle 9 d firstRows positions)).puzzle
      AsteriskSudoku.getAsteriskCells := by
  have hgp : AsteriskSudoku.generatePuzzle 9 d firstRows positions =
      .ok ⟨(AsteriskSudoku.astCarve (cellsToRemove 9 d)
          (AsteriskSudoku.getAsteriskCells.length * 6 / 10) positions
          (AsteriskSudoku.generateCompleteBoard firstRows) 0 0).1,
        AsteriskSudoku.generateCompleteBoard firstRows⟩ := by
    unfold AsteriskSudoku.generatePuzzle
    rw [if_neg (by decide)]
  rw [hgp, okOr_ok, puzzleResult_puzzle]
  have hcnt := astCarve_count (k := cellsToRemove 9 d)
    (m := AsteriskSudoku.getAsteriskCells.length * 6 / 10) positions
    (AsteriskSudoku.generateCompleteBoard firstRows) 0 0 (Nat.zero_le _)
  have hfull : countFilledIn (AsteriskSudoku.generateCompleteBoard firstRows)
      AsteriskSudoku.getAsteriskCells = 9 := by
    have hsub : ∀ rc ∈ AsteriskSudoku.getAsteriskCells, rc ∈ allCells 9 :=
      fun rc hm => List.mem_of_mem_filter hm
    rw [countFilledIn_complete (ast_gen_spec hperm).2 hsub]
    decide
  have hm5 : AsteriskSudoku.getAsteriskCells.length * 6 / 10 = 5 := by decide
  omega

theorem win_generatePuzzle_floor {d : Difficulty} {firstRows : Nat → List Nat}
    {positions : List (Nat × Nat)}
    (hperm : ∀ i, (firstRows i).Perm (List.range' 1 9)) :
    ∀ i, i < 4 →
      3 ≤ countFilledIn
        (okOr pzDefault (WindokuSudoku.generatePuzzle 9 d firstRows positions)).puzzle
        (WindokuSudoku.getWindokuRegions.getD i []) := by
  intro i hi
  have hgp : WindokuSudoku.generatePuzzle 9 d firstRows positions =
      .ok ⟨(WindokuSudoku.winCarve (cellsToRemove 9 d) 6 positions
          (WindokuSudoku.generateCompleteBoard firstRows) [0, 0, 0, 0] 0).1,
        WindokuSudoku.generateCompleteBoard firstRows⟩ := by
    unfold WindokuSudoku.generatePuzzle
    rw [if_neg (by decide)]
  rw [hgp, okOr_ok, puzzleResult_puzzle]
  have hcnt := winCarve_count (k := cellsToRemove 9 d) (m := 6) positions
    (WindokuSudoku.generateCompleteBoard firstRows)
    [0, 0, 0, 0] 0 rfl (fun j _ => by rw [cnt4_getD]; decide) i hi
  rw [cnt4_getD] at hcnt
  have hfacts := winW_facts i (List.mem_range.2 hi)
  have hfull : countFilledIn (WindokuSudoku.generateCompleteBoard firstRows)
      (WindokuSudoku.getWindokuRegions.getD i []) = 9 := by
    rw [countFilledIn_complete (win_gen_spec hperm).2 hfacts.2]
    exact hfacts.1
  omega

theorem jigsaw_facts_6_0 :
    (∀ rc ∈ allCells 6, rc ∈ (JigsawSudoku.createRegionsFromPattern
      (JigsawSudoku.patterns6.getD 0 []) 6).regionCells.flatten) ∧
    ∀ i ∈ List.range 6, max 1 (6 / 3) ≤
      (jigsawRegionCells (JigsawSudoku.patterns6.getD 0 []) 6 i).length := by decide

theorem jigsaw_facts_6_1 :
    (∀ rc ∈ allCells 6, rc ∈ (JigsawSudoku.createRegionsFromPattern
      (JigsawSudoku.patterns6.getD 1 []) 6).regionCells.flatten) ∧
    ∀ i ∈ List.range 6, max 1 (6 / 3) ≤
      (jigsawRegionCells (JigsawSudoku.patterns6.getD 1 []) 6 i).length := by decide

theorem jigsaw_facts_6_2 :
    (∀ rc ∈ allCells 6, rc ∈ (JigsawSudoku.createRegionsFromPattern
      (JigsawSudoku.patterns6.getD 2 []) 6).regionCells.flatten) ∧
    ∀ i ∈ List.range 6, max 1 (6 / 3) ≤
      (jigsawRegionCells (JigsawSudoku.patterns6.getD 2 []) 6 i).length := by decide

theorem jigsaw_facts_9_0 :
    (∀ rc ∈ allCells 9, rc ∈ (JigsawSudoku.createRegionsFromPattern
      (JigsawSudoku.patterns9.getD 0 []) 9).regionCells.flatten) ∧
    ∀ i ∈ List.range 9, max 1 (9 / 3) ≤
      (jigsawRegionCells (JigsawSudoku.patterns9.getD 0 []) 9 i).length := by decide

theorem jigsaw_facts_9_1 :
    (∀ rc ∈ allCells 9, rc ∈ (JigsawSudoku.createRegionsFromPattern
      (JigsawSudoku.patterns9.getD 1 []) 9).regionCells.flatten) ∧
    ∀ i ∈ List.range 9, max 1 (9 / 3) ≤
      (jigsawRegionCells (JigsawSudoku.patterns9.getD 1 []) 9 i).length := by decide

theorem jigsaw_facts_9_2 :
    (∀ rc ∈ allCells 9, rc ∈ (JigsawSudoku.createRegionsFromPattern
      (JigsawSudoku.patterns9.getD 2 []) 9).regionCells.flatten) ∧
    ∀ i ∈ List.range 9, max 1 (9 / 3) ≤
      (jigsawRegionCells (JigsawSudoku.patterns9.getD 2 []) 9 i).length := by decide

/-- C4: every puzzle returned by a variant's `generatePuzzle` honours its
carving floor: asterisk puzzles keep at least 4 of the 9 asterisk cells
filled, windoku puzzles keep at least 3 clues in each of the 4 fixed 3×3
windows, and jigsaw puzzles keep at least `max(1, ⌊size / 3⌋)` clues in
every region — over all difficulties, removal orders, pattern choices and
(permutation) shuffle outcomes. -/
theorem claim_C4 :
    (∀ (d : Difficulty) (firstRows : Nat → List Nat) (positions : List (Nat × Nat)),
      (∀ i, (firstRows i).Perm (List.range' 1 9)) →
      4 ≤ countFilledIn
        (okOr pzDefault (AsteriskSudoku.generatePuzzle 9 d firstRows positions)).puzzle
        AsteriskSudoku.getAsteriskCells) ∧
    (∀ (d : Difficulty) (firstRows : Nat → List Nat) (positions : List (Nat × Nat)),
      (∀ i, (firstRows i).Perm (List.range' 1 9)) →
      ∀ i, i < 4 → 3 ≤ countFilledIn
        (okOr pzDefault (WindokuSudoku.generatePuzzle 9 d firstRows positions)).puzzle
        (WindokuSudoku.getWindokuRegions.getD i [])) ∧
    ∀ size, size = 6 ∨ size = 9 →
      ∀ (d : Difficulty) (idx : Nat) (ordersAtt : Nat → Nat → List Nat)
        (fb : List Nat) (positions : List (Nat × Nat)),
        fb.Perm (List.range' 1 size) →
        ∀ i, i < size → max 1 (size / 3) ≤ countFilledIn
          (okOr jigsawDefault
            (JigsawSudoku.generatePuzzle size d idx ordersAtt fb positions)).puzzle
          ((okOr jigsawDefault
              (JigsawSudoku.generatePuzzle size d idx ordersAtt
                fb positions)).jigsawRegions.regionCells.getD i []) := by
  refine ⟨fun d fr pos hperm => ast_generatePuzzle_floor hperm,
    fun d fr pos hperm => win_generatePuzzle_floor hperm, ?_⟩
  intro size hsz d idx ordersAtt fb positions hperm i hi
  rcases hsz with rfl | rfl
  · have hpat0 : JigsawSudoku.generateJigsawRegions 6 idx = .ok
        (JigsawSudoku.createRegionsFromPattern
          (JigsawSudoku.patterns6.getD (idx % 3) []) 6) := rfl
    have h3 : idx % 3 = 0 ∨ idx % 3 = 1 ∨ idx % 3 = 2 := by omega
    rcases h3 with h | h | h <;> rw [h] at hpat0
    · exact jigsaw_generatePuzzle_floor (Or.inl rfl) hpat0 jigsaw_facts_6_0.1
        jigsaw_facts_6_0.2 hperm i hi
    · exact jigsaw_generatePuzzle_floor (Or.inl rfl) hpat0 jigsaw_facts_6_1.1
        jigsaw_facts_6_1.2 hperm i hi
    · exact jigsaw_generatePuzzle_floor (Or.inl rfl) hpat0 jigsaw_facts_6_2.1
        jigsaw_facts_6_2.2 hperm i hi
  · have hpat0 : JigsawSudoku.generateJigsawRegions 9 idx = .ok
        (JigsawSudoku.createRegionsFromPattern
          (JigsawSudoku.patterns9.getD (idx % 3) []) 9) := rfl
    have h3 : idx % 3 = 0 ∨ idx % 3 = 1 ∨ idx % 3 = 2 := by omega
    rcases h3 with h | h | h <;> rw [h] at hpat0
    · exact jigsaw_generatePuzzle_floor (Or.inr rfl) hpat0 jigsaw_facts_9_0.1
        jigsaw_facts_9_0.2 hperm i hi
    · exact jigsaw_generatePuzzle_floor (Or.inr rfl) hpat0 jigsaw_facts_9_1.1
        jigsaw_facts_9_1.2 hperm i hi
    · exact jigsaw_generatePuzzle_floor (Or.inr rfl) hpat0 jigsaw_facts_9_2.1
        jigsaw_facts_9_2.2 hperm i hi

/-- Witness for C4 at concrete random outcomes. -/
theorem claim_C4_witness :
    (∀ i : Nat, ([1, 2, 3, 4, 5, 6, 7, 8, 9] : List Nat).Perm (List.range' 1 9)) ∧
    ([1, 2, 3, 4, 5, 6] : List Nat).Perm (List.range' 1 6) ∧
    (0 : Nat) < 4 ∧ (0 : Nat) < 6 ∧
    (4 ≤ countFilledIn (okOr pzDefault (AsteriskSudoku.generatePuzzle 9 .easy
      (fun _ => [1, 2, 3, 4, 5, 6, 7, 8, 9]) [])).puzzle
      AsteriskSudoku.getAsteriskCells) ∧
    (3 ≤ countFilledIn (okOr pzDefault (WindokuSudoku.generatePuzzle 9 .easy
      (fun _ => [1, 2, 3, 4, 5, 6, 7, 8, 9]) [])).puzzle
      (WindokuSudoku.getWindokuRegions.getD 0 [])) ∧
    max 1 (6 / 3) ≤ countFilledIn (okOr jigsawDefault (JigsawSudoku.generatePuzzle 6
      .easy 0 (fun _ _ => []) [1, 2, 3, 4, 5, 6] [])).puzzle
      ((okOr jigsawDefault (JigsawSudoku.generatePuzzle 6 .easy 0
        (fun _ _ => []) [1, 2, 3, 4, 5, 6] [])).jigsawRegions.regionCells.getD 0 []) :=
  ⟨fun i => by decide, by decide, by decide, by decide,
   claim_C4.1 .easy (fun _ => [1, 2, 3, 4, 5, 6, 7, 8, 9]) []
     (fun i => (by decide : ([1, 2, 3, 4, 5, 6, 7, 8, 9] : List Nat).Perm
       (List.range' 1 9))),
   claim_C4.2.1 .easy (fun _ => [1, 2, 3, 4, 5, 6, 7, 8, 9]) []
     (fun i => (by decide : ([1, 2, 3, 4, 5, 6, 7, 8, 9] : List Nat).Perm
       (List.range' 1 9)))
     0 (by decide),
   claim_C4.2.2 6 (Or.inl rfl) .easy 0 (fun _ _ => []) [1, 2, 3, 4, 5, 6] []
     (by decide) 0 (by decide)⟩

/-- C5 (as implemented): the even-odd carver's per-box floor is
`max(1, ⌊size / 3⌋)` — not the spec's `max(2, ⌊size / 4⌋)` — and at size 4
(where generation provably completes) no box of the returned puzzle is
ever left below that floor; the restoration pass only acts on boxes whose
counter reached zero, which under the floor never happens. -/
theorem claim_C5 :
    (∀ size, EvenOddSudoku.minCluesPerBox size = max 1 (size / 3)) ∧
    ∀ (d : Difficulty) (ns : Nat → List Nat) (positions : List (Nat × Nat)),
      ∀ i, i < 4 →
        EvenOddSudoku.minCluesPerBox 4 ≤
          countFilledIn (EvenOddSudoku.generatePuzzle 4 d ns positions).puzzle
            (evenOddBoxCells 4 i) := by
  refine ⟨fun _ => rfl, ?_⟩
  intro d ns positions i hi
  show EvenOddSudoku.minCluesPerBox 4 ≤ countFilledIn
      (EvenOddSudoku.restorePass 4 (EvenOddSudoku.getEvenOddPattern 4)
        (EvenOddSudoku.generateCompleteBoard 4 ns)
        (EvenOddSudoku.carveGo 4 (cellsToRemove 4 d) (EvenOddSudoku.getEvenOddPattern 4)
          positions (EvenOddSudoku.generateCompleteBoard 4 ns)
          (EvenOddSudoku.initialCounters 4) 0).1
        (EvenOddSudoku.carveGo 4 (cellsToRemove 4 d) (EvenOddSudoku.getEvenOddPattern 4)
          positions (EvenOddSudoku.generateCompleteBoard 4 ns)
          (EvenOddSudoku.initialCounters 4) 0).2).1
      (evenOddBoxCells 4 i)
  have hRnd : ∀ j, (evenOddBoxCells 4 j).Nodup := fun j => (allCells_nodup 4).filter _
  have hmem : ∀ j, ∀ rc : Nat × Nat, rc ∈ evenOddBoxCells 4 j →
      EvenOddSudoku.boxIndexOf 4 rc.1 rc.2 = j :=
    fun j rc hm => eq_of_beq (List.mem_filter.1 hm).2
  have hcomp := (evenOdd4_gen_spec ns).2.2
  have hfloor : ∀ j ∈ List.range 4, EvenOddSudoku.minCluesPerBox 4 ≤
      (allCells 4).countP fun rc => EvenOddSudoku.boxIndexOf 4 rc.1 rc.2 == j := by decide
  have hinv0 : ∀ j, j < 4 → EvenOddSudoku.minCluesPerBox 4 ≤
      (EvenOddSudoku.initialCounters 4).getD j 0 ∧
      (EvenOddSudoku.initialCounters 4).getD j 0 ≤
        countFilledIn (EvenOddSudoku.generateCompleteBoard 4 ns)
          (evenOddBoxCells 4 j) := by
    intro j hj
    have hc0 : (EvenOddSudoku.initialCounters 4).getD j 0 =
        (allCells 4).countP fun rc => EvenOddSudoku.boxIndexOf 4 rc.1 rc.2 == j :=
      listGetD_map_range hj
    have hlen : ((allCells 4).countP fun rc =>
        EvenOddSudoku.boxIndexOf 4 rc.1 rc.2 == j) = (evenOddBoxCells 4 j).length :=
      List.countP_eq_length_filter _ _
    have hcf : countFilledIn (EvenOddSudoku.generateCompleteBoard 4 ns)
        (evenOddBoxCells 4 j) = (evenOddBoxCells 4 j).length :=
      countFilledIn_complete hcomp fun rc hm => List.mem_of_mem_filter hm
    refine ⟨?_, ?_⟩
    · rw [hc0]
      exact hfloor j (List.mem_range.2 hj)
    · rw [hc0, hlen, hcf]
  have hinv := @carveGo_count 4 (cellsToRemove 4 d) (EvenOddSudoku.getEvenOddPattern 4)
    (evenOddBoxCells 4) hRnd hmem positions (EvenOddSudoku.generateCompleteBoard 4 ns)
    (EvenOddSudoku.initialCounters 4) 0 hinv0
  have hfin := hinv i hi
  have hm1 : 1 ≤ EvenOddSudoku.minCluesPerBox 4 := Nat.le_max_left 1 (4 / 3)
  have hne0 : ∀ bi, bi < 4 →
      (EvenOddSudoku.carveGo 4 (cellsToRemove 4 d) (EvenOddSudoku.getEvenOddPattern 4)
        positions (EvenOddSudoku.generateCompleteBoard 4 ns)
        (EvenOddSudoku.initialCounters 4) 0).2.getD bi 0 ≠ 0 := by
    intro bi hbi
    have h1 := (hinv bi hbi).1
    omega
  rw [restorePass_eq hne0]
  exact le_trans hfin.1 hfin.2

/-- C5 counterexample to the specified floor `max(2, ⌊size / 4⌋)`: a
size-4 even-odd run (removal order scanning the grid row-major) leaves
box 0 with a single clue, below the spec's floor of 2. -/
theorem claim_C5_counterexample :
    countFilledIn (EvenOddSudoku.generatePuzzle 4 .easy (fun _ => []) (allCells 4)).puzzle
        (evenOddBoxCells 4 0) = 1 ∧ 1 < max 2 (4 / 4) := by decide

/-- Witness for C5 at a concrete input. -/
theorem claim_C5_witness :
    (0 : Nat) < 4 ∧
    EvenOddSudoku.minCluesPerBox 4 ≤
      countFilledIn (EvenOddSudoku.generatePuzzle 4 .easy (fun _ => []) []).puzzle
        (evenOddBoxCells 4 0) :=
  ⟨by decide, claim_C5.2 .easy (fun _ => []) [] 0 (by decide)⟩

theorem puzzleResult_solution (p s : Board) :
    (ClassicSudoku.PuzzleResult.mk p s).solution = s := rfl

theorem jigsawResult_solution (p s : Board) (jr : JigsawSudoku.JigsawRegions) :
    (JigsawSudoku.JigsawResult.mk p s jr).solution = s := rfl

theorem jigsaw_extends_ok {size : Nat} (hsz : size = 6 ∨ size = 9)
    {pattern : List (List Nat)} {d : Difficulty} {idx : Nat}
    {ordersAtt : Nat → Nat → List Nat} {fb : List Nat} {positions : List (Nat × Nat)}
    (hpat : JigsawSudoku.generateJigsawRegions size idx =
      .ok (JigsawSudoku.createRegionsFromPattern pattern size)) :
    Extends
      (okOr jigsawDefault
        (JigsawSudoku.generatePuzzle size d idx ordersAtt fb positions)).puzzle
      (okOr jigsawDefault
        (JigsawSudoku.generatePuzzle size d idx ordersAtt fb positions)).solution := by
  have hne : ¬(size ≠ 6 ∧ size ≠ 9) := by
    rcases hsz with rfl | rfl <;> simp
  have hgp : JigsawSudoku.generatePuzzle size d idx ordersAtt fb positions =
      .ok ⟨(JigsawSudoku.jigsawCarve (max 1 (size / 3)) (cellsToRemove size d)
          (fun r c => JigsawSudoku.labelAt
            (JigsawSudoku.createRegionsFromPattern pattern size).regions r c) positions
          (JigsawSudoku.generateCompleteBoard size
            (JigsawSudoku.createRegionsFromPattern pattern size) ordersAtt fb)
          ((List.range size).map fun i =>
            (allCells size).countP fun rc =>
              JigsawSudoku.labelAt
                (JigsawSudoku.createRegionsFromPattern pattern size).regions
                rc.1 rc.2 == i) 0).1,
        JigsawSudoku.generateCompleteBoard size
          (JigsawSudoku.createRegionsFromPattern pattern size) ordersAtt fb,
        JigsawSudoku.createRegionsFromPattern pattern size⟩ := by
    unfold JigsawSudoku.generatePuzzle
    rw [if_neg hne, hpat]
  rw [hgp, okOr_ok, jigsawResult_puzzle, jigsawResult_solution]
  exact jigsawCarve_extends _ _ _ _

/-- C3: every filled cell of a generated puzzle equals the cell at the
same position of its paired solution, for all six variants, sizes,
difficulties and random outcomes (including clues re-inserted by the
even-odd restoration pass, which copies solution values). -/
theorem claim_C3 :
    (∀ (size : Nat) (d : Difficulty) (firstRow : List Nat)
        (positions : List (Nat × Nat)),
      Extends (ClassicSudoku.generatePuzzle size d firstRow positions).puzzle
        (ClassicSudoku.generatePuzzle size d firstRow positions).solution) ∧
    (∀ (size : Nat) (d : Difficulty) (firstRow : List Nat)
        (hcoin vcoin : Nat → Nat → Bool) (positions : List (Nat × Nat)),
      Extends
        (ConsecutiveSudoku.generatePuzzle size d firstRow hcoin vcoin positions).puzzle
        (ConsecutiveSudoku.generatePuzzle size d firstRow hcoin vcoin
          positions).solution) ∧
    (∀ (size : Nat) (d : Difficulty) (ns : Nat → List Nat)
        (positions : List (Nat × Nat)),
      Extends (EvenOddSudoku.generatePuzzle size d ns positions).puzzle
        (EvenOddSudoku.generatePuzzle size d ns positions).solution) ∧
    (∀ (size : Nat) (d : Difficulty) (firstRows : Nat → List Nat)
        (positions : List (Nat × Nat)),
      Extends
        (okOr pzDefault (AsteriskSudoku.generatePuzzle size d firstRows positions)).puzzle
        (okOr pzDefault
          (AsteriskSudoku.generatePuzzle size d firstRows positions)).solution) ∧
    (∀ (size : Nat) (d : Difficulty) (firstRows : Nat → List Nat)
        (positions : List (Nat × Nat)),
      Extends
        (okOr pzDefault (WindokuSudoku.generatePuzzle size d firstRows positions)).puzzle
        (okOr pzDefault
          (WindokuSudoku.generatePuzzle size d firstRows positions)).solution) ∧
    ∀ (size : Nat) (d : Difficulty) (idx : Nat) (ordersAtt : Nat → Nat → List Nat)
        (fb : List Nat) (positions : List (Nat × Nat)),
      Extends
        (okOr jigsawDefault
          (JigsawSudoku.generatePuzzle size d idx ordersAtt fb positions)).puzzle
        (okOr jigsawDefault
          (JigsawSudoku.generatePuzzle size d idx ordersAtt fb positions)).solution := by
  refine ⟨?_, ?_, ?_, ?_, ?_, ?_⟩
  · intro size d firstRow positions
    exact removeCells_extends _ _
  · intro size d firstRow hcoin vcoin positions
    exact removeCells_extends _ _
  · intro size d ns positions
    show Extends
      (EvenOddSudoku.restorePass size (EvenOddSudoku.getEvenOddPattern size)
        (EvenOddSudoku.generateCompleteBoard size ns)
        (EvenOddSudoku.carveGo size (cellsToRemove size d)
          (EvenOddSudoku.getEvenOddPattern size) positions
          (EvenOddSudoku.generateCompleteBoard size ns)
          (EvenOddSudoku.initialCounters size) 0).1
        (EvenOddSudoku.carveGo size (cellsToRemove size d)
          (EvenOddSudoku.getEvenOddPattern size) positions
          (EvenOddSudoku.generateCompleteBoard size ns)
          (EvenOddSudoku.initialCounters size) 0).2).1
      (EvenOddSudoku.generateCompleteBoard size ns)
    exact restorePass_sub (List.range size) _ _ (carveGo_extends _ _ _ _)
  · intro size d firstRows positions
    by_cases h9 : size = 9
    · subst h9
      have hgp : AsteriskSudoku.generatePuzzle 9 d firstRows positions =
          .ok ⟨(AsteriskSudoku.astCarve (cellsToRemove 9 d)
              (AsteriskSudoku.getAsteriskCells.length * 6 / 10) positions
              (AsteriskSudoku.generateCompleteBoard firstRows) 0 0).1,
            AsteriskSudoku.generateCompleteBoard firstRows⟩ := by
        unfold AsteriskSudoku.generatePuzzle
        rw [if_neg (by decide)]
      rw [hgp, okOr_ok, puzzleResult_puzzle, puzzleResult_solution]
      exact astCarve_extends _ _ _ _
    · have hgp : AsteriskSudoku.generatePuzzle size d firstRows positions =
          .error ("Asterisk Sudoku is only available in 9x9 size") := by
        unfold AsteriskSudoku.generatePuzzle
        rw [if_pos h9]
      rw [hgp]
      exact extends_refl emptyBoard
  · intro size d firstRows positions
    by_cases h9 : size = 9
    · subst h9
      have hgp : WindokuSudoku.generatePuzzle 9 d firstRows positions =
          .ok ⟨(WindokuSudoku.winCarve (cellsToRemove 9 d) 6 positions
              (WindokuSudoku.generateCompleteBoard firstRows) [0, 0, 0, 0] 0).1,
            WindokuSudoku.generateCompleteBoard firstRows⟩ := by
        unfold WindokuSudoku.generatePuzzle
        rw [if_neg (by decide)]
      rw [hgp, okOr_ok, puzzleResult_puzzle, puzzleResult_solution]
      exact winCarve_extends _ _ _ _
    · have hgp : WindokuSudoku.generatePuzzle size d firstRows positions =
          .error ("Windoku Sudoku is only available in 9x9 size") := by
        unfold WindokuSudoku.generatePuzzle
        rw [if_pos h9]
      rw [hgp]
      exact extends_refl emptyBoard
  · intro size d idx ordersAtt fb positions
    by_cases h69 : size ≠ 6 ∧ size ≠ 9
    · have hgp : JigsawSudoku.generatePuzzle size d idx ordersAtt fb positions =
          .error ("Jigsaw Sudoku only supports 6x6 and 9x9 sizes") := by
        unfold JigsawSudoku.generatePuzzle
        rw [if_pos h69]
      rw [hgp]
      exact extends_refl emptyBoard
    · have hsz : size = 6 ∨ size = 9 := by
        rcases Decidable.not_and_iff_or_not.1 h69 with h | h
        · exact Or.inl (Decidable.not_not.1 h)
        · exact Or.inr (Decidable.not_not.1 h)
      rcases hsz with rfl | rfl
      · have hpat0 : JigsawSudoku.generateJigsawRegions 6 idx = .ok
            (JigsawSudoku.createRegionsFromPattern
              (JigsawSudoku.patterns6.getD (idx % 3) []) 6) := rfl
        exact jigsaw_extends_ok (Or.inl rfl) hpat0
      · have hpat0 : JigsawSudoku.generateJigsawRegions 9 idx = .ok
            (JigsawSudoku.createRegionsFromPattern
              (JigsawSudoku.patterns9.getD (idx % 3) []) 9) := rfl
        exact jigsaw_extends_ok (Or.inr rfl) hpat0

/-- C6 (as implemented): for both supported sizes and every selectable
pattern, the labelled regions partition the board — every cell lies in
exactly one `regionCells` list — but the regions do not all have exactly
`N` cells (see the counterexample). -/
theorem claim_C6 :
    (∀ idx : Nat, ∀ rc ∈ allCells 6,
      ((List.range 6).countP fun i =>
        ((JigsawSudoku.generate6x6Regions idx).regionCells.getD i []).contains rc) = 1) ∧
    ∀ idx : Nat, ∀ rc ∈ allCells 9,
      ((List.range 9).countP fun i =>
        ((JigsawSudoku.generate9x9Regions idx).regionCells.getD i []).contains rc) = 1 := by
  constructor
  · intro idx
    have hj : JigsawSudoku.generate6x6Regions idx =
        JigsawSudoku.createRegionsFromPattern
          (JigsawSudoku.patterns6.getD (idx % 3) []) 6 := rfl
    have h3 : idx % 3 = 0 ∨ idx % 3 = 1 ∨ idx % 3 = 2 := by omega
    rcases h3 with h | h | h <;> rw [hj, h] <;> decide
  · intro idx
    have hj : JigsawSudoku.generate9x9Regions idx =
        JigsawSudoku.createRegionsFromPattern
          (JigsawSudoku.patterns9.getD (idx % 3) []) 9 := rfl
    have h3 : idx % 3 = 0 ∨ idx % 3 = 1 ∨ idx % 3 = 2 := by omega
    rcases h3 with h | h | h <;> rw [hj, h] <;> decide

/-- C6 counterexample: in the first 9×9 pattern, region 3 has 10 cells,
not 9 — the "exactly N cells per region" part of the claim is false. -/
theorem claim_C6_counterexample :
    ((JigsawSudoku.generate9x9Regions 0).regionCells.getD 3 []).length = 10 ∧
      (10 : Nat) ≠ 9 := by decide

/-- Witness for C6 at a concrete cell. -/
theorem claim_C6_witness :
    ((0, 0) : Nat × Nat) ∈ allCells 6 ∧
    ((List.range 6).countP fun i =>
      ((JigsawSudoku.generate6x6Regions 0).regionCells.getD i []).contains
        ((0, 0) : Nat × Nat)) = 1 :=
  ⟨by decide, claim_C6.1 0 (0, 0) (by decide)⟩

/-- C7: the consecutive two-sided neighbour rule.  The concrete scenario
of the specification holds, and in general any accepted move must have
`mark = consecutive` against every filled orthogonal neighbour. -/
theorem claim_C7 :
    (ConsecutiveSudoku.isValidMove 4 c7Board 0 1 4 (some c7Marked) = true ∧
     ConsecutiveSudoku.isValidMove 4 c7Board 0 1 6 (some c7Marked) = false ∧
     ConsecutiveSudoku.isValidMove 4 c7Board 0 1 4 (some c7Unmarked) = false ∧
     ConsecutiveSudoku.isValidMove 4 c7Board 0 1 6 (some c7Unmarked) = true) ∧
    ∀ (size : Nat) (b : Board) (row col num : Nat)
      (cs : ConsecutiveSudoku.ConsecutiveConstraints),
      ConsecutiveSudoku.isValidMove size b row col num (some cs) = true →
      (∀ v, 0 < col → b row (col - 1) = some v →
        cs.horizontal row (col - 1) = ConsecutiveSudoku.isConsecutiveB v num) ∧
      (∀ v, col < size - 1 → b row (col + 1) = some v →
        cs.horizontal row col = ConsecutiveSudoku.isConsecutiveB v num) ∧
      (∀ v, 0 < row → b (row - 1) col = some v →
        cs.vertical (row - 1) col = ConsecutiveSudoku.isConsecutiveB v num) ∧
      (∀ v, row < size - 1 → b (row + 1) col = some v →
        cs.vertical row col = ConsecutiveSudoku.isConsecutiveB v num) := by
  refine ⟨by decide, ?_⟩
  intro size b row col num cs h
  unfold ConsecutiveSudoku.isValidMove at h
  rw [Bool.and_eq_true] at h
  have hrest := h.2
  simp only [Bool.and_eq_true] at hrest
  obtain ⟨⟨⟨h1, h2⟩, h3⟩, h4⟩ := hrest
  refine ⟨?_, ?_, ?_, ?_⟩
  · intro v h0 hbv
    rw [if_pos h0, hbv] at h1
    exact eq_of_beq h1
  · intro v h0 hbv
    rw [if_pos h0, hbv] at h2
    exact eq_of_beq h2
  · intro v h0 hbv
    rw [if_pos h0, hbv] at h3
    exact eq_of_beq h3
  · intro v h0 hbv
    rw [if_pos h0, hbv] at h4
    exact eq_of_beq h4

/-- Witness for C7: the general neighbour rule applied to the scenario. -/
theorem claim_C7_witness :
    ConsecutiveSudoku.isValidMove 4 c7Board 0 1 4 (some c7Marked) = true ∧
    (0 : Nat) < 1 ∧ c7Board 0 0 = some 3 ∧
    c7Marked.horizontal 0 0 = ConsecutiveSudoku.isConsecutiveB 3 4 :=
  ⟨by decide, by decide, by decide,
   (claim_C7.2 4 c7Board 0 1 4 c7Marked (by decide)).1 3 (by decide) (by decide)⟩

/-- C9: the asterisk and windoku generators throw exactly when
`size ≠ 9`, and the jigsaw generator exactly when `size ∉ {6, 9}`; for
supported sizes each returns a result. -/
theorem claim_C9 :
    ∀ (size : Nat) (d : Difficulty) (firstRows : Nat → List Nat) (idx : Nat)
      (ordersAtt : Nat → Nat → List Nat) (fb : List Nat) (positions : List (Nat × Nat)),
      exceptIsOk (AsteriskSudoku.generatePuzzle size d firstRows positions) =
        decide (size = 9) ∧
      exceptIsOk (WindokuSudoku.generatePuzzle size d firstRows positions) =
        decide (size = 9) ∧
      exceptIsOk (JigsawSudoku.generatePuzzle size d idx ordersAtt fb positions) =
        (decide (size = 6) || decide (size = 9)) := by
  intro size d firstRows idx ordersAtt fb positions
  refine ⟨?_, ?_, ?_⟩
  · by_cases h9 : size = 9
    · subst h9
      unfold AsteriskSudoku.generatePuzzle
      rw [if_neg (by decide)]
      rfl
    · unfold AsteriskSudoku.generatePuzzle
      rw [if_pos h9, decide_eq_false h9]
      rfl
  · by_cases h9 : size = 9
    · subst h9
      unfold WindokuSudoku.generatePuzzle
      rw [if_neg (by decide)]
      rfl
    · unfold WindokuSudoku.generatePuzzle
      rw [if_pos h9, decide_eq_false h9]
      rfl
  · by_cases h69 : size ≠ 6 ∧ size ≠ 9
    · unfold JigsawSudoku.generatePuzzle
      rw [if_pos h69, decide_eq_false h69.1, decide_eq_false h69.2]
      rfl
    · have hsz : size = 6 ∨ size = 9 := by
        rcases Decidable.not_and_iff_or_not.1 h69 with h | h
        · exact Or.inl (Decidable.not_not.1 h)
        · exact Or.inr (Decidable.not_not.1 h)
      rcases hsz with rfl | rfl
      · unfold JigsawSudoku.generatePuzzle
        rw [if_neg h69]
        have hpat0 : JigsawSudoku.generateJigsawRegions 6 idx = .ok
            (JigsawSudoku.createRegionsFromPattern
              (JigsawSudoku.patterns6.getD (idx % 3) []) 6) := rfl
        rw [hpat0]
        rfl
      · unfold JigsawSudoku.generatePuzzle
        rw [if_neg h69]
        have hpat0 : JigsawSudoku.generateJigsawRegions 9 idx = .ok
            (JigsawSudoku.createRegionsFromPattern
              (JigsawSudoku.patterns9.getD (idx % 3) []) 9) := rfl
        rw [hpat0]
        rfl

/-- C10: every variant's `validateBoard` restores each temporarily
cleared cell on both result paths: the board state after validation
equals the board at entry. -/
theorem claim_C10 :
    ∀ (size : Nat) (b : Board) (cs : Option ConsecutiveSudoku.ConsecutiveConstraints)
      (jr : JigsawSudoku.JigsawRegions),
      (ClassicSudoku.validateBoardPass size b).2 = b ∧
      (ConsecutiveSudoku.validateBoardPass size b cs).2 = b ∧
      (EvenOddSudoku.validateBoardPass size b).2 = b ∧
      (JigsawSudoku.validateBoardPass size b jr).2 = b ∧
      (AsteriskSudoku.validateBoardPass b).2 = b ∧
      (WindokuSudoku.validateBoardPass b).2 = b := by
  intro size b cs jr
  refine ⟨validateGo_snd _ _ b, validateGo_snd _ _ b, validateGo_snd _ _ b,
    validateGo_snd _ _ b, ?_, ?_⟩
  · show (ClassicSudoku.validateBoardPass 9 b).2 = b
    exact validateGo_snd _ _ b
  · show (ClassicSudoku.validateBoardPass 9 b).2 = b
    exact validateGo_snd _ _ b

/-- C2 fails for the even-odd variant at size 9: the shading pattern
makes a complete parity-respecting board impossible, every solver attempt
fails, and the fallback path leaves cell (0,3) empty, so the returned
board is not complete (for every in-range shuffle outcome). -/
theorem claim_C2 :
    ∀ ns : Nat → List Nat, (∀ i, ∀ n ∈ ns i, 1 ≤ n ∧ n ≤ 9) →
      EvenOddSudoku.isBoardComplete 9 (EvenOddSudoku.generateCompleteBoard 9 ns) =
        false := by
  intro ns hnums
  have h03 := evenOdd9_generateCompleteBoard_incomplete hnums
  cases hb : EvenOddSudoku.isBoardComplete 9 (EvenOddSudoku.generateCompleteBoard 9 ns) with
  | false => rfl
  | true =>
    exfalso
    have h' : (EvenOddSudoku.generateCompleteBoard 9 ns 0 3).isSome = true :=
      List.all_eq_true.1 hb ((0, 3) : Nat × Nat) (by decide)
    rw [h03] at h'
    cases h'

/-- Witness for C2 at a concrete shuffle outcome. -/
theorem claim_C2_witness :
    (∀ n ∈ ([1, 2, 3, 4, 5, 6, 7, 8, 9] : List Nat), 1 ≤ n ∧ n ≤ 9) ∧
    EvenOddSudoku.isBoardComplete 9
      (EvenOddSudoku.generateCompleteBoard 9 (fun _ => [1, 2, 3, 4, 5, 6, 7, 8, 9])) =
      false :=
  ⟨by decide, claim_C2 (fun _ => [1, 2, 3, 4, 5, 6, 7, 8, 9])
    (fun i => (by decide : ∀ n ∈ ([1, 2, 3, 4, 5, 6, 7, 8, 9] : List Nat),
      1 ≤ n ∧ n ≤ 9))⟩

/-- C8: every classic run at size 4, difficulty easy, removes exactly
`⌊16 × 0.4⌋ = 6` of the 16 cells, leaving a puzzle with exactly 10 filled
cells, and the paired solution is completely filled and valid under the
row/column/2×2-box rules — for every shuffle outcome. -/
theorem claim_C8 :
    ∀ (firstRow : List Nat) (positions : List (Nat × Nat)),
      firstRow.Perm (List.range' 1 4) → positions.Perm (allCells 4) →
      countFilledIn (ClassicSudoku.generatePuzzle 4 .easy firstRow positions).puzzle
          (allCells 4) = 10 ∧
      ClassicSudoku.isBoardComplete 4
          (ClassicSudoku.generatePuzzle 4 .easy firstRow positions).solution = true ∧
      ClassicSudoku.validateBoard 4
          (ClassicSudoku.generatePuzzle 4 .easy firstRow positions).solution = true := by
  intro firstRow positions hperm hpos
  obtain ⟨hg, hc⟩ := classic_generateCompleteBoard_spec (Or.inl rfl) hperm
  refine ⟨?_, isBoardComplete_iff.2 hc, classic_validateBoard_of_good (Or.inl rfl) hg⟩
  show countFilledIn (removeCells (ClassicSudoku.generateCompleteBoard 4 firstRow)
      (positions.take (cellsToRemove 4 .easy))) (allCells 4) = 10
  have hposnd : positions.Nodup := hpos.nodup_iff.2 (allCells_nodup 4)
  have hnd : (positions.take (cellsToRemove 4 .easy)).Nodup :=
    hposnd.sublist (List.take_sublist _ _)
  have hsub : ∀ rc ∈ positions.take (cellsToRemove 4 .easy), rc ∈ allCells 4 :=
    fun rc hm => hpos.mem_iff.1 (List.mem_of_mem_take hm)
  have hfilled : ∀ rc ∈ positions.take (cellsToRemove 4 .easy),
      ((ClassicSudoku.generateCompleteBoard 4 firstRow) rc.1 rc.2).isSome := by
    intro rc hm
    obtain ⟨hr, hcc⟩ := mem_allCells.1 (hsub rc hm)
    exact hc rc.1 hr rc.2 hcc
  have hcnt := @removeCells_count 4 (positions.take (cellsToRemove 4 .easy))
    (ClassicSudoku.generateCompleteBoard 4 firstRow) hnd hsub hfilled
  have hlen : (positions.take (cellsToRemove 4 .easy)).length = 6 := by
    rw [List.length_take]
    have hl := hpos.length_eq
    have h16 : (allCells 4).length = 16 := by decide
    rw [h16] at hl
    rw [hl]
    decide
  have hfull : countFilledIn (ClassicSudoku.generateCompleteBoard 4 firstRow)
      (allCells 4) = (allCells 4).length :=
    countFilledIn_complete hc fun rc hm => hm
  have h16 : (allCells 4).length = 16 := by decide
  omega

/-- Witness for C8 at a concrete shuffle outcome. -/
theorem claim_C8_witness :
    ([1, 2, 3, 4] : List Nat).Perm (List.range' 1 4) ∧
    (allCells 4).Perm (allCells 4) ∧
    countFilledIn (ClassicSudoku.generatePuzzle 4 .easy [1, 2, 3, 4]
        (allCells 4)).puzzle (allCells 4) = 10 :=
  ⟨by decide, List.Perm.refl _,
   (claim_C8 [1, 2, 3, 4] (allCells 4) (by decide) (List.Perm.refl _)).1⟩

theorem classic_validateBoardPass_snd (size : Nat) (b : Board) :
    (ClassicSudoku.validateBoardPass size b).2 = b :=
  validateGo_snd _ _ b

theorem evenOdd6_gen_spec (ns : Nat → List Nat) :
    GoodBoard 6 (EvenOddSudoku.generateCompleteBoard 6 ns) ∧
      EvenOddParityOk 6 (EvenOddSudoku.generateCompleteBoard 6 ns) ∧
      CompleteOn 6 (EvenOddSudoku.generateCompleteBoard 6 ns) := by
  have hE6good : GoodBoard 6 evenOdd6 := goodBoard_of_B (by decide)
  have hE6comp : CompleteOn 6 evenOdd6 := isBoardComplete_iff.1 (by decide)
  have hE6par : EvenOddParityOk 6 evenOdd6 := parityOk_of_B (by decide)
  have hrangeE : ∀ r c, r < 6 → c < 6 → (evenOdd6 r c).getD 0 ∈ candidateVals 6 := by
    have hd : ∀ r ∈ List.range 6, ∀ c ∈ List.range 6,
        (evenOdd6 r c).getD 0 ∈ candidateVals 6 := by decide
    intro r c hr hc
    exact hd r (List.mem_range.2 hr) c (List.mem_range.2 hc)
  have hvalidE : ∀ bb, Extends bb evenOdd6 → ∀ r c, r < 6 → c < 6 → bb r c = none →
      EvenOddSudoku.isValidMove 6 bb r c ((evenOdd6 r c).getD 0) = true := by
    intro bb hext r c hr hc hbe
    have hsome : evenOdd6 r c = some ((evenOdd6 r c).getD 0) :=
      completeOn_some hE6comp hr hc
    apply evenOdd_isValidMove_intro
    · apply hE6par r hr c hc
      rw [hsome]
      exact fun h => Option.noConfusion h
    · exact classic_isValidMove_of_extends (Or.inr (Or.inl rfl)) hE6good hext hr hc
        hbe hsome
  have hext0 : Extends emptyBoard evenOdd6 := fun _ _ _ hv => Option.noConfusion hv
  have hcount : emptyCountIn emptyBoard (allCells 6) < 37 := by decide
  have hsolve := solveWith_complete evenOdd6 hE6comp hrangeE hvalidE 37 emptyBoard
    hext0 hcount
  obtain ⟨b', hb'⟩ := Option.isSome_iff_exists.1 hsolve
  have hloop : EvenOddSudoku.attemptLoop 6 50 = some b' := by
    show (match EvenOddSudoku.solveSudoku 6 (6 * 6 + 1) emptyBoard with
      | some b => some b
      | none => EvenOddSudoku.attemptLoop 6 49) = some b'
    rw [show EvenOddSudoku.solveSudoku 6 (6 * 6 + 1) emptyBoard = some b' from hb']
  have hsound := solveWith_sound (fun bb => GoodBoard 6 bb ∧ EvenOddParityOk 6 bb)
    (fun b r c n hInv _ _ _ hn hv =>
      evenOddInv_setCell hInv.1 hInv.2 (mem_candidateVals.1 hn).1
        (mem_candidateVals.1 hn).2 hv)
    37 emptyBoard b' (emptyBoard_inv 6) hb'
  unfold EvenOddSudoku.generateCompleteBoard
  rw [hloop]
  exact ⟨hsound.1.1, hsound.1.2, hsound.2.1⟩

theorem evenOdd9_gen_eq {ns : Nat → List Nat}
    (hnums : ∀ i, ∀ n ∈ ns i, 1 ≤ n ∧ n ≤ 9) :
    EvenOddSudoku.generateCompleteBoard 9 ns =
      EvenOddSudoku.fillDiagonalBoxes 9 ns emptyBoard := by
  obtain ⟨⟨hg, hp⟩, _⟩ := evenOdd9_fillDiagonal_spec hnums
  unfold EvenOddSudoku.generateCompleteBoard
  rw [evenOdd_attemptLoop9_none 50]
  show EvenOddSudoku.generateFallbackBoard 9 ns = _
  unfold EvenOddSudoku.generateFallbackBoard
  show (match EvenOddSudoku.solveSudoku 9 (9 * 9 + 1)
      (EvenOddSudoku.fillDiagonalBoxes 9 ns emptyBoard) with
    | some b => b
    | none => EvenOddSudoku.fillDiagonalBoxes 9 ns emptyBoard) =
    EvenOddSudoku.fillDiagonalBoxes 9 ns emptyBoard
  rw [evenOdd9_solveSudoku_none hg hp]

theorem evenOdd9_gen_validate {ns : Nat → List Nat}
    (hnums : ∀ i, ∀ n ∈ ns i, 1 ≤ n ∧ n ≤ 9) :
    EvenOddSudoku.validateBoard 9 (EvenOddSudoku.generateCompleteBoard 9 ns) = true := by
  obtain ⟨⟨hg, hp⟩, _⟩ := evenOdd9_fillDiagonal_spec hnums
  rw [evenOdd9_gen_eq hnums]
  exact evenOdd_validateBoard_of (Or.inr (Or.inr rfl)) hg hp

theorem astGenAttempts_none {firstRows : Nat → List Nat} :
    ∀ (fuel start : Nat),
      AsteriskSudoku.genAttempts firstRows start fuel = none →
      ∀ i, start ≤ i → i < start + fuel →
        AsteriskSudoku.validateAsteriskConstraint
          (ClassicSudoku.generateCompleteBoard 9 (firstRows i)) = false := by
  intro fuel
  induction fuel with
  | zero =>
    intro start _ i h1 h2
    omega
  | succ fuel ih =>
    intro start h i h1 h2
    have h' : (if AsteriskSudoku.validateAsteriskConstraint
          (ClassicSudoku.generateCompleteBoard 9 (firstRows start)) = true then
        some (ClassicSudoku.generateCompleteBoard 9 (firstRows start))
      else AsteriskSudoku.genAttempts firstRows (start + 1) fuel) = none := h
    by_cases hv : AsteriskSudoku.validateAsteriskConstraint
        (ClassicSudoku.generateCompleteBoard 9 (firstRows start)) = true
    · rw [if_pos hv] at h'
      cases h'
    · rw [if_neg hv] at h'
      by_cases hi : i = start
      · rw [hi]
        cases hb : AsteriskSudoku.validateAsteriskConstraint
            (ClassicSudoku.generateCompleteBoard 9 (firstRows start)) with
        | false => rfl
        | true => exact absurd hb hv
      · exact ih (start + 1) h' i (by omega) (by omega)

theorem winGenAttempts_none {firstRows : Nat → List Nat} :
    ∀ (fuel start : Nat),
      WindokuSudoku.genAttempts firstRows start fuel = none →
      ∀ i, start ≤ i → i < start + fuel →
        WindokuSudoku.validateWindokuConstraint
          (ClassicSudoku.generateCompleteBoard 9 (firstRows i)) = false := by
  intro fuel
  induction fuel with
  | zero =>
    intro start _ i h1 h2
    omega
  | succ fuel ih =>
    intro start h i h1 h2
    have h' : (if WindokuSudoku.validateWindokuConstraint
          (ClassicSudoku.generateCompleteBoard 9 (firstRows start)) = true then
        some (ClassicSudoku.generateCompleteBoard 9 (firstRows start))
      else WindokuSudoku.genAttempts firstRows (start + 1) fuel) = none := h
    by_cases hv : WindokuSudoku.validateWindokuConstraint
        (ClassicSudoku.generateCompleteBoard 9 (firstRows start)) = true
    · rw [if_pos hv] at h'
      cases h'
    · rw [if_neg hv] at h'
      by_cases hi : i = start
      · rw [hi]
        cases hb : WindokuSudoku.validateWindokuConstraint
            (ClassicSudoku.generateCompleteBoard 9 (firstRows start)) with
        | false => rfl
        | true => exact absurd hb hv
      · exact ih (start + 1) h' i (by omega) (by omega)

theorem ast_validate_char {firstRows : Nat → List Nat}
    (hperm : ∀ i, (firstRows i).Perm (List.range' 1 9)) :
    AsteriskSudoku.validateBoard (AsteriskSudoku.generateCompleteBoard firstRows) =
      (AsteriskSudoku.genAttempts firstRows 1 100).isSome := by
  unfold AsteriskSudoku.generateCompleteBoard
  cases hmatch : AsteriskSudoku.genAttempts firstRows 1 100 with
  | some b =>
    obtain ⟨i, hb, hconstr⟩ := astGenAttempts_classic 100 1 b hmatch
    show ((ClassicSudoku.validateBoardPass 9 b).1 &&
      AsteriskSudoku.validateAsteriskConstraint
        (ClassicSudoku.validateBoardPass 9 b).2) = (some b).isSome
    have h1 : (ClassicSudoku.validateBoardPass 9 b).1 = true := by
      rw [hb]
      exact classic_validateBoard_of_good (Or.inr (Or.inr rfl))
        (classic_generateCompleteBoard_spec (Or.inr (Or.inr rfl)) (hperm i)).1
    rw [h1, classic_validateBoardPass_snd, hconstr]
    rfl
  | none =>
    have hfalse := astGenAttempts_none 100 1 hmatch 100 (by omega) (by omega)
    show ((ClassicSudoku.validateBoardPass 9
        (ClassicSudoku.generateCompleteBoard 9 (firstRows 100))).1 &&
      AsteriskSudoku.validateAsteriskConstraint
        (ClassicSudoku.validateBoardPass 9
          (ClassicSudoku.generateCompleteBoard 9 (firstRows 100))).2) = none.isSome
    rw [classic_validateBoardPass_snd, hfalse, Bool.and_false]
    rfl

theorem win_validate_char {firstRows : Nat → List Nat}
    (hperm : ∀ i, (firstRows i).Perm (List.range' 1 9)) :
    WindokuSudoku.validateBoard (WindokuSudoku.generateCompleteBoard firstRows) =
      (WindokuSudoku.genAttempts firstRows 1 100).isSome := by
  unfold WindokuSudoku.generateCompleteBoard
  cases hmatch : WindokuSudoku.genAttempts firstRows 1 100 with
  | some b =>
    obtain ⟨i, hb, hconstr⟩ := winGenAttempts_classic 100 1 b hmatch
    show ((ClassicSudoku.validateBoardPass 9 b).1 &&
      WindokuSudoku.validateWindokuConstraint
        (ClassicSudoku.validateBoardPass 9 b).2) = (some b).isSome
    have h1 : (ClassicSudoku.validateBoardPass 9 b).1 = true := by
      rw [hb]
      exact classic_validateBoard_of_good (Or.inr (Or.inr rfl))
        (classic_generateCompleteBoard_spec (Or.inr (Or.inr rfl)) (hperm i)).1
    rw [h1, classic_validateBoardPass_snd, hconstr]
    rfl
  | none =>
    have hfalse := winGenAttempts_none 100 1 hmatch 100 (by omega) (by omega)
    show ((ClassicSudoku.validateBoardPass 9
        (ClassicSudoku.generateCompleteBoard 9 (firstRows 100))).1 &&
      WindokuSudoku.validateWindokuConstraint
        (ClassicSudoku.validateBoardPass 9
          (ClassicSudoku.generateCompleteBoard 9 (firstRows 100))).2) = none.isSome
    rw [classic_validateBoardPass_snd, hfalse, Bool.and_false]
    rfl

theorem mem_jigsawRegionCells {pattern : List (List Nat)} {size i : Nat}
    {rc : Nat × Nat} :
    rc ∈ jigsawRegionCells pattern size i ↔
      JigsawSudoku.labelAt pattern rc.1 rc.2 = i ∧ rc.1 < size ∧ rc.2 < size := by
  unfold jigsawRegionCells
  rw [List.mem_filter, mem_allCells]
  constructor
  · intro ⟨h1, h2⟩
    exact ⟨beq_iff_eq.1 h2, h1⟩
  · intro ⟨h1, h2⟩
    exact ⟨h2, beq_iff_eq.2 h1⟩

theorem regionOkP_of_B {pattern : List (List Nat)} {size : Nat} {b : Board}
    (h : regionOkPB pattern size b = true) : RegionOkP pattern size b := by
  simp only [regionOkPB, List.all_eq_true, List.mem_range] at h
  intro r hr c hc r' hr' c' hc' hne hlbl
  have h' := h r hr c hc r' hr' c' hc'
  simp only [Bool.or_eq_true, beq_iff_eq, Bool.not_eq_true', beq_eq_false_iff_ne] at h'
  rcases h' with (((h1 | h2) | h3) | h4)
  · exact absurd h1 hne
  · exact absurd hlbl h2
  · exact Or.inl h3
  · exact Or.inr h4

theorem jigsaw_isValidMove_parts {size : Nat} {pattern : List (List Nat)}
    {b : Board} {r c n : Nat}
    (hlabrc : JigsawSudoku.labelAt pattern r c < size)
    (hv : JigsawSudoku.isValidMove size b r c n
      (JigsawSudoku.createRegionsFromPattern pattern size) = true) :
    (∀ c0, c0 < size → c0 = c ∨ b r c0 ≠ some n) ∧
    (∀ r0, r0 < size → r0 = r ∨ b r0 c ≠ some n) ∧
    ∀ rc2 : Nat × Nat, rc2.1 < size → rc2.2 < size →
      JigsawSudoku.labelAt pattern rc2.1 rc2.2 = JigsawSudoku.labelAt pattern r c →
      (rc2.1, rc2.2) = (r, c) ∨ b rc2.1 rc2.2 ≠ some n := by
  unfold JigsawSudoku.isValidMove at hv
  simp only [Bool.and_eq_true] at hv
  obtain ⟨⟨hv1, hv2⟩, hv3⟩ := hv
  have hv3' : ((JigsawSudoku.createRegionsFromPattern pattern size).regionCells.getD
      (JigsawSudoku.labelAt pattern r c) []).all (fun rc =>
        (rc.1 == r && rc.2 == c) || !(b rc.1 rc.2 == some n)) = true := hv3
  rw [regionCells_getD hlabrc, List.all_eq_true] at hv3'
  refine ⟨?_, ?_, ?_⟩
  · intro c0 hc0
    have h := List.all_eq_true.1 hv1 c0 (List.mem_range.2 hc0)
    simp only [Bool.or_eq_true, beq_iff_eq, Bool.not_eq_true', beq_eq_false_iff_ne] at h
    exact h
  · intro r0 hr0
    have h := List.all_eq_true.1 hv2 r0 (List.mem_range.2 hr0)
    simp only [Bool.or_eq_true, beq_iff_eq, Bool.not_eq_true', beq_eq_false_iff_ne] at h
    exact h
  · intro rc2 hr2 hc2 hlbl2
    have hmem : rc2 ∈ jigsawRegionCells pattern size (JigsawSudoku.labelAt pattern r c) :=
      mem_jigsawRegionCells.2 ⟨hlbl2, hr2, hc2⟩
    have h := hv3' rc2 hmem
    simp only [Bool.or_eq_true, Bool.and_eq_true, beq_iff_eq, Bool.not_eq_true',
      beq_eq_false_iff_ne] at h
    rcases h with ⟨h1, h2⟩ | h3
    · left
      rw [Prod.mk.injEq]
      exact ⟨h1, h2⟩
    · exact Or.inr h3

theorem jigsaw_isValidMove_intro {size : Nat} {pattern : List (List Nat)}
    {C b : Board} {r c v : Nat}
    (hlab : ∀ r', r' < size → ∀ c', c' < size →
      JigsawSudoku.labelAt pattern r' c' < size)
    (hg : JigGood pattern size C) (hext : Extends b C) (hr : r < size) (hc : c < size)
    (hCv : C r c = some v) :
    JigsawSudoku.isValidMove size b r c v
      (JigsawSudoku.createRegionsFromPattern pattern size) = true := by
  obtain ⟨hrow, hcol, hreg, _⟩ := hg
  unfold JigsawSudoku.isValidMove
  simp only [Bool.and_eq_true]
  refine ⟨⟨?_, ?_⟩, ?_⟩
  · rw [List.all_eq_true]
    intro c0 hc0m
    have hc0 := List.mem_range.1 hc0m
    simp only [Bool.or_eq_true, beq_iff_eq, Bool.not_eq_true', beq_eq_false_iff_ne]
    by_cases hq : c0 = c
    · exact Or.inl hq
    · right
      intro heq
      have hC0 := hext r c0 v heq
      rcases hrow r hr c hc c0 hc0 (fun h => hq h.symm) with h | h
      · rw [hCv] at h
        cases h
      · apply h
        rw [hCv, hC0]
  · rw [List.all_eq_true]
    intro r0 hr0m
    have hr0 := List.mem_range.1 hr0m
    simp only [Bool.or_eq_true, beq_iff_eq, Bool.not_eq_true', beq_eq_false_iff_ne]
    by_cases hq : r0 = r
    · exact Or.inl hq
    · right
      intro heq
      have hC0 := hext r0 c v heq
      rcases hcol c hc r hr r0 hr0 (fun h => hq h.symm) with h | h
      · rw [hCv] at h
        cases h
      · apply h
        rw [hCv, hC0]
  · show ((JigsawSudoku.createRegionsFromPattern pattern size).regionCells.getD
      (JigsawSudoku.labelAt pattern r c) []).all (fun rc =>
        (rc.1 == r && rc.2 == c) || !(b rc.1 rc.2 == some v)) = true
    rw [regionCells_getD (hlab r hr c hc), List.all_eq_true]
    intro rc2 hm2
    obtain ⟨hlbl2, hr2, hc2⟩ := mem_jigsawRegionCells.1 hm2
    simp only [Bool.or_eq_true, Bool.and_eq_true, beq_iff_eq, Bool.not_eq_true',
      beq_eq_false_iff_ne]
    by_cases hq : (rc2.1, rc2.2) = (r, c)
    · left
      exact ⟨congrArg Prod.fst hq, congrArg Prod.snd hq⟩
    · right
      intro heq
      have hC2 := hext rc2.1 rc2.2 v heq
      have hne : (r, c) ≠ (rc2.1, rc2.2) := fun h => hq h.symm
      rcases hreg r hr c hc rc2.1 hr2 rc2.2 hc2 hne hlbl2.symm with h | h
      · rw [hCv] at h
        cases h
      · apply h
        rw [hCv, hC2]

theorem jigGood_setCell {size : Nat} {pattern : List (List Nat)} {b : Board} {r c n : Nat}
    (hlabrc : JigsawSudoku.labelAt pattern r c < size)
    (hg : JigGood pattern size b) (hn1 : 1 ≤ n) (hn2 : n ≤ size)
    (hv : JigsawSudoku.isValidMove size b r c n
      (JigsawSudoku.createRegionsFromPattern pattern size) = true) :
    JigGood pattern size (setCell b r c (some n)) := by
  obtain ⟨hrow, hcol, hreg, hrange⟩ := hg
  obtain ⟨hv1, hv2, hv3⟩ := jigsaw_isValidMove_parts hlabrc hv
  refine ⟨?_, ?_, ?_, ?_⟩
  · -- rows
    intro r0 hr0 c0 hc0 c1 hc1 hne
    by_cases h00 : (r0, c0) = (r, c)
    · have hr0e : r0 = r := congrArg Prod.fst h00
      have hc0e : c0 = c := congrArg Prod.snd h00
      have hnec : c ≠ c1 := by rw [← hc0e]; exact hne
      rw [hr0e, hc0e]
      have h01 : (r, c1) ≠ (r, c) := fun hq => hnec (congrArg Prod.snd hq).symm
      right
      rw [setCell_same, setCell_ne _ _ _ _ h01]
      rcases hv1 c1 hc1 with he1 | he1
      · exact absurd he1.symm hnec
      · exact fun hq => he1 hq.symm
    · by_cases h01 : (r0, c1) = (r, c)
      · have hr0e : r0 = r := congrArg Prod.fst h01
        have hc1e : c1 = c := congrArg Prod.snd h01
        rw [hr0e, hc1e]
        have h00' : (r, c0) ≠ (r, c) := fun hq => h00 (by rw [hr0e]; exact hq)
        rw [setCell_ne _ _ _ _ h00', setCell_same]
        by_cases hbc : b r c0 = none
        · exact Or.inl hbc
        · right
          rcases hv1 c0 hc0 with he1 | he1
          · exact absurd (by rw [he1] : (r, c0) = (r, c)) h00'
          · exact fun hq => he1 hq
      · rw [setCell_ne _ _ _ _ h00, setCell_ne _ _ _ _ h01]
        exact hrow r0 hr0 c0 hc0 c1 hc1 hne
  · -- columns
    intro c0 hc0 r0 hr0 r1 hr1 hne
    by_cases h00 : (r0, c0) = (r, c)
    · have hr0e : r0 = r := congrArg Prod.fst h00
      have hc0e : c0 = c := congrArg Prod.snd h00
      have hner : r ≠ r1 := by rw [← hr0e]; exact hne
      rw [hr0e, hc0e]
      have h01 : (r1, c) ≠ (r, c) := fun hq => hner (congrArg Prod.fst hq).symm
      right
      rw [setCell_same, setCell_ne _ _ _ _ h01]
      rcases hv2 r1 hr1 with he1 | he1
      · exact absurd he1.symm hner
      · exact fun hq => he1 hq.symm
    · by_cases h01 : (r1, c0) = (r, c)
      · have hr1e : r1 = r := congrArg Prod.fst h01
        have hc0e : c0 = c := congrArg Prod.snd h01
        rw [hr1e, hc0e]
        have h00' : (r0, c) ≠ (r, c) := fun hq => h00 (by rw [hc0e]; exact hq)
        rw [setCell_ne _ _ _ _ h00', setCell_same]
        by_cases hbc : b r0 c = none
        · exact Or.inl hbc
        · right
          rcases hv2 r0 hr0 with he1 | he1
          · exact absurd (by rw [he1] : (r0, c) = (r, c)) h00'
          · exact fun hq => he1 hq
      · rw [setCell_ne _ _ _ _ h00, setCell_ne _ _ _ _ h01]
        exact hcol c0 hc0 r0 hr0 r1 hr1 hne
  · -- regions
    intro r0 hr0 c0 hc0 r1 hr1 c1 hc1 hne hlbl
    by_cases h00 : (r0, c0) = (r, c)
    · have hr0e : r0 = r := congrArg Prod.fst h00
      have hc0e : c0 = c := congrArg Prod.snd h00
      have hne' : (r, c) ≠ (r1, c1) := by rw [← hr0e, ← hc0e]; exact hne
      have hlbl' : JigsawSudoku.labelAt pattern r1 c1 =
          JigsawSudoku.labelAt pattern r c := by
        rw [← hlbl, hr0e, hc0e]
      rw [hr0e, hc0e]
      right
      rw [setCell_same, setCell_ne _ _ _ _ (Ne.symm hne')]
      rcases hv3 (r1, c1) hr1 hc1 hlbl' with he1 | he1
      · exact absurd he1.symm hne'
      · exact fun hq => he1 hq.symm
    · by_cases h01 : (r1, c1) = (r, c)
      · have hr1e : r1 = r := congrArg Prod.fst h01
        have hc1e : c1 = c := congrArg Prod.snd h01
        have hlbl' : JigsawSudoku.labelAt pattern r0 c0 =
            JigsawSudoku.labelAt pattern r c := by
          rw [hlbl, hr1e, hc1e]
        rw [hr1e, hc1e]
        rw [setCell_ne _ _ _ _ h00, setCell_same]
        by_cases hbc : b r0 c0 = none
        · exact Or.inl hbc
        · right
          rcases hv3 (r0, c0) hr0 hc0 hlbl' with he1 | he1
          · exact absurd he1 h00
          · exact fun hq => he1 hq
      · rw [setCell_ne _ _ _ _ h00, setCell_ne _ _ _ _ h01]
        exact hreg r0 hr0 c0 hc0 r1 hr1 c1 hc1 hne hlbl
  · -- range
    intro r0 hr0 c0 hc0 hne0
    by_cases h00 : (r0, c0) = (r, c)
    · have hr0e : r0 = r := congrArg Prod.fst h00
      have hc0e : c0 = c := congrArg Prod.snd h00
      rw [hr0e, hc0e] at hne0 ⊢
      rw [setCell_same]
      exact ⟨hn1, hn2⟩
    · rw [setCell_ne _ _ _ _ h00] at hne0 ⊢
      exact hrange r0 hr0 c0 hc0 hne0

theorem emptyBoard_jigGood (pattern : List (List Nat)) (size : Nat) :
    JigGood pattern size emptyBoard := by
  refine ⟨?_, ?_, ?_, ?_⟩
  · intro r _ c _ c' _ _
    exact Or.inl rfl
  · intro c _ r _ r' _ _
    exact Or.inl rfl
  · intro r _ c _ r' _ c' _ _ _
    exact Or.inl rfl
  · intro r _ c _ hne
    exact absurd rfl hne

theorem jigsaw_cellOrder_sub {pattern : List (List Nat)} {size : Nat} :
    ∀ rc ∈ (JigsawSudoku.createRegionsFromPattern pattern size).regionCells.flatten,
      rc.1 < size ∧ rc.2 < size := by
  intro rc hm
  rw [List.mem_flatten] at hm
  obtain ⟨l, hl, hrcl⟩ := hm
  unfold JigsawSudoku.createRegionsFromPattern at hl
  simp only [List.mem_map] at hl
  obtain ⟨i, _, hi⟩ := hl
  rw [← hi] at hrcl
  exact mem_allCells.1 (List.mem_of_mem_filter hrcl)

theorem fillCellsGo_inv {size : Nat} {pattern : List (List Nat)}
    {orders : Nat → List Nat}
    (hlab : ∀ r', r' < size → ∀ c', c' < size →
      JigsawSudoku.labelAt pattern r' c' < size)
    (horders : ∀ i, ∀ n ∈ orders i, 1 ≤ n ∧ n ≤ size) :
    ∀ (l : List (Nat × Nat)) (idx : Nat) (b b' : Board),
      (∀ rc ∈ l, rc.1 < size ∧ rc.2 < size) →
      JigGood pattern size b →
      JigsawSudoku.fillCellsGo size
        (JigsawSudoku.createRegionsFromPattern pattern size) orders l idx b =
        some b' →
      JigGood pattern size b' := by
  intro l
  induction l with
  | nil =>
    intro idx b b' _ hg h
    cases h
    exact hg
  | cons rc rest ih =>
    intro idx b b' hsub hg h
    obtain ⟨n, hn, hvld, hnext⟩ := exists_of_tryCands_some h
    obtain ⟨hr, hc⟩ := hsub rc (List.mem_cons_self rc rest)
    obtain ⟨hn1, hn2⟩ := horders idx n hn
    have hg2 := jigGood_setCell (hlab rc.1 hr rc.2 hc) hg hn1 hn2 hvld
    exact ih (idx + 1) _ b' (fun rc2 hm => hsub rc2 (List.mem_cons_of_mem rc hm)) hg2 hnext

theorem fillCellsGo_complete {size : Nat} {pattern : List (List Nat)}
    {orders : Nat → List Nat} {C : Board}
    (hlab : ∀ r', r' < size → ∀ c', c' < size →
      JigsawSudoku.labelAt pattern r' c' < size)
    (hCg : JigGood pattern size C) (hCc : CompleteOn size C)
    (horders : ∀ i, (orders i).Perm (List.range' 1 size)) :
    ∀ (l : List (Nat × Nat)) (idx : Nat) (b : Board),
      (∀ rc ∈ l, rc.1 < size ∧ rc.2 < size) → Extends b C →
      (JigsawSudoku.fillCellsGo size
        (JigsawSudoku.createRegionsFromPattern pattern size) orders l idx b).isSome := by
  intro l
  induction l with
  | nil =>
    intro idx b _ _
    rfl
  | cons rc rest ih =>
    intro idx b hsub hext
    obtain ⟨hr, hc⟩ := hsub rc (List.mem_cons_self rc rest)
    have hCv : C rc.1 rc.2 = some ((C rc.1 rc.2).getD 0) := completeOn_some hCc hr hc
    have hrange : 1 ≤ (C rc.1 rc.2).getD 0 ∧ (C rc.1 rc.2).getD 0 ≤ size :=
      hCg.2.2.2 rc.1 hr rc.2 hc (by rw [hCv]; exact fun h => Option.noConfusion h)
    apply tryCands_isSome
    refine ⟨(C rc.1 rc.2).getD 0, ?_, ?_, ?_⟩
    · exact ((horders idx).mem_iff).2 (mem_candidateVals.2 hrange)
    · exact jigsaw_isValidMove_intro hlab hCg hext hr hc hCv
    · apply ih (idx + 1) _ (fun rc2 hm => hsub rc2 (List.mem_cons_of_mem rc hm))
      intro r' c' w hw
      by_cases hq : (r', c') = (rc.1, rc.2)
      · have h1 : r' = rc.1 := congrArg Prod.fst hq
        have h2 : c' = rc.2 := congrArg Prod.snd hq
        subst h1
        subst h2
        rw [setCell_same] at hw
        rw [← hw]
        exact hCv
      · rw [setCell_ne _ _ _ _ hq] at hw
        exact hext r' c' w hw

theorem validateGo_true_all (check : Board → Nat → Nat → Nat → Bool) :
    ∀ (l : List (Nat × Nat)) (b : Board), (validateGo check l b).1 = true →
      ∀ rc ∈ l, ∀ temp, b rc.1 rc.2 = some temp →
        check (setCell b rc.1 rc.2 none) rc.1 rc.2 temp = true := by
  intro l
  induction l with
  | nil =>
    intro b _ rc hm
    cases hm
  | cons rc0 rest ih =>
    intro b h rc hm temp htemp
    unfold validateGo at h
    cases hcell : b rc0.1 rc0.2 with
    | none =>
      rw [hcell] at h
      rcases List.mem_cons.1 hm with rfl | hm'
      · rw [htemp] at hcell
        cases hcell
      · exact ih b h rc hm' temp htemp
    | some t0 =>
      rw [hcell] at h
      have hb2 : setCell (setCell b rc0.1 rc0.2 none) rc0.1 rc0.2 (some t0) = b :=
        setCell_restore hcell
      by_cases hchk : check (setCell b rc0.1 rc0.2 none) rc0.1 rc0.2 t0 = true
      · have hif : (if check (setCell b rc0.1 rc0.2 none) rc0.1 rc0.2 t0 then
            validateGo check rest
              (setCell (setCell b rc0.1 rc0.2 none) rc0.1 rc0.2 (some t0))
          else ((false : Bool),
            setCell (setCell b rc0.1 rc0.2 none) rc0.1 rc0.2 (some t0))).1 = true := h
        rw [if_pos hchk, hb2] at hif
        rcases List.mem_cons.1 hm with rfl | hm'
        · have ht : t0 = temp := by
            rw [htemp] at hcell
            exact (Option.some.inj hcell).symm
          rw [← ht]
          exact hchk
        · exact ih b hif rc hm' temp htemp
      · exfalso
        have hif : (if check (setCell b rc0.1 rc0.2 none) rc0.1 rc0.2 t0 then
            validateGo check rest
              (setCell (setCell b rc0.1 rc0.2 none) rc0.1 rc0.2 (some t0))
          else ((false : Bool),
            setCell (setCell b rc0.1 rc0.2 none) rc0.1 rc0.2 (some t0))).1 = true := h
        rw [if_neg hchk] at hif
        simp at hif

theorem jigsaw_validate_extract {size : Nat} {pattern : List (List Nat)} {b : Board}
    (hlab : ∀ r', r' < size → ∀ c', c' < size →
      JigsawSudoku.labelAt pattern r' c' < size)
    (hval : JigsawSudoku.validateBoard size b
      (JigsawSudoku.createRegionsFromPattern pattern size) = true) :
    RegionOkP pattern size b := by
  intro r hr c hc r' hr' c' hc' hne hlbl
  by_cases hbc : b r c = none
  · exact Or.inl hbc
  · right
    obtain ⟨temp, htemp⟩ := Option.ne_none_iff_exists'.1 hbc
    have hchk := validateGo_true_all
      (fun b' r0 c0 n0 => JigsawSudoku.isValidMove size b' r0 c0 n0
        (JigsawSudoku.createRegionsFromPattern pattern size))
      (allCells size) b hval (r, c) (mem_allCells.2 ⟨hr, hc⟩) temp htemp
    obtain ⟨_, _, hv3⟩ := jigsaw_isValidMove_parts (hlab r hr c hc) hchk
    have hnep : (r', c') ≠ (r, c) := fun h => hne h.symm
    rcases hv3 (r', c') hr' hc' hlbl.symm with h | h
    · exact absurd h hnep
    · rw [setCell_ne _ _ _ _ hnep] at h
      rw [htemp]
      exact fun hq => h hq.symm

theorem jigsaw_validateBoard_of {size : Nat} {pattern : List (List Nat)} {b : Board}
    (hlab : ∀ r', r' < size → ∀ c', c' < size →
      JigsawSudoku.labelAt pattern r' c' < size)
    (hg : JigGood pattern size b) :
    JigsawSudoku.validateBoard size b
      (JigsawSudoku.createRegionsFromPattern pattern size) = true := by
  unfold JigsawSudoku.validateBoard JigsawSudoku.validateBoardPass validatePass
  have h := validateGo_eq_of
    (fun b' r0 c0 n0 => JigsawSudoku.isValidMove size b' r0 c0 n0
      (JigsawSudoku.createRegionsFromPattern pattern size))
    (allCells size) b ?_
  · rw [h]
  · intro rc hm temp htemp
    obtain ⟨hr, hc⟩ := mem_allCells.1 hm
    apply jigsaw_isValidMove_intro hlab hg (C := b)
    · intro r' c' w hw
      by_cases hq : (r', c') = (rc.1, rc.2)
      · have h1 : r' = rc.1 := congrArg Prod.fst hq
        have h2 : c' = rc.2 := congrArg Prod.snd hq
        rw [h1, h2, setCell_same] at hw
        cases hw
      · rw [setCell_ne _ _ _ _ hq] at hw
        exact hw
    · exact hr
    · exact hc
    · exact htemp

theorem jigsaw_gen_validate_iff {size : Nat} (hsz : size = 4 ∨ size = 6 ∨ size = 9)
    {pattern : List (List Nat)}
    (hlab : ∀ r', r' < size → ∀ c', c' < size →
      JigsawSudoku.labelAt pattern r' c' < size)
    (hcover : ∀ rc ∈ allCells size,
      rc ∈ (JigsawSudoku.createRegionsFromPattern pattern size).regionCells.flatten)
    {ordersAtt : Nat → Nat → List Nat} {fb : List Nat}
    (horders : ∀ i j, (ordersAtt i j).Perm (List.range' 1 size))
    (hfb : fb.Perm (List.range' 1 size)) :
    JigsawSudoku.validateBoard size
        (JigsawSudoku.generateCompleteBoard size
          (JigsawSudoku.createRegionsFromPattern pattern size) ordersAtt fb)
        (JigsawSudoku.createRegionsFromPattern pattern size) = true ↔
      ∃ C : Board, CompleteOn size C ∧ JigGood pattern size C := by
  have hordb : ∀ j, ∀ i, ∀ n ∈ ordersAtt j i, 1 ≤ n ∧ n ≤ size := by
    intro j i n hn
    exact mem_candidateVals.1 (((horders j i).mem_iff).1 hn)
  constructor
  · intro hval
    cases hmatch : JigsawSudoku.jigsawAttempts size
        (JigsawSudoku.createRegionsFromPattern pattern size) ordersAtt
        (JigsawSudoku.createRegionsFromPattern pattern size).regionCells.flatten
        0 10 with
    | some b =>
      obtain ⟨j, hfill⟩ := jigsawAttempts_some 10 0 b hmatch
      have hg := fillCellsGo_inv hlab (hordb j) _ 0 emptyBoard b
        jigsaw_cellOrder_sub (emptyBoard_jigGood pattern size) hfill
      have hc : CompleteOn size b := by
        intro r hr c hc
        exact fillCellsGo_filled _ 0 emptyBoard b hfill (r, c)
          (hcover (r, c) (mem_allCells.2 ⟨hr, hc⟩))
      exact ⟨b, hc, hg⟩
    | none =>
      have hgen : JigsawSudoku.generateCompleteBoard size
          (JigsawSudoku.createRegionsFromPattern pattern size) ordersAtt fb =
          ClassicSudoku.generateCompleteBoard size fb := by
        unfold JigsawSudoku.generateCompleteBoard
        show (match JigsawSudoku.jigsawAttempts size
            (JigsawSudoku.createRegionsFromPattern pattern size) ordersAtt
            (JigsawSudoku.createRegionsFromPattern pattern size).regionCells.flatten
            0 10 with
          | some b => b
          | none => ClassicSudoku.generateCompleteBoard size fb) =
          ClassicSudoku.generateCompleteBoard size fb
        rw [hmatch]
      rw [hgen] at hval
      obtain ⟨⟨hrow, hcol, _, hrange⟩, hcomp⟩ := classic_generateCompleteBoard_spec hsz hfb
      exact ⟨ClassicSudoku.generateCompleteBoard size fb, hcomp, hrow, hcol,
        jigsaw_validate_extract hlab hval, hrange⟩
  · intro ⟨C, hCc, hCg⟩
    have hsome := fillCellsGo_complete hlab hCg hCc (horders 0)
      (JigsawSudoku.createRegionsFromPattern pattern size).regionCells.flatten 0
      emptyBoard jigsaw_cellOrder_sub (fun _ _ _ hv => Option.noConfusion hv)
    obtain ⟨b, hfill⟩ := Option.isSome_iff_exists.1 hsome
    have hatt : JigsawSudoku.jigsawAttempts size
        (JigsawSudoku.createRegionsFromPattern pattern size) ordersAtt
        (JigsawSudoku.createRegionsFromPattern pattern size).regionCells.flatten
        0 10 = some b := by
      show (match JigsawSudoku.fillCellsGo size
          (JigsawSudoku.createRegionsFromPattern pattern size) (ordersAtt 0)
          (JigsawSudoku.createRegionsFromPattern pattern size).regionCells.flatten
          0 emptyBoard with
        | some bb => some bb
        | none => JigsawSudoku.jigsawAttempts size
            (JigsawSudoku.createRegionsFromPattern pattern size) ordersAtt
            (JigsawSudoku.createRegionsFromPattern pattern size).regionCells.flatten
            1 9) = some b
      rw [hfill]
    have hgen : JigsawSudoku.generateCompleteBoard size
        (JigsawSudoku.createRegionsFromPattern pattern size) ordersAtt fb = b := by
      unfold JigsawSudoku.generateCompleteBoard
      show (match JigsawSudoku.jigsawAttempts size
          (JigsawSudoku.createRegionsFromPattern pattern size) ordersAtt
          (JigsawSudoku.createRegionsFromPattern pattern size).regionCells.flatten
          0 10 with
        | some bb => bb
        | none => ClassicSudoku.generateCompleteBoard size fb) = b
      rw [hatt]
    rw [hgen]
    exact jigsaw_validateBoard_of hlab
      (fillCellsGo_inv hlab (hordb 0) _ 0 emptyBoard b jigsaw_cellOrder_sub
        (emptyBoard_jigGood pattern size) hfill)

theorem jigsaw_no_good_of_big_region {size : Nat} {pattern : List (List Nat)}
    {lbl : Nat} (hlen : size < (jigsawRegionCells pattern size lbl).length) :
    ¬ ∃ C : Board, CompleteOn size C ∧ JigGood pattern size C := by
  rintro ⟨C, hCc, hrow, hcol, hreg, hrange⟩
  have hnd : (jigsawRegionCells pattern size lbl).Nodup :=
    (allCells_nodup size).filter _
  have hmaps : ∀ rc ∈ (jigsawRegionCells pattern size lbl).toFinset,
      (fun rc : Nat × Nat => (C rc.1 rc.2).getD 0) rc ∈ Finset.Icc 1 size := by
    intro rc hm
    rw [List.mem_toFinset] at hm
    obtain ⟨_, hr, hc⟩ := mem_jigsawRegionCells.1 hm
    have hsome := completeOn_some hCc hr hc
    have hb := hrange rc.1 hr rc.2 hc (by rw [hsome]; exact fun h => Option.noConfusion h)
    rw [Finset.mem_Icc]
    exact hb
  have hcard : (Finset.Icc 1 size).card <
      (jigsawRegionCells pattern size lbl).toFinset.card := by
    rw [List.toFinset_card_of_nodup hnd, Nat.card_Icc]
    omega
  obtain ⟨rc1, hm1, rc2, hm2, hne, heq⟩ :=
    Finset.exists_ne_map_eq_of_card_lt_of_maps_to hcard hmaps
  rw [List.mem_toFinset] at hm1 hm2
  obtain ⟨hl1, hr1, hc1⟩ := mem_jigsawRegionCells.1 hm1
  obtain ⟨hl2, hr2, hc2⟩ := mem_jigsawRegionCells.1 hm2
  have hs1 := completeOn_some hCc hr1 hc1
  have hs2 := completeOn_some hCc hr2 hc2
  have hnep : (rc1.1, rc1.2) ≠ (rc2.1, rc2.2) := by
    intro h
    apply hne
    cases rc1
    cases rc2
    exact h
  rcases hreg rc1.1 hr1 rc1.2 hc1 rc2.1 hr2 rc2.2 hc2 hnep (by rw [hl1, hl2]) with h | h
  · rw [hs1] at h
    cases h
  · apply h
    rw [hs1, hs2, heq]

theorem jigsaw_puzzle_validate_iff {size : Nat} (hsz : size = 6 ∨ size = 9)
    {pattern : List (List Nat)} {d : Difficulty} {idx : Nat}
    {ordersAtt : Nat → Nat → List Nat} {fb : List Nat} {positions : List (Nat × Nat)}
    (hpat : JigsawSudoku.generateJigsawRegions size idx =
      .ok (JigsawSudoku.createRegionsFromPattern pattern size))
    (hlab : ∀ r', r' < size → ∀ c', c' < size →
      JigsawSudoku.labelAt pattern r' c' < size)
    (hcover : ∀ rc ∈ allCells size,
      rc ∈ (JigsawSudoku.createRegionsFromPattern pattern size).regionCells.flatten)
    (horders : ∀ i j, (ordersAtt i j).Perm (List.range' 1 size))
    (hfb : fb.Perm (List.range' 1 size)) :
    JigsawSudoku.validateBoard size
        (okOr jigsawDefault
          (JigsawSudoku.generatePuzzle size d idx ordersAtt fb positions)).solution
        (okOr jigsawDefault
          (JigsawSudoku.generatePuzzle size d idx ordersAtt
            fb positions)).jigsawRegions = true ↔
      ∃ C : Board, CompleteOn size C ∧ JigGood pattern size C := by
  have hne : ¬(size ≠ 6 ∧ size ≠ 9) := by
    rcases hsz with rfl | rfl <;> simp
  have hsz' : size = 4 ∨ size = 6 ∨ size = 9 := by
    rcases hsz with rfl | rfl
    · exact Or.inr (Or.inl rfl)
    · exact Or.inr (Or.inr rfl)
  have hgp : JigsawSudoku.generatePuzzle size d idx ordersAtt fb positions =
      .ok ⟨(JigsawSudoku.jigsawCarve (max 1 (size / 3)) (cellsToRemove size d)
          (fun r c => JigsawSudoku.labelAt
            (JigsawSudoku.createRegionsFromPattern pattern size).regions r c) positions
          (JigsawSudoku.generateCompleteBoard size
            (JigsawSudoku.createRegionsFromPattern pattern size) ordersAtt fb)
          ((List.range size).map fun i =>
            (allCells size).countP fun rc =>
              JigsawSudoku.labelAt
                (JigsawSudoku.createRegionsFromPattern pattern size).regions
                rc.1 rc.2 == i) 0).1,
        JigsawSudoku.generateCompleteBoard size
          (JigsawSudoku.createRegionsFromPattern pattern size) ordersAtt fb,
        JigsawSudoku.createRegionsFromPattern pattern size⟩ := by
    unfold JigsawSudoku.generatePuzzle
    rw [if_neg hne, hpat]
  rw [hgp, okOr_ok, jigsawResult_solution, jigsawResult_regions]
  exact jigsaw_gen_validate_iff hsz' hlab hcover horders hfb

theorem labels_lt_of_bounded {pattern : List (List Nat)} {size : Nat}
    (h : ∀ r ∈ List.range size, ∀ c ∈ List.range size,
      JigsawSudoku.labelAt pattern r c < size) :
    ∀ r', r' < size → ∀ c', c' < size → JigsawSudoku.labelAt pattern r' c' < size :=
  fun r hr c hc => h r (List.mem_range.2 hr) c (List.mem_range.2 hc)

theorem jigsaw_labels_6 : ∀ k ∈ List.range 3, ∀ r ∈ List.range 6, ∀ c ∈ List.range 6,
    JigsawSudoku.labelAt (JigsawSudoku.patterns6.getD k []) r c < 6 := by decide

theorem jigsaw_labels_9 : ∀ k ∈ List.range 3, ∀ r ∈ List.range 9, ∀ c ∈ List.range 9,
    JigsawSudoku.labelAt (JigsawSudoku.patterns9.getD k []) r c < 9 := by decide

theorem jigsaw_bigRegions :
    6 < (jigsawRegionCells (JigsawSudoku.patterns6.getD 2 []) 6 4).length ∧
    9 < (jigsawRegionCells (JigsawSudoku.patterns9.getD 0 []) 9 3).length ∧
    9 < (jigsawRegionCells (JigsawSudoku.patterns9.getD 1 []) 9 0).length ∧
    9 < (jigsawRegionCells (JigsawSudoku.patterns9.getD 2 []) 9 1).length := by decide

theorem jig6p0_good :
    JigGood (JigsawSudoku.patterns6.getD 0 []) 6 jig6p0 ∧ CompleteOn 6 jig6p0 :=
  ⟨⟨rowOk_of_B (by decide), colOk_of_B (by decide), regionOkP_of_B (by decide),
    rangeOk_of_B (by decide)⟩, isBoardComplete_iff.1 (by decide)⟩

theorem bool_eq_false_of_not_true {b : Bool} (h : ¬(b = true)) : b = false := by
  cases b
  · rfl
  · exact absurd rfl h

/-- C1 (as implemented), covering every variant the claim cites.
`validateBoard(solution)` holds over all random outcomes for the classic
generator (sizes 4/6/9), the even-odd generator (size 4 and 6, and size 9
where the incomplete fallback board still validates cell-wise), and the
6×6 jigsaw generator under its first pattern; for the asterisk and
windoku generators it holds exactly when the 100-attempt retry loop found
a constraint-satisfying board (on the retry-exhausted fallback path
validation provably fails); for the 9×9 jigsaw patterns and the third 6×6
pattern it always fails (a region with more than `size` cells cannot be
duplicate-free), and for the second 6×6 pattern it holds exactly when
that pattern admits any complete valid board; for the consecutive variant
it holds under the all-marks coin outcome but not in general (see the
counterexample). -/
theorem claim_C1 :
    (∀ (size : Nat), size = 4 ∨ size = 6 ∨ size = 9 →
      ∀ (d : Difficulty) (firstRow : List Nat) (positions : List (Nat × Nat)),
        firstRow.Perm (List.range' 1 size) →
        ClassicSudoku.validateBoard size
          (ClassicSudoku.generatePuzzle size d firstRow positions).solution = true) ∧
    (∀ (size : Nat), size = 4 ∨ size = 6 ∨ size = 9 →
      ∀ (d : Difficulty) (firstRow : List Nat) (positions : List (Nat × Nat)),
        firstRow.Perm (List.range' 1 size) →
        ConsecutiveSudoku.validateBoard size
          (ConsecutiveSudoku.generatePuzzle size d firstRow coinsTrue coinsTrue
            positions).solution
          (some (ConsecutiveSudoku.generatePuzzle size d firstRow coinsTrue coinsTrue
            positions).constraints) = true) ∧
    (∀ (d : Difficulty) (ns : Nat → List Nat) (positions : List (Nat × Nat)),
      EvenOddSudoku.validateBoard 4
        (EvenOddSudoku.generatePuzzle 4 d ns positions).solution = true) ∧
    (∀ ns : Nat → List Nat,
      EvenOddSudoku.validateBoard 6 (EvenOddSudoku.generateCompleteBoard 6 ns) =
        true) ∧
    (∀ ns : Nat → List Nat, (∀ i, ∀ n ∈ ns i, 1 ≤ n ∧ n ≤ 9) →
      EvenOddSudoku.validateBoard 9 (EvenOddSudoku.generateCompleteBoard 9 ns) =
        true) ∧
    (∀ firstRows : Nat → List Nat, (∀ i, (firstRows i).Perm (List.range' 1 9)) →
      AsteriskSudoku.validateBoard (AsteriskSudoku.generateCompleteBoard firstRows) =
        (AsteriskSudoku.genAttempts firstRows 1 100).isSome) ∧
    (∀ firstRows : Nat → List Nat, (∀ i, (firstRows i).Perm (List.range' 1 9)) →
      WindokuSudoku.validateBoard (WindokuSudoku.generateCompleteBoard firstRows) =
        (WindokuSudoku.genAttempts firstRows 1 100).isSome) ∧
    (∀ (d : Difficulty) (idx : Nat) (ordersAtt : Nat → Nat → List Nat)
        (fb : List Nat) (positions : List (Nat × Nat)),
      (∀ i j, (ordersAtt i j).Perm (List.range' 1 6)) →
      fb.Perm (List.range' 1 6) → idx % 3 = 0 →
      JigsawSudoku.validateBoard 6
        (okOr jigsawDefault
          (JigsawSudoku.generatePuzzle 6 d idx ordersAtt fb positions)).solution
        (okOr jigsawDefault
          (JigsawSudoku.generatePuzzle 6 d idx ordersAtt
            fb positions)).jigsawRegions = true) ∧
    (∀ (d : Difficulty) (idx : Nat) (ordersAtt : Nat → Nat → List Nat)
        (fb : List Nat) (positions : List (Nat × Nat)),
      (∀ i j, (ordersAtt i j).Perm (List.range' 1 6)) →
      fb.Perm (List.range' 1 6) → idx % 3 = 2 →
      JigsawSudoku.validateBoard 6
        (okOr jigsawDefault
          (JigsawSudoku.generatePuzzle 6 d idx ordersAtt fb positions)).solution
        (okOr jigsawDefault
          (JigsawSudoku.generatePuzzle 6 d idx ordersAtt
            fb positions)).jigsawRegions = false) ∧
    (∀ (d : Difficulty) (idx : Nat) (ordersAtt : Nat → Nat → List Nat)
        (fb : List Nat) (positions : List (Nat × Nat)),
      (∀ i j, (ordersAtt i j).Perm (List.range' 1 9)) →
      fb.Perm (List.range' 1 9) →
      JigsawSudoku.validateBoard 9
        (okOr jigsawDefault
          (JigsawSudoku.generatePuzzle 9 d idx ordersAtt fb positions)).solution
        (okOr jigsawDefault
          (JigsawSudoku.generatePuzzle 9 d idx ordersAtt
            fb positions)).jigsawRegions = false) ∧
    ∀ (d : Difficulty) (idx : Nat) (ordersAtt : Nat → Nat → List Nat)
        (fb : List Nat) (positions : List (Nat × Nat)),
      (∀ i j, (ordersAtt i j).Perm (List.range' 1 6)) →
      fb.Perm (List.range' 1 6) → idx % 3 = 1 →
      (JigsawSudoku.validateBoard 6
        (okOr jigsawDefault
          (JigsawSudoku.generatePuzzle 6 d idx ordersAtt fb positions)).solution
        (okOr jigsawDefault
          (JigsawSudoku.generatePuzzle 6 d idx ordersAtt
            fb positions)).jigsawRegions = true ↔
        ∃ C : Board, CompleteOn 6 C ∧
          JigGood (JigsawSudoku.patterns6.getD 1 []) 6 C) := by
  refine ⟨?_, ?_, ?_, ?_, ?_, ?_, ?_, ?_, ?_, ?_, ?_⟩
  · intro size hsz d firstRow positions hperm
    exact classic_validateBoard_of_good hsz
      (classic_generateCompleteBoard_spec hsz hperm).1
  · intro size hsz d firstRow positions hperm
    obtain ⟨hg, hc⟩ := classic_generateCompleteBoard_spec hsz hperm
    exact consecutive_validate_full hsz hg hc
  · intro d ns positions
    obtain ⟨hg, hp, _⟩ := evenOdd4_gen_spec ns
    exact evenOdd_validateBoard_of (Or.inl rfl) hg hp
  · intro ns
    obtain ⟨hg, hp, _⟩ := evenOdd6_gen_spec ns
    exact evenOdd_validateBoard_of (Or.inr (Or.inl rfl)) hg hp
  · intro ns hnums
    exact evenOdd9_gen_validate hnums
  · intro firstRows hperm
    exact ast_validate_char hperm
  · intro firstRows hperm
    exact win_validate_char hperm
  · intro d idx ordersAtt fb positions ho hf h0
    have hpat0 : JigsawSudoku.generateJigsawRegions 6 idx = .ok
        (JigsawSudoku.createRegionsFromPattern
          (JigsawSudoku.patterns6.getD (idx % 3) []) 6) := rfl
    rw [h0] at hpat0
    exact (jigsaw_puzzle_validate_iff (Or.inl rfl) hpat0
      (labels_lt_of_bounded (jigsaw_labels_6 0 (by decide)))
      jigsaw_facts_6_0.1 ho hf).2 ⟨jig6p0, jig6p0_good.2, jig6p0_good.1⟩
  · intro d idx ordersAtt fb positions ho hf h2
    have hpat0 : JigsawSudoku.generateJigsawRegions 6 idx = .ok
        (JigsawSudoku.createRegionsFromPattern
          (JigsawSudoku.patterns6.getD (idx % 3) []) 6) := rfl
    rw [h2] at hpat0
    exact bool_eq_false_of_not_true fun hx =>
      jigsaw_no_good_of_big_region jigsaw_bigRegions.1
        ((jigsaw_puzzle_validate_iff (Or.inl rfl) hpat0
          (labels_lt_of_bounded (jigsaw_labels_6 2 (by decide)))
          jigsaw_facts_6_2.1 ho hf).1 hx)
  · intro d idx ordersAtt fb positions ho hf
    have hpat0 : JigsawSudoku.generateJigsawRegions 9 idx = .ok
        (JigsawSudoku.createRegionsFromPattern
          (JigsawSudoku.patterns9.getD (idx % 3) []) 9) := rfl
    have h3 : idx % 3 = 0 ∨ idx % 3 = 1 ∨ idx % 3 = 2 := by omega
    rcases h3 with h | h | h <;> rw [h] at hpat0
    · exact bool_eq_false_of_not_true fun hx =>
        jigsaw_no_good_of_big_region jigsaw_bigRegions.2.1
          ((jigsaw_puzzle_validate_iff (Or.inr rfl) hpat0
            (labels_lt_of_bounded (jigsaw_labels_9 0 (by decide)))
            jigsaw_facts_9_0.1 ho hf).1 hx)
    · exact bool_eq_false_of_not_true fun hx =>
        jigsaw_no_good_of_big_region jigsaw_bigRegions.2.2.1
          ((jigsaw_puzzle_validate_iff (Or.inr rfl) hpat0
            (labels_lt_of_bounded (jigsaw_labels_9 1 (by decide)))
            jigsaw_facts_9_1.1 ho hf).1 hx)
    · exact bool_eq_false_of_not_true fun hx =>
        jigsaw_no_good_of_big_region jigsaw_bigRegions.2.2.2
          ((jigsaw_puzzle_validate_iff (Or.inr rfl) hpat0
            (labels_lt_of_bounded (jigsaw_labels_9 2 (by decide)))
            jigsaw_facts_9_2.1 ho hf).1 hx)
  · intro d idx ordersAtt fb positions ho hf h1
    have hpat0 : JigsawSudoku.generateJigsawRegions 6 idx = .ok
        (JigsawSudoku.createRegionsFromPattern
          (JigsawSudoku.patterns6.getD (idx % 3) []) 6) := rfl
    rw [h1] at hpat0
    exact jigsaw_puzzle_validate_iff (Or.inl rfl) hpat0
      (labels_lt_of_bounded (jigsaw_labels_6 1 (by decide)))
      jigsaw_facts_6_1.1 ho hf

/-- C1 counterexample: with every mark coin coming up tails, the
generated constraint set has no marks, and the solution's own consecutive
neighbours then violate the two-sided rule: `validateBoard(solution)` is
false for this random outcome. -/
theorem claim_C1_counterexample :
    ConsecutiveSudoku.validateBoard 4
      (ConsecutiveSudoku.generatePuzzle 4 .easy [1, 2, 3, 4] coinsFalse coinsFalse
        []).solution
      (some (ConsecutiveSudoku.generatePuzzle 4 .easy [1, 2, 3, 4] coinsFalse coinsFalse
        []).constraints) = false := by decide

/-- Witness for C1 at concrete inputs. -/
theorem claim_C1_witness :
    ([1, 2, 3, 4] : List Nat).Perm (List.range' 1 4) ∧
    (∀ i : Nat, ([1, 2, 3, 4, 5, 6, 7, 8, 9] : List Nat).Perm (List.range' 1 9)) ∧
    (0 : Nat) % 3 = 0 ∧
    ClassicSudoku.validateBoard 4
      (ClassicSudoku.generatePuzzle 4 .easy [1, 2, 3, 4] []).solution = true ∧
    AsteriskSudoku.validateBoard
      (AsteriskSudoku.generateCompleteBoard (fun _ => [1, 2, 3, 4, 5, 6, 7, 8, 9])) =
      (AsteriskSudoku.genAttempts (fun _ => [1, 2, 3, 4, 5, 6, 7, 8, 9]) 1 100).isSome ∧
    JigsawSudoku.validateBoard 6
      (okOr jigsawDefault (JigsawSudoku.generatePuzzle 6 .easy 0
        (fun _ _ => [1, 2, 3, 4, 5, 6]) [1, 2, 3, 4, 5, 6] [])).solution
      (okOr jigsawDefault (JigsawSudoku.generatePuzzle 6 .easy 0
        (fun _ _ => [1, 2, 3, 4, 5, 6]) [1, 2, 3, 4, 5, 6] [])).jigsawRegions = true :=
  ⟨by decide, fun i => by decide, by decide,
   claim_C1.1 4 (Or.inl rfl) .easy [1, 2, 3, 4] [] (by decide),
   claim_C1.2.2.2.2.2.1 (fun _ => [1, 2, 3, 4, 5, 6, 7, 8, 9])
     (fun i => (by decide : ([1, 2, 3, 4, 5, 6, 7, 8, 9] : List Nat).Perm
       (List.range' 1 9))),
   claim_C1.2.2.2.2.2.2.2.1 .easy 0 (fun _ _ => [1, 2, 3, 4, 5, 6]) [1, 2, 3, 4, 5, 6]
     []
     (fun i j => (by decide : ([1, 2, 3, 4, 5, 6] : List Nat).Perm (List.range' 1 6)))
     (by decide) (by decide)⟩
